import Mathlib

/-!
# B+ tree index (BadgerDB `BTreeIndex`) : shallow embedding

The embedding follows `src/B Tree/btree.h` and `src/B Tree/btree.cpp`.

* The capacities `INTARRAYLEAFSIZE` and `INTARRAYNONLEAFSIZE` are derived from
  `Page::SIZE`, which is not part of the sources; they are the fields
  `leafOccupancy` and `nodeOccupancy` of the index and are arbitrary here.
* A page is a fixed-size buffer that the code casts to `LeafNodeInt`,
  `NonLeafNodeInt` or `IndexMetaInfo`.  Arrays are lists of the declared size;
  an access outside the declared bounds is undefined behaviour in C++ and is
  reported as the error `Err.outOfBounds`.
* Keys are C `int`s.  They are only copied and compared, never computed with,
  so they are integers here.
* C++ exceptions are the error results of `Except`; the state at the moment of
  the throw travels with the error, because the object stays usable afterwards.
* The split routines hand their (page, key) token back through a pointer to a
  local variable; the embedding passes the token by value.
-/

namespace badgerdb

/-- Datatype enumeration type (`btree.h`). -/
inductive Datatype where
  | INTEGER
  | DOUBLE
  | STRING
deriving DecidableEq, Repr

/-- Scan operations enumeration (`btree.h`). -/
inductive Operator where
  | LT
  | LTE
  | GTE
  | GT
deriving DecidableEq, Repr

/-- Exceptions thrown by the index, and the ways the embedding can stop. -/
inductive Err where
  | BadIndexInfoException
  | BadOpcodesException
  | BadScanrangeException
  | NoSuchKeyFoundException
  | ScanNotInitializedException
  | IndexScanCompletedException
  | invalidPage
  | badCast
  | outOfBounds
  | outOfFuel
deriving DecidableEq, Repr

/-- Record identifier: page number and slot number of a tuple. -/
structure RecordId where
  page_number : Nat
  slot_number : Nat
deriving DecidableEq, Repr

/-- Key / record id pair (`RIDKeyPair<int>`). -/
structure RIDKeyPair where
  rid : RecordId
  key : Int
deriving DecidableEq, Repr

/-- Page / key pair (`PageKeyPair<int>`), the token handed up after a split. -/
structure PageKeyPair where
  pageNo : Nat
  key : Int
deriving DecidableEq, Repr

/-- The meta page (`IndexMetaInfo`). -/
structure IndexMetaInfo where
  relationName : List Char
  attrByteOffset : Int
  attrType : Datatype
  rootPageNo : Nat
deriving DecidableEq, Repr

/-- Non-leaf node (`NonLeafNodeInt`): `keyArray` has `INTARRAYNONLEAFSIZE`
slots, `pageNoArray` one more. -/
structure NonLeafNodeInt where
  level : Int
  keyArray : List Int
  pageNoArray : List Nat
deriving DecidableEq, Repr

/-- Leaf node (`LeafNodeInt`): both arrays have `INTARRAYLEAFSIZE` slots. -/
structure LeafNodeInt where
  keyArray : List Int
  ridArray : List RecordId
  rightSibPageNo : Nat
deriving DecidableEq, Repr

/-- Array read `a[i]` with a C `int` index. -/
def rd {α : Type} (a : List α) (i : Int) : Except Err α :=
  if i < 0 then Except.error Err.outOfBounds
  else match a[i.toNat]? with
    | some v => Except.ok v
    | none => Except.error Err.outOfBounds

/-- Array write `a[i] = v` with a C `int` index. -/
def wr {α : Type} (a : List α) (i : Int) (v : α) : Except Err (List α) :=
  if i < 0 then Except.error Err.outOfBounds
  else if i.toNat < a.length then Except.ok (a.set i.toNat v)
  else Except.error Err.outOfBounds

/-- The call `memmove(&a[dst], &a[src], len * sizeof(a[0]))` inside one array. -/
def memmove {α : Type} (a : List α) (dst src : Int) (len : Nat) : Except Err (List α) :=
  if len = 0 then Except.ok a
  else if dst < 0 ∨ src < 0 then Except.error Err.outOfBounds
  else if src.toNat + len ≤ a.length ∧ dst.toNat + len ≤ a.length then
    Except.ok (a.take dst.toNat ++ (a.drop src.toNat).take len ++ a.drop (dst.toNat + len))
  else Except.error Err.outOfBounds

/-- The loop `while (i >= 0 && ridArray[i].page_number == 0) { i--; length++; }`
of `leafInsertion`.  The argument is `i + 1`, the result is `i + 1` at exit. -/
def leafSkipEmpty (ridArray : List RecordId) : Nat → Except Err Nat
  | 0 => Except.ok 0
  | n + 1 =>
    match rd ridArray (n : Int) with
    | Except.error e => Except.error e
    | Except.ok r => if r.page_number = 0 then leafSkipEmpty ridArray n else Except.ok (n + 1)

/-- The function `BTreeIndex::leafInsertion` (btree.cpp 384-404). -/
def leafInsertion (leafOccupancy : Nat) (node : LeafNodeInt) (entry : RIDKeyPair) :
    Except Err LeafNodeInt := do
  let r0 ← rd node.ridArray 0
  if r0.page_number = 0 then
    let rids ← wr node.ridArray 0 entry.rid
    let keys ← wr node.keyArray 0 entry.key
    pure { node with keyArray := keys, ridArray := rids }
  else
    let n ← leafSkipEmpty node.ridArray leafOccupancy
    let i : Int := (n : Int) - 1
    let length : Nat := leafOccupancy - n
    let keys ← memmove node.keyArray (i + 1) i length
    let rids ← memmove node.ridArray (i + 1) i length
    let keys ← wr keys (i + 1) entry.key
    let rids ← wr rids (i + 1) entry.rid
    pure { node with keyArray := keys, ridArray := rids }

/-- The loop `while (i >= 0 && pageNoArray[i] == 0) i--;` shared by
`nonLeafInsertion` and `findNext`.  The argument is `i + 1`, the result is
`i + 1` at exit. -/
def nonLeafSkipEmpty (pageNoArray : List Nat) : Nat → Except Err Nat
  | 0 => Except.ok 0
  | n + 1 =>
    match rd pageNoArray (n : Int) with
    | Except.error e => Except.error e
    | Except.ok p => if p = 0 then nonLeafSkipEmpty pageNoArray n else Except.ok (n + 1)

/-- The function `BTreeIndex::nonLeafInsertion` (btree.cpp 415-428). -/
def nonLeafInsertion (nodeOccupancy : Nat) (node : NonLeafNodeInt) (entry : PageKeyPair) :
    Except Err NonLeafNodeInt := do
  let n ← nonLeafSkipEmpty node.pageNoArray (nodeOccupancy + 1)
  let i : Int := (n : Int) - 1
  let length : Nat := nodeOccupancy + 1 - n
  let keys ← memmove node.keyArray i (i - 1) length
  let pages ← memmove node.pageNoArray (i + 1) i length
  let keys ← wr keys i entry.key
  let pages ← wr pages (i + 1) entry.pageNo
  pure { node with keyArray := keys, pageNoArray := pages }

/-- The function `BTreeIndex::checkSatisfy` (btree.cpp 444-454). -/
def checkSatisfy (lowVal : Int) (lowOp : Operator) (highVal : Int) (highOp : Operator)
    (val : Int) : Bool :=
  if lowOp = Operator.GTE ∧ highOp = Operator.LTE then
    decide (val ≥ lowVal) && decide (val ≤ highVal)
  else if lowOp = Operator.GT ∧ highOp = Operator.LTE then
    decide (val > lowVal) && decide (val ≤ highVal)
  else if lowOp = Operator.GTE ∧ highOp = Operator.LT then
    decide (val ≥ lowVal) && decide (val < highVal)
  else
    decide (val > lowVal) && decide (val < highVal)

/-- The loop `while (i > 0 && keyArray[i - 1] >= val) i--;` of `findNext`.
The argument and the result are `i`. -/
def findNextLoop (keyArray : List Int) (val : Int) : Nat → Except Err Nat
  | 0 => Except.ok 0
  | n + 1 =>
    match rd keyArray (n : Int) with
    | Except.error e => Except.error e
    | Except.ok k => if k ≥ val then findNextLoop keyArray val n else Except.ok (n + 1)

/-- The function `BTreeIndex::findNext` (btree.cpp 466-475); the result is
`nextNodeNum`. -/
def findNext (nodeOccupancy : Nat) (node : NonLeafNodeInt) (val : Int) : Except Err Nat := do
  let n ← nonLeafSkipEmpty node.pageNoArray (nodeOccupancy + 1)
  match n with
  | 0 => rd node.pageNoArray (-1)
  | m + 1 =>
    let i ← findNextLoop node.keyArray val m
    rd node.pageNoArray (i : Int)

/-- A page of the index file as the code views it.  A freshly allocated page
is `blank` (all bytes zero) until the code writes to it through one of the
three casts. -/
inductive Page where
  | blank
  | meta (m : IndexMetaInfo)
  | leaf (n : LeafNodeInt)
  | nonLeaf (n : NonLeafNodeInt)
deriving DecidableEq, Repr

/-- A page together with the buffer manager's bookkeeping for it. -/
structure Frame where
  page : Page
  pinCnt : Int
  dirty : Bool
deriving DecidableEq, Repr

/-- The members of `class BTreeIndex` (`btree.h`).  `bufPool` stands for
`file` and `bufMgr`: the page with number `p` is `bufPool[p - 1]`, page numbers
start at 1 and 0 is `Page::INVALID_NUMBER`.  `currentPageData` is a pointer
into the frame of `currentPageNum` and is not stored separately. -/
structure BTreeIndex where
  bufPool : List Frame
  headerPageNum : Nat
  rootPageNum : Nat
  attributeType : Datatype
  attrByteOffset : Int
  leafOccupancy : Nat
  nodeOccupancy : Nat
  scanExecuting : Bool
  nextEntry : Nat
  currentPageNum : Nat
  lowValInt : Int
  highValInt : Int
  lowOp : Operator
  highOp : Operator
  initialRootPageNum : Nat
deriving DecidableEq, Repr

/-- What a throwing operation leaves behind: the exception and the object. -/
abbrev Thrown := Err × BTreeIndex

/-- An all-zero page viewed as a leaf. -/
def zeroLeaf (leafOccupancy : Nat) : LeafNodeInt :=
  { keyArray := List.replicate leafOccupancy 0,
    ridArray := List.replicate leafOccupancy ⟨0, 0⟩,
    rightSibPageNo := 0 }

/-- An all-zero page viewed as a non-leaf node. -/
def zeroNonLeaf (nodeOccupancy : Nat) : NonLeafNodeInt :=
  { level := 0,
    keyArray := List.replicate nodeOccupancy 0,
    pageNoArray := List.replicate (nodeOccupancy + 1) 0 }

/-- An all-zero page viewed as the meta page. -/
def zeroMeta : IndexMetaInfo :=
  { relationName := [], attrByteOffset := 0, attrType := Datatype.INTEGER, rootPageNo := 0 }

/-- The cast `(LeafNodeInt *) page`. -/
def asLeaf (leafOccupancy : Nat) : Page → Except Err LeafNodeInt
  | Page.blank => Except.ok (zeroLeaf leafOccupancy)
  | Page.leaf n => Except.ok n
  | _ => Except.error Err.badCast

/-- The cast `(NonLeafNodeInt *) page`. -/
def asNonLeaf (nodeOccupancy : Nat) : Page → Except Err NonLeafNodeInt
  | Page.blank => Except.ok (zeroNonLeaf nodeOccupancy)
  | Page.nonLeaf n => Except.ok n
  | _ => Except.error Err.badCast

/-- The cast `(IndexMetaInfo *) page`. -/
def asMeta : Page → Except Err IndexMetaInfo
  | Page.blank => Except.ok zeroMeta
  | Page.meta m => Except.ok m
  | _ => Except.error Err.badCast

/-- Attach the current object to an error of a node-level computation. -/
def liftE {α : Type} (s : BTreeIndex) : Except Err α → Except Thrown α
  | Except.ok a => Except.ok a
  | Except.error e => Except.error (e, s)

/-- The frame of page `p`, if the file has such a page. -/
def getFrame (s : BTreeIndex) (p : Nat) : Option Frame :=
  if p = 0 then none else s.bufPool[p - 1]?

/-- Replace the frame of page `p`. -/
def setFrame (s : BTreeIndex) (p : Nat) (f : Frame) : BTreeIndex :=
  if p = 0 then s else { s with bufPool := s.bufPool.set (p - 1) f }

/-- Modelled from the spec: the buffer manager call `readPage(file, pageId)`,
which is not part of the sources.  It pins the page; a page number the file
does not have is refused. -/
def readPage (s : BTreeIndex) (p : Nat) : Except Thrown BTreeIndex :=
  match getFrame s p with
  | none => Except.error (Err.invalidPage, s)
  | some f => Except.ok (setFrame s p { f with pinCnt := f.pinCnt + 1 })

/-- Modelled from the spec: the buffer manager call `allocPage(file)`, which is
not part of the sources.  It appends a zeroed page to the file, pins it and
returns its number. -/
def allocPage (s : BTreeIndex) : Nat × BTreeIndex :=
  (s.bufPool.length + 1,
   { s with bufPool := s.bufPool ++ [{ page := Page.blank, pinCnt := 1, dirty := false }] })

/-- Modelled from the spec: the buffer manager call
`unPinPage(file, pageId, isDirty)`, which is not part of the sources.  It
releases one pin and records the dirty flag. -/
def unPinPage (s : BTreeIndex) (p : Nat) (isDirty : Bool) : BTreeIndex :=
  match getFrame s p with
  | none => s
  | some f => setFrame s p { f with pinCnt := f.pinCnt - 1, dirty := f.dirty || isDirty }

/-- Dereference a `LeafNodeInt *` that points to the frame of page `p`. -/
def getLeaf (s : BTreeIndex) (p : Nat) : Except Thrown LeafNodeInt :=
  match getFrame s p with
  | none => Except.error (Err.invalidPage, s)
  | some f => liftE s (asLeaf s.leafOccupancy f.page)

/-- Dereference a `NonLeafNodeInt *` that points to the frame of page `p`. -/
def getNonLeaf (s : BTreeIndex) (p : Nat) : Except Thrown NonLeafNodeInt :=
  match getFrame s p with
  | none => Except.error (Err.invalidPage, s)
  | some f => liftE s (asNonLeaf s.nodeOccupancy f.page)

/-- Dereference an `IndexMetaInfo *` that points to the frame of page `p`. -/
def getMeta (s : BTreeIndex) (p : Nat) : Except Thrown IndexMetaInfo :=
  match getFrame s p with
  | none => Except.error (Err.invalidPage, s)
  | some f => liftE s (asMeta f.page)

/-- Store the contents of page `p`; pin count and dirty flag stay. -/
def putPage (s : BTreeIndex) (p : Nat) (pg : Page) : BTreeIndex :=
  match getFrame s p with
  | none => s
  | some f => setFrame s p { f with page := pg }

/-- The writes of `updateRoot` into the new root node (btree.cpp 358-361). -/
def updateRootNode (newRoot : NonLeafNodeInt) (level : Int) (firstPid : Nat)
    (newEntry : PageKeyPair) : Except Err NonLeafNodeInt :=
  match wr newRoot.pageNoArray 0 firstPid with
  | Except.error e => Except.error e
  | Except.ok pages =>
    match wr pages 1 newEntry.pageNo with
    | Except.error e => Except.error e
    | Except.ok pages =>
      match wr newRoot.keyArray 0 newEntry.key with
      | Except.error e => Except.error e
      | Except.ok keys => Except.ok { level := level, keyArray := keys, pageNoArray := pages }

/-- The function `BTreeIndex::updateRoot` (btree.cpp 350-373). -/
def updateRoot (s : BTreeIndex) (firstPid : Nat) (newEntry : PageKeyPair) :
    Except Thrown BTreeIndex :=
  let newRootPageId := (allocPage s).1
  let s1 := (allocPage s).2
  match getNonLeaf s1 newRootPageId with
  | Except.error e => Except.error e
  | Except.ok newRoot =>
    match liftE s1 (updateRootNode newRoot
        (if s1.initialRootPageNum = s1.rootPageNum then 1 else 0) firstPid newEntry) with
    | Except.error e => Except.error e
    | Except.ok newRoot =>
      match readPage (putPage s1 newRootPageId (Page.nonLeaf newRoot)) s1.headerPageNum with
      | Except.error e => Except.error e
      | Except.ok s3 =>
        match getMeta s3 s1.headerPageNum with
        | Except.error e => Except.error e
        | Except.ok metaPage =>
          Except.ok
            (unPinPage
              (unPinPage
                { putPage s3 s1.headerPageNum
                    (Page.meta { metaPage with rootPageNo := newRootPageId }) with
                  rootPageNum := newRootPageId }
                s1.headerPageNum true)
              newRootPageId true)

/-- The body of the copy loop of `splitLeaf` (btree.cpp 314-318) for index `i`. -/
def splitLeafStep (midPt i : Nat) (node newLeafNode : LeafNodeInt) :
    Except Err (LeafNodeInt × LeafNodeInt) := do
  let r ← rd node.ridArray (i : Int)
  let newRids ← wr newLeafNode.ridArray ((i : Int) - (midPt : Int)) r
  let key ← rd node.keyArray (i : Int)
  let newKeys ← wr newLeafNode.keyArray ((i : Int) - (midPt : Int)) key
  let rids ← wr node.ridArray (i : Int) { r with page_number := 0 }
  let keys ← wr node.keyArray (i : Int) 0
  pure ({ node with keyArray := keys, ridArray := rids },
        { newLeafNode with keyArray := newKeys, ridArray := newRids })

/-- The copy loop of `splitLeaf` (btree.cpp 313-319); the first argument counts
the remaining iterations, the second is `i`. -/
def splitLeafLoop (midPt : Nat) :
    Nat → Nat → LeafNodeInt → LeafNodeInt → Except Err (LeafNodeInt × LeafNodeInt)
  | 0, _, node, newLeafNode => Except.ok (node, newLeafNode)
  | k + 1, i, node, newLeafNode =>
    match splitLeafStep midPt i node newLeafNode with
    | Except.error e => Except.error e
    | Except.ok (node, newLeafNode) => splitLeafLoop midPt k (i + 1) node newLeafNode

/-- The midpoint of `splitLeaf` (btree.cpp 309-312). -/
def splitLeafMidPt (leafOccupancy : Nat) (node : LeafNodeInt) (entry : RIDKeyPair) :
    Except Err Nat :=
  if leafOccupancy % 2 = 1 then
    match rd node.keyArray ((leafOccupancy / 2 : Nat) : Int) with
    | Except.error e => Except.error e
    | Except.ok km =>
      Except.ok (if entry.key > km then leafOccupancy / 2 + 1 else leafOccupancy / 2)
  else Except.ok (leafOccupancy / 2)

/-- The insertion of the entry into one of the two leaves in `splitLeaf`
(btree.cpp 322-325). -/
def splitLeafInsert (leafOccupancy midPt : Nat) (node newLeafNode : LeafNodeInt)
    (entry : RIDKeyPair) : Except Err (LeafNodeInt × LeafNodeInt) :=
  match rd node.keyArray ((midPt : Int) - 1) with
  | Except.error e => Except.error e
  | Except.ok kl =>
    if entry.key > kl then
      match leafInsertion leafOccupancy newLeafNode entry with
      | Except.error e => Except.error e
      | Except.ok n => Except.ok (node, n)
    else
      match leafInsertion leafOccupancy node entry with
      | Except.error e => Except.error e
      | Except.ok n => Except.ok (n, newLeafNode)

/-- The node-level part of `splitLeaf` (btree.cpp 308-332): midpoint, copy
loop, insertion of the entry, sibling link.  The result is the original leaf,
the new leaf and the key of the token. -/
def splitLeafNodes (leafOccupancy : Nat) (node newLeafNode : LeafNodeInt)
    (newPageNum : Nat) (entry : RIDKeyPair) :
    Except Err (LeafNodeInt × LeafNodeInt × Int) :=
  match splitLeafMidPt leafOccupancy node entry with
  | Except.error e => Except.error e
  | Except.ok midPt =>
    match splitLeafLoop midPt (leafOccupancy - midPt) midPt node newLeafNode with
    | Except.error e => Except.error e
    | Except.ok (node, newLeafNode) =>
      match splitLeafInsert leafOccupancy midPt node newLeafNode entry with
      | Except.error e => Except.error e
      | Except.ok (node, newLeafNode) =>
        match rd newLeafNode.keyArray 0 with
        | Except.error e => Except.error e
        | Except.ok k0 =>
          Except.ok (node, { newLeafNode with rightSibPageNo := newPageNum }, k0)

/-- The end of `splitLeaf` and of `splitNonLeaf` (btree.cpp 333-337 and
281-285): both pages are unpinned dirty, and a split of the root is followed by
`updateRoot`. -/
def splitFinish (s : BTreeIndex) (pageId newPageId : Nat) (tok : PageKeyPair) :
    Except Thrown (PageKeyPair × BTreeIndex) :=
  let s1 := unPinPage (unPinPage s pageId true) newPageId true
  if pageId = s1.rootPageNum then
    match updateRoot s1 pageId tok with
    | Except.error e => Except.error e
    | Except.ok s2 => Except.ok (tok, s2)
  else Except.ok (tok, s1)

/-- The function `BTreeIndex::splitLeaf` (btree.cpp 300-338).  `node` is the
frame of `leafPageId`; the result carries the token `newEntry`. -/
def splitLeaf (s : BTreeIndex) (leafPageId : Nat) (entry : RIDKeyPair) :
    Except Thrown (PageKeyPair × BTreeIndex) :=
  let newPageNum := (allocPage s).1
  let s1 := (allocPage s).2
  match getLeaf s1 leafPageId with
  | Except.error e => Except.error e
  | Except.ok node =>
    match getLeaf s1 newPageNum with
    | Except.error e => Except.error e
    | Except.ok newLeafNode =>
      match liftE s1 (splitLeafNodes s1.leafOccupancy node newLeafNode newPageNum entry) with
      | Except.error e => Except.error e
      | Except.ok (node, newLeafNode, k0) =>
        splitFinish
          (putPage (putPage s1 leafPageId (Page.leaf node)) newPageNum (Page.leaf newLeafNode))
          leafPageId newPageNum { pageNo := newPageNum, key := k0 }

/-- The body of the copy loop of `splitNonLeaf` (btree.cpp 263-267) for index
`i`. -/
def splitNonLeafStep (midPt i : Nat) (node newNode : NonLeafNodeInt) :
    Except Err (NonLeafNodeInt × NonLeafNodeInt) := do
  let p ← rd node.pageNoArray ((i : Int) + 1)
  let newPages ← wr newNode.pageNoArray ((i : Int) - (midPt : Int)) p
  let key ← rd node.keyArray (i : Int)
  let newKeys ← wr newNode.keyArray ((i : Int) - (midPt : Int)) key
  let pages ← wr node.pageNoArray ((i : Int) + 1) 0
  let keys ← wr node.keyArray ((i : Int) + 1) 0
  pure ({ node with keyArray := keys, pageNoArray := pages },
        { newNode with keyArray := newKeys, pageNoArray := newPages })

/-- The copy loop of `splitNonLeaf` (btree.cpp 262-268); the first argument
counts the remaining iterations, the second is `i`. -/
def splitNonLeafLoop (midPt : Nat) :
    Nat → Nat → NonLeafNodeInt → NonLeafNodeInt → Except Err (NonLeafNodeInt × NonLeafNodeInt)
  | 0, _, node, newNode => Except.ok (node, newNode)
  | k + 1, i, node, newNode =>
    match splitNonLeafStep midPt i node newNode with
    | Except.error e => Except.error e
    | Except.ok (node, newNode) => splitNonLeafLoop midPt k (i + 1) node newNode

/-- The choice of `pushIndex` in `splitNonLeaf` (btree.cpp 252-257). -/
def pushIndexOf (nodeOccupancy : Nat) (node : NonLeafNodeInt) (newEntry : PageKeyPair) :
    Except Err Int :=
  if nodeOccupancy % 2 = 0 then
    match rd node.keyArray ((nodeOccupancy / 2 : Nat) : Int) with
    | Except.error e => Except.error e
    | Except.ok km =>
      Except.ok (if newEntry.key < km then ((nodeOccupancy / 2 : Nat) : Int) - 1
                 else ((nodeOccupancy / 2 : Nat) : Int))
  else Except.ok ((nodeOccupancy / 2 : Nat) : Int)

/-- The clearing of the pushed-up slot and the insertion of the pending token
into one of the two nodes in `splitNonLeaf` (btree.cpp 271-277). -/
def splitNonLeafInsert (nodeOccupancy : Nat) (pushIndex : Int) (node newNode : NonLeafNodeInt)
    (newEntry : PageKeyPair) : Except Err (NonLeafNodeInt × NonLeafNodeInt) :=
  match wr node.keyArray pushIndex 0 with
  | Except.error e => Except.error e
  | Except.ok keys =>
    match wr node.pageNoArray pushIndex 0 with
    | Except.error e => Except.error e
    | Except.ok pages =>
      match rd newNode.keyArray 0 with
      | Except.error e => Except.error e
      | Except.ok k0 =>
        if newEntry.key < k0 then
          match nonLeafInsertion nodeOccupancy
              { node with keyArray := keys, pageNoArray := pages } newEntry with
          | Except.error e => Except.error e
          | Except.ok n => Except.ok (n, { newNode with level := node.level })
        else
          match nonLeafInsertion nodeOccupancy { newNode with level := node.level } newEntry with
          | Except.error e => Except.error e
          | Except.ok n => Except.ok ({ node with keyArray := keys, pageNoArray := pages }, n)

/-- The node-level part of `splitNonLeaf` (btree.cpp 252-277).  The result is
the original node, the new node and the key of the pushed-up token. -/
def splitNonLeafNodes (nodeOccupancy : Nat) (node newNode : NonLeafNodeInt)
    (newEntry : PageKeyPair) : Except Err (NonLeafNodeInt × NonLeafNodeInt × Int) :=
  match pushIndexOf nodeOccupancy node newEntry with
  | Except.error e => Except.error e
  | Except.ok pushIndex =>
    match rd node.keyArray pushIndex with
    | Except.error e => Except.error e
    | Except.ok pushKey =>
      match splitNonLeafLoop (pushIndex + 1).toNat (nodeOccupancy - (pushIndex + 1).toNat)
          (pushIndex + 1).toNat node newNode with
      | Except.error e => Except.error e
      | Except.ok (node, newNode) =>
        match splitNonLeafInsert nodeOccupancy pushIndex node newNode newEntry with
        | Except.error e => Except.error e
        | Except.ok (node, newNode) => Except.ok (node, newNode, pushKey)

/-- The function `BTreeIndex::splitNonLeaf` (btree.cpp 244-286).  `node` is the
frame of `pageId`; the result carries the new token. -/
def splitNonLeaf (s : BTreeIndex) (pageId : Nat) (newEntry : PageKeyPair) :
    Except Thrown (PageKeyPair × BTreeIndex) :=
  let newPageId := (allocPage s).1
  let s1 := (allocPage s).2
  match getNonLeaf s1 pageId with
  | Except.error e => Except.error e
  | Except.ok node =>
    match getNonLeaf s1 newPageId with
    | Except.error e => Except.error e
    | Except.ok newNode =>
      match liftE s1 (splitNonLeafNodes s1.nodeOccupancy node newNode newEntry) with
      | Except.error e => Except.error e
      | Except.ok (node, newNode, pushKey) =>
        splitFinish
          (putPage (putPage s1 pageId (Page.nonLeaf node)) newPageId (Page.nonLeaf newNode))
          pageId newPageId { pageNo := newPageId, key := pushKey }

/-- The leaf case of `insertion` (btree.cpp 217-230). -/
def insertionLeaf (s : BTreeIndex) (currPageNum : Nat) (entry : RIDKeyPair) :
    Except Thrown (Option PageKeyPair × BTreeIndex) :=
  match getLeaf s currPageNum with
  | Except.error e => Except.error e
  | Except.ok node =>
    match liftE s (rd node.ridArray ((s.leafOccupancy : Int) - 1)) with
    | Except.error e => Except.error e
    | Except.ok last =>
      if last.page_number = 0 then
        match liftE s (leafInsertion s.leafOccupancy node entry) with
        | Except.error e => Except.error e
        | Except.ok node =>
          Except.ok (none, unPinPage (putPage s currPageNum (Page.leaf node)) currPageNum true)
      else
        match splitLeaf s currPageNum entry with
        | Except.error e => Except.error e
        | Except.ok (tok, s) => Except.ok (some tok, s)

/-- The reaction of `insertion` at a non-leaf node to the result of the
recursive call (btree.cpp 199-213). -/
def insertionAbsorb (s : BTreeIndex) (currPageNum : Nat) (newEntry : Option PageKeyPair) :
    Except Thrown (Option PageKeyPair × BTreeIndex) :=
  match newEntry with
  | none => Except.ok (none, unPinPage s currPageNum false)
  | some tok =>
    match getNonLeaf s currPageNum with
    | Except.error e => Except.error e
    | Except.ok node =>
      match liftE s (rd node.pageNoArray (s.nodeOccupancy : Int)) with
      | Except.error e => Except.error e
      | Except.ok last =>
        if last = 0 then
          match liftE s (nonLeafInsertion s.nodeOccupancy node tok) with
          | Except.error e => Except.error e
          | Except.ok node =>
            Except.ok (none,
              unPinPage (putPage s currPageNum (Page.nonLeaf node)) currPageNum true)
        else
          match splitNonLeaf s currPageNum tok with
          | Except.error e => Except.error e
          | Except.ok (tok, s) => Except.ok (some tok, s)

/-- The function `BTreeIndex::insertion` (btree.cpp 181-231).  `current` is the
frame of `currPageNum`; the result carries `newEntry` (`none` for `nullptr`).
The first argument bounds the depth of the recursion. -/
def insertion : Nat → BTreeIndex → Nat → RIDKeyPair → Bool →
    Except Thrown (Option PageKeyPair × BTreeIndex)
  | 0, s, _, _, _ => Except.error (Err.outOfFuel, s)
  | fuel + 1, s, currPageNum, entry, isLeaf =>
    if isLeaf = false then
      match getNonLeaf s currPageNum with
      | Except.error e => Except.error e
      | Except.ok node =>
        match liftE s (findNext s.nodeOccupancy node entry.key) with
        | Except.error e => Except.error e
        | Except.ok nextNode =>
          match readPage s nextNode with
          | Except.error e => Except.error e
          | Except.ok s1 =>
            match insertion fuel s1 nextNode entry (decide (node.level = 1)) with
            | Except.error e => Except.error e
            | Except.ok (newEntry, s2) => insertionAbsorb s2 currPageNum newEntry
    else insertionLeaf s currPageNum entry

/-- The function `BTreeIndex::insertEntry` (btree.cpp 154-166).  A descent
that visits more nodes than the file has pages has entered a cycle, so the
page count bounds the recursion. -/
def insertEntry (s : BTreeIndex) (key : Int) (rid : RecordId) : Except Thrown BTreeIndex :=
  match readPage s s.rootPageNum with
  | Except.error e => Except.error e
  | Except.ok s1 =>
    match insertion (s1.bufPool.length + 2) s1 s1.rootPageNum { rid := rid, key := key }
        (decide (s1.initialRootPageNum = s1.rootPageNum)) with
    | Except.error e => Except.error e
    | Except.ok (_, s2) => Except.ok s2

/-- The function `BTreeIndex::endScan` (btree.cpp 638-645). -/
def endScan (s : BTreeIndex) : Except Thrown BTreeIndex :=
  if s.scanExecuting = false then Except.error (Err.ScanNotInitializedException, s)
  else Except.ok (unPinPage { s with scanExecuting := false } s.currentPageNum false)

/-- The descent loop of `startScan` (btree.cpp 524-537).  The first argument
bounds the number of iterations. -/
def startScanDescend : Nat → BTreeIndex → Except Thrown BTreeIndex
  | 0, s => Except.error (Err.outOfFuel, s)
  | fuel + 1, s =>
    match getNonLeaf s s.currentPageNum with
    | Except.error e => Except.error e
    | Except.ok node =>
      match liftE s (findNext s.nodeOccupancy node s.lowValInt) with
      | Except.error e => Except.error e
      | Except.ok nextPageNum =>
        match readPage { unPinPage s s.currentPageNum false with currentPageNum := nextPageNum }
            nextPageNum with
        | Except.error e => Except.error e
        | Except.ok s => if node.level = 1 then Except.ok s else startScanDescend fuel s

/-- The update of `foundVal` in the `for` loop of `startScan`
(btree.cpp 555-557): the slot after `i` is unused.  The test
`i < leafOccupancy - 1` is written `i + 1 < leafOccupancy`. -/
def startScanFoundVal (leafNode : LeafNodeInt) (i : Nat) (s : BTreeIndex) : Except Thrown Bool :=
  if i + 1 < s.leafOccupancy then
    match liftE s (rd leafNode.ridArray ((i : Int) + 1)) with
    | Except.error e => Except.error e
    | Except.ok r => Except.ok (decide (r.page_number = 0))
  else Except.ok false

/-- The end of a leaf in the `for` loop of `startScan` (btree.cpp 577-584):
unpin the current page and read the right sibling of `leafNode`. -/
def startScanToSibling (leafNode : LeafNodeInt) (s : BTreeIndex) : Except Thrown BTreeIndex :=
  let s := unPinPage s s.currentPageNum false
  if leafNode.rightSibPageNo = 0 then Except.error (Err.NoSuchKeyFoundException, s)
  else readPage { s with currentPageNum := leafNode.rightSibPageNo } leafNode.rightSibPageNo

/-- The `for` loop over the slots of `leafNode` in `startScan`
(btree.cpp 553-586).  The first argument counts the remaining slots, the second
is `i`.  The result is the value of `found` and the object. -/
def startScanFor (leafNode : LeafNodeInt) :
    Nat → Nat → BTreeIndex → Except Thrown (Bool × BTreeIndex)
  | 0, _, s => Except.ok (false, s)
  | k + 1, i, s =>
    match liftE s (rd leafNode.keyArray (i : Int)) with
    | Except.error e => Except.error e
    | Except.ok val =>
      match startScanFoundVal leafNode i s with
      | Except.error e => Except.error e
      | Except.ok foundVal =>
        if checkSatisfy s.lowValInt s.lowOp s.highValInt s.highOp val = true then
          Except.ok (true, { s with nextEntry := i, scanExecuting := true })
        else if s.highOp = Operator.LT ∧ val ≥ s.highValInt then
          Except.error (Err.NoSuchKeyFoundException, unPinPage s s.currentPageNum false)
        else if s.highOp = Operator.LTE ∧ val > s.highValInt then
          Except.error (Err.NoSuchKeyFoundException, unPinPage s s.currentPageNum false)
        else if foundVal = true ∨ i + 1 = s.leafOccupancy then
          match startScanToSibling leafNode s with
          | Except.error e => Except.error e
          | Except.ok s => Except.ok (false, s)
        else startScanFor leafNode k (i + 1) s

/-- The `while (!found)` loop over `leafNode` in `startScan`
(btree.cpp 543-587).  `leafNode` is assigned once before the loop and is the
same node in every iteration.  The first argument bounds the iterations. -/
def startScanWhile (leafNode : LeafNodeInt) : Nat → BTreeIndex → Except Thrown BTreeIndex
  | 0, s => Except.error (Err.outOfFuel, s)
  | fuel + 1, s =>
    match liftE s (rd leafNode.ridArray 0) with
    | Except.error e => Except.error e
    | Except.ok r0 =>
      if r0.page_number = 0 then
        Except.error (Err.NoSuchKeyFoundException, unPinPage s s.currentPageNum false)
      else
        match startScanFor leafNode s.leafOccupancy 0 s with
        | Except.error e => Except.error e
        | Except.ok (true, s) => Except.ok s
        | Except.ok (false, s) => startScanWhile leafNode fuel s

/-- The start of the search in `startScan` (btree.cpp 512-538): end a running
scan, read the root and descend to a leaf. -/
def startScanToLeaf (fuel : Nat) (s : BTreeIndex) : Except Thrown BTreeIndex :=
  match (if s.scanExecuting = true then endScan s else Except.ok s) with
  | Except.error e => Except.error e
  | Except.ok s =>
    match readPage { s with currentPageNum := s.rootPageNum } s.rootPageNum with
    | Except.error e => Except.error e
    | Except.ok s =>
      if s.initialRootPageNum ≠ s.rootPageNum then startScanDescend fuel s else Except.ok s

/-- The part of `startScan` after the validation of its arguments
(btree.cpp 512-587): reach a leaf, then search it. -/
def startScanSearch (fuel : Nat) (s : BTreeIndex) : Except Thrown BTreeIndex :=
  match startScanToLeaf fuel s with
  | Except.error e => Except.error e
  | Except.ok s =>
    match getLeaf s s.currentPageNum with
    | Except.error e => Except.error e
    | Except.ok leafNode => startScanWhile leafNode fuel s

/-- The function `BTreeIndex::startScan` (btree.cpp 496-588).  The first
argument bounds the iterations of each of its two `while` loops. -/
def startScan (fuel : Nat) (s : BTreeIndex) (lowValParm : Int) (lowOpParm : Operator)
    (highValParm : Int) (highOpParm : Operator) : Except Thrown BTreeIndex :=
  if lowOpParm ≠ Operator.GT ∧ lowOpParm ≠ Operator.GTE then
    Except.error (Err.BadOpcodesException, s)
  else if highOpParm ≠ Operator.LT ∧ highOpParm ≠ Operator.LTE then
    Except.error (Err.BadOpcodesException, s)
  else
    let s := { s with lowOp := lowOpParm, highOp := highOpParm,
                      lowValInt := lowValParm, highValInt := highValParm }
    if s.lowValInt > s.highValInt then Except.error (Err.BadScanrangeException, s)
    else startScanSearch fuel s

/-- The read `outRid = node->ridArray[nextEntry]` of `scanNext`
(btree.cpp 611).  When `nextEntry` equals `INTARRAYLEAFSIZE` the code reads the
slot just past `ridArray`, where the structure holds `rightSibPageNo`; the test
`nextEntry == INTARRAYLEAFSIZE` then takes the branch whatever was read. -/
def scanNextOutRid (node : LeafNodeInt) (s : BTreeIndex) : Except Thrown RecordId :=
  if s.nextEntry = s.leafOccupancy then
    Except.ok { page_number := node.rightSibPageNo, slot_number := 0 }
  else liftE s (rd node.ridArray (s.nextEntry : Int))

/-- The move of `scanNext` to the right sibling (btree.cpp 613-620); the
result is the node `node` points to afterwards, and the object. -/
def scanNextToSibling (node : LeafNodeInt) (s : BTreeIndex) :
    Except Thrown (LeafNodeInt × BTreeIndex) :=
  let s := unPinPage s s.currentPageNum false
  if node.rightSibPageNo = 0 then Except.error (Err.IndexScanCompletedException, s)
  else
    match readPage { s with nextEntry := 0, currentPageNum := node.rightSibPageNo }
        node.rightSibPageNo with
    | Except.error e => Except.error e
    | Except.ok s =>
      match getLeaf s s.currentPageNum with
      | Except.error e => Except.error e
      | Except.ok node => Except.ok (node, s)

/-- The end of `scanNext` (btree.cpp 623-627): test the key in slot
`nextEntry` of `node`. -/
def scanNextCheck (node : LeafNodeInt) (outRid : RecordId) (s : BTreeIndex) :
    Except Thrown (RecordId × BTreeIndex) :=
  match liftE s (rd node.keyArray (s.nextEntry : Int)) with
  | Except.error e => Except.error e
  | Except.ok val =>
    if checkSatisfy s.lowValInt s.lowOp s.highValInt s.highOp val = true then
      Except.ok (outRid, { s with nextEntry := s.nextEntry + 1 })
    else Except.error (Err.IndexScanCompletedException, s)

/-- The function `BTreeIndex::scanNext` (btree.cpp 603-628); the result carries
`outRid`. -/
def scanNext (s : BTreeIndex) : Except Thrown (RecordId × BTreeIndex) :=
  if s.scanExecuting = false then Except.error (Err.ScanNotInitializedException, s)
  else
    match getLeaf s s.currentPageNum with
    | Except.error e => Except.error e
    | Except.ok node =>
      match scanNextOutRid node s with
      | Except.error e => Except.error e
      | Except.ok outRid =>
        if outRid.page_number = 0 ∨ s.nextEntry = s.leafOccupancy then
          match scanNextToSibling node s with
          | Except.error e => Except.error e
          | Except.ok (node, s) => scanNextCheck node outRid s
        else scanNextCheck node outRid s

/-- The C string `relationName.c_str()` as `strncpy` and `strcmp` read it: the
characters before the first NUL. -/
def cString (relationName : List Char) : List Char :=
  relationName.takeWhile (fun c => decide (c ≠ Char.ofNat 0))

/-- The create path of the constructor up to the bulk load (btree.cpp 45-100):
header and root page are allocated and still pinned.  Members the constructor
leaves uninitialised are zero here; nothing reads them before they are set. -/
def createStart (relationName : List Char) (attrByteOffset : Int) (attrType : Datatype)
    (leafOccupancy nodeOccupancy : Nat) : Except Thrown BTreeIndex := do
  let s : BTreeIndex :=
    { bufPool := [], headerPageNum := 0, rootPageNum := 0,
      attributeType := attrType, attrByteOffset := attrByteOffset,
      leafOccupancy := leafOccupancy, nodeOccupancy := nodeOccupancy,
      scanExecuting := false, nextEntry := 0, currentPageNum := 0,
      lowValInt := 0, highValInt := 0, lowOp := Operator.LT, highOp := Operator.LT,
      initialRootPageNum := 0 }
  let (headerPageNum, s) := allocPage s
  let s := { s with headerPageNum := headerPageNum }
  let (rootPageNum, s) := allocPage s
  let s := { s with rootPageNum := rootPageNum }
  let metadata ← getMeta s s.headerPageNum
  let metadata := { metadata with relationName := (cString relationName).take 19,
                                  attrByteOffset := attrByteOffset,
                                  attrType := attrType,
                                  rootPageNo := s.rootPageNum }
  let s := putPage s s.headerPageNum (Page.meta metadata)
  let s := { s with initialRootPageNum := s.rootPageNum }
  let root ← getLeaf s s.rootPageNum
  let s := putPage s s.rootPageNum (Page.leaf { root with rightSibPageNo := 0 })
  pure s

/-- Repeated `insertEntry`, one call per (key, record id) pair. -/
def insertAll : BTreeIndex → List (Int × RecordId) → Except Thrown BTreeIndex
  | s, [] => Except.ok s
  | s, (k, r) :: rest =>
    match insertEntry s k r with
    | Except.error e => Except.error e
    | Except.ok s => insertAll s rest

/-- The create path of the constructor (btree.cpp 84-119); `relation` lists the
key and record id that the file scan delivers for each tuple. -/
def createIndex (relationName : List Char) (attrByteOffset : Int) (attrType : Datatype)
    (leafOccupancy nodeOccupancy : Nat) (relation : List (Int × RecordId)) :
    Except Thrown BTreeIndex := do
  let s ← createStart relationName attrByteOffset attrType leafOccupancy nodeOccupancy
  let s ← insertAll s relation
  let s := unPinPage s s.headerPageNum true
  let s := unPinPage s s.rootPageNum true
  pure s

/-- The open path of the constructor (btree.cpp 45-82): the index file exists
and `file` holds its pages.  The header is the first page of the file, page 1.
The open path never assigns `initialRootPageNum`; the value the member happens
to have is the last argument.  The other members it leaves unassigned are
written by `startScan` before they are read and are zero here. -/
def openIndex (file : List Frame) (relationName : List Char) (attrByteOffset : Int)
    (attrType : Datatype) (leafOccupancy nodeOccupancy : Nat) (initialRootPageNum : Nat) :
    Except Thrown BTreeIndex :=
  let s : BTreeIndex :=
    { bufPool := file, headerPageNum := 1, rootPageNum := 0,
      attributeType := attrType, attrByteOffset := attrByteOffset,
      leafOccupancy := leafOccupancy, nodeOccupancy := nodeOccupancy,
      scanExecuting := false, nextEntry := 0, currentPageNum := 0,
      lowValInt := 0, highValInt := 0, lowOp := Operator.LT, highOp := Operator.LT,
      initialRootPageNum := initialRootPageNum }
  match readPage s s.headerPageNum with
  | Except.error e => Except.error e
  | Except.ok s =>
    match getMeta s s.headerPageNum with
    | Except.error e => Except.error e
    | Except.ok metadata =>
      let s := { s with rootPageNum := metadata.rootPageNo }
      if metadata.relationName ≠ cString relationName ∨ metadata.attrType ≠ attrType
          ∨ metadata.attrByteOffset ≠ attrByteOffset then
        Except.error (Err.BadIndexInfoException, unPinPage s s.headerPageNum false)
      else Except.ok (unPinPage s s.headerPageNum false)

/-- The constructor run twice on the same index file: the first run finds no
file and creates it from `relation`, the second run opens the file the first
one left, with the arguments `relationName2`, `attrByteOffset2`, `attrType2`. -/
def reopenIndex (relationName : List Char) (attrByteOffset : Int) (attrType : Datatype)
    (leafOccupancy nodeOccupancy : Nat) (relation : List (Int × RecordId))
    (relationName2 : List Char) (attrByteOffset2 : Int) (attrType2 : Datatype)
    (initialRootPageNum : Nat) : Except Thrown BTreeIndex :=
  match createIndex relationName attrByteOffset attrType leafOccupancy nodeOccupancy relation with
  | Except.error e => Except.error e
  | Except.ok s =>
    openIndex s.bufPool relationName2 attrByteOffset2 attrType2 leafOccupancy nodeOccupancy
      initialRootPageNum

/-- Record ids delivered by `scanNext` until it throws, together with the
exception and the final object; at most `n` calls are made. -/
def scanAll : Nat → BTreeIndex → List RecordId × Err × BTreeIndex
  | 0, s => ([], Err.outOfFuel, s)
  | n + 1, s =>
    match scanNext s with
    | Except.error (e, s) => ([], e, s)
    | Except.ok (r, s) =>
      let (rs, e, s) := scanAll n s
      (r :: rs, e, s)

/-! ### Observers used to state the properties -/

/-- Pin count the buffer manager holds for page `p` (0 for a page the file
does not have). -/
def pinCntOf (s : BTreeIndex) (p : Nat) : Int :=
  match getFrame s p with
  | none => 0
  | some f => f.pinCnt

/-- The pin a Positioned scan holds: one on `currentPageNum`. -/
def scanPin (s : BTreeIndex) (p : Nat) : Int :=
  if s.scanExecuting = true ∧ p = s.currentPageNum ∧ (getFrame s p).isSome then 1 else 0

/-- Keys of the used slots of a leaf (slots whose record id has a non-zero
page number), in slot order. -/
def usedKeys (n : LeafNodeInt) : List Int :=
  (n.keyArray.zip n.ridArray).filterMap
    (fun kr => if kr.2.page_number = 0 then none else some kr.1)

/-- Keys met when following `rightSibPageNo` from leaf `p` until the 0
sentinel; at most the given number of leaves is visited. -/
def siblingChain : Nat → BTreeIndex → Nat → List Int
  | 0, _, _ => []
  | fuel + 1, s, p =>
    if p = 0 then []
    else match getLeaf s p with
      | Except.error _ => []
      | Except.ok n => usedKeys n ++ siblingChain fuel s n.rightSibPageNo

/-- A record id for the tuple with key `k` (page number `k + 1`, never 0). -/
def ridOf (k : Int) : RecordId := { page_number := k.toNat + 1, slot_number := 0 }

/-- The entries (key, record id) for a list of keys. -/
def entriesOf (ks : List Int) : List (Int × RecordId) := ks.map (fun k => (k, ridOf k))

/-- A freshly created index (empty relation) followed by one `insertEntry` per
entry. -/
def buildIndex (leafOccupancy nodeOccupancy : Nat) (entries : List (Int × RecordId)) :
    Except Thrown BTreeIndex :=
  match createIndex [] 0 Datatype.INTEGER leafOccupancy nodeOccupancy [] with
  | Except.error e => Except.error e
  | Except.ok s => insertAll s entries

/-- The call `startScan` followed by `scanNext` until it throws: the record ids
delivered and the exception that ended the scan, or the exception of
`startScan`. -/
def scanResult (fuel : Nat) (s : BTreeIndex) (lowVal : Int) (lowOp : Operator)
    (highVal : Int) (highOp : Operator) : Except Err (List RecordId × Err) :=
  match startScan fuel s lowVal lowOp highVal highOp with
  | Except.error (e, _) => Except.error e
  | Except.ok s => Except.ok ((scanAll fuel s).1, (scanAll fuel s).2.1)

/-- The result of `scanResult` on the index built from the given keys. -/
def scanOf (leafOccupancy nodeOccupancy : Nat) (ks : List Int) (fuel : Nat)
    (lowVal : Int) (lowOp : Operator) (highVal : Int) (highOp : Operator) :
    Except Err (List RecordId × Err) :=
  match buildIndex leafOccupancy nodeOccupancy (entriesOf ks) with
  | Except.error (e, _) => Except.error e
  | Except.ok s => scanResult fuel s lowVal lowOp highVal highOp

/-- The leaf stored in page `p` of the index built from the given keys. -/
def leafOf (leafOccupancy nodeOccupancy : Nat) (ks : List Int) (p : Nat) : Option LeafNodeInt :=
  match buildIndex leafOccupancy nodeOccupancy (entriesOf ks) with
  | Except.error _ => none
  | Except.ok s =>
    match getLeaf s p with
    | Except.error _ => none
    | Except.ok n => some n

/-- The non-leaf node stored in page `p` of the index built from the given keys. -/
def nonLeafOf (leafOccupancy nodeOccupancy : Nat) (ks : List Int) (p : Nat) :
    Option NonLeafNodeInt :=
  match buildIndex leafOccupancy nodeOccupancy (entriesOf ks) with
  | Except.error _ => none
  | Except.ok s =>
    match getNonLeaf s p with
    | Except.error _ => none
    | Except.ok n => some n

/-- The sibling chain, from leaf `p`, of the index built from the given keys. -/
def chainOf (leafOccupancy nodeOccupancy : Nat) (ks : List Int) (p : Nat) : Option (List Int) :=
  match buildIndex leafOccupancy nodeOccupancy (entriesOf ks) with
  | Except.error _ => none
  | Except.ok s => some (siblingChain (s.bufPool.length + 1) s p)

/-- Errors with which the search part of `startScan` can end. -/
def searchErr (e : Err) : Prop :=
  e = Err.NoSuchKeyFoundException ∨ e = Err.invalidPage ∨ e = Err.badCast
    ∨ e = Err.outOfBounds ∨ e = Err.outOfFuel

/-- The situation while `startScan` searches: no scan is executing yet and the
current page carries one pin on top of the pin counts `base`. -/
def Searching (base : Nat → Int) (t : BTreeIndex) : Prop :=
  t.scanExecuting = false ∧ (getFrame t t.currentPageNum).isSome = true
    ∧ ∀ p, pinCntOf t p = base p + (if p = t.currentPageNum then 1 else 0)

/-- The object an operation leaves behind, thrown or not. -/
def objectOf (r : Except Thrown BTreeIndex) : BTreeIndex :=
  match r with
  | Except.ok s => s
  | Except.error (_, s) => s

/-- Sample object: leaf capacity 4, the single key 5 inserted. -/
def sampleIndex : BTreeIndex := objectOf (buildIndex 4 4 (entriesOf [5]))

/-- The sample object with a scan Positioned on key 5. -/
def samplePositioned : BTreeIndex :=
  objectOf (startScan 5 sampleIndex 5 Operator.GTE 5 Operator.LTE)

/-- The sample object after a second `startScan`, for the range 7..9, was
called on the Positioned scan. -/
def sampleAfterNoKey : BTreeIndex :=
  objectOf (startScan 5 samplePositioned 7 Operator.GTE 9 Operator.LTE)

/-- The first `m` slots of `ridArray` are used (non-zero page number), the
others are not. -/
def UsedPrefix (ridArray : List RecordId) (m : Nat) : Prop :=
  m ≤ ridArray.length ∧ ∀ j r, ridArray[j]? = some r → (r.page_number ≠ 0 ↔ j < m)

/-- Both arrays of the leaf have `L` slots. -/
def LeafSized (L : Nat) (n : LeafNodeInt) : Prop :=
  n.keyArray.length = L ∧ n.ridArray.length = L

/-- The key array of the node has `N` slots, the page number array `N + 1`. -/
def NonLeafSized (N : Nat) (n : NonLeafNodeInt) : Prop :=
  n.keyArray.length = N ∧ n.pageNoArray.length = N + 1

/-- A leaf with `L` slots whose used slots form a prefix. -/
def LeafOK (L : Nat) (n : LeafNodeInt) : Prop :=
  LeafSized L n ∧ ∃ m, UsedPrefix n.ridArray m

/-- The first `c` child slots of `pageNoArray` are used (non-zero), the others
are not. -/
def UsedChildren (pageNoArray : List Nat) (c : Nat) : Prop :=
  c ≤ pageNoArray.length ∧ ∀ j p, pageNoArray[j]? = some p → (p ≠ 0 ↔ j < c)

/-- Contents of page `p`, if the file has such a page. -/
def pageOf (s : BTreeIndex) (p : Nat) : Option Page := (getFrame s p).map (fun f => f.page)

/-- The members of the object other than the buffer pool and `rootPageNum`. -/
def confOf (s : BTreeIndex) :=
  (s.headerPageNum, s.attributeType, s.attrByteOffset, s.leafOccupancy, s.nodeOccupancy,
    s.scanExecuting, s.nextEntry, s.currentPageNum, s.lowValInt, s.highValInt, s.lowOp,
    s.highOp, s.initialRootPageNum)

/-- What `splitLeafNodes` guarantees about the original leaf `n1` and the new
leaf `n2` stored in page `q`, for the token key `k0`. -/
def SplitLeafPost (L : Nat) (node n1 n2 : LeafNodeInt) (q : Nat) (k0 : Int) : Prop :=
  n1.rightSibPageNo = node.rightSibPageNo ∧ n2.rightSibPageNo = q
    ∧ LeafOK L n1 ∧ LeafOK L n2
    ∧ n1.keyArray[0]? = node.keyArray[0]? ∧ n1.ridArray[0]? = node.ridArray[0]?
    ∧ n2.keyArray[0]? = some k0
    ∧ ∃ r, n2.ridArray[0]? = some r ∧ r.page_number ≠ 0

/-- The new root written by `updateRoot` for the children `p` and `q` and the
separator `k`. -/
def NewRootPost (N : Nat) (R : NonLeafNodeInt) (level : Int) (p q : Nat) (k : Int) : Prop :=
  R.level = level ∧ NonLeafSized N R
    ∧ R.pageNoArray[0]? = some p ∧ R.pageNoArray[1]? = some q
    ∧ R.keyArray[0]? = some k
    ∧ ∀ j x, 2 ≤ j → R.pageNoArray[j]? = some x → x = 0

/-- Child slot `j >= 1` of the root `R`: it names a leaf page that is its own
right sibling, whose slot 0 is used and holds the separator `keyArray[j - 1]`. -/
def ChildInv (s : BTreeIndex) (R : NonLeafNodeInt) (j : Nat) : Prop :=
  ∃ q X k, R.pageNoArray[j]? = some q ∧ R.keyArray[j - 1]? = some k
    ∧ pageOf s q = some (Page.leaf X) ∧ X.rightSibPageNo = q
    ∧ X.keyArray[0]? = some k ∧ ∃ r, X.ridArray[0]? = some r ∧ r.page_number ≠ 0

/-- The shape of the tree once the root has split: the root is a non-leaf node
of level 1 with at least two children, page 2 first. -/
def RootInv (s : BTreeIndex) : Prop :=
  s.rootPageNum ≠ 2 ∧ ∃ R c, pageOf s s.rootPageNum = some (Page.nonLeaf R)
    ∧ R.level = 1 ∧ UsedChildren R.pageNoArray c ∧ 2 ≤ c
    ∧ R.pageNoArray[0]? = some 2 ∧ ∀ j, 1 ≤ j → j < c → ChildInv s R j

/-- Invariant of the index under `insertEntry`, for leaf capacity `L` and node
capacity `N`: every node has the declared size, the used slots of a leaf form a
prefix, page 2 is the leftmost leaf and has no right sibling, and the root is
page 2 or the tree has the shape `RootInv`. -/
structure TreeInv (L N : Nat) (s : BTreeIndex) : Prop where
  leafCap : s.leafOccupancy = L
  nodeCap : s.nodeOccupancy = N
  header : ∃ m, pageOf s s.headerPageNum = some (Page.meta m)
  init : s.initialRootPageNum = 2
  leaves : ∀ p n, pageOf s p = some (Page.leaf n) → LeafOK L n
  nodes : ∀ p n, pageOf s p = some (Page.nonLeaf n) → NonLeafSized N n
  first : ∃ n0, pageOf s 2 = some (Page.leaf n0) ∧ n0.rightSibPageNo = 0
  root : s.rootPageNum = 2 ∨ RootInv s

/-- The test `node->ridArray[leafOccupancy - 1].page_number == 0` of `insertion`
(btree.cpp 220): the leaf still has a free slot. -/
def LeafHasRoom (L : Nat) (n : LeafNodeInt) : Prop :=
  ∃ r, rd n.ridArray ((L : Int) - 1) = Except.ok r ∧ r.page_number = 0

/-- The test `node->pageNoArray[nodeOccupancy] == 0` of `insertion`
(btree.cpp 204): the node still has a free child slot. -/
def NodeHasRoom (N : Nat) (n : NonLeafNodeInt) : Prop :=
  rd n.pageNoArray (N : Int) = Except.ok 0

/-- Sample object: leaf capacity 4, keys 5,3,8,1,9 inserted (one leaf split). -/
def sampleSplit : BTreeIndex := objectOf (buildIndex 4 4 (entriesOf [5, 3, 8, 1, 9]))

/-- Slot `j` of the leaf in page `p` is used and holds key `k` and record id
`r`. -/
def StoredAt (s : BTreeIndex) (p j : Nat) (k : Int) (r : RecordId) : Prop :=
  ∃ n, pageOf s p = some (Page.leaf n) ∧ n.keyArray[j]? = some k
    ∧ n.ridArray[j]? = some r ∧ r.page_number ≠ 0

/-- The call number `n + 1` of `scanNext`, each call made on the object that
the call before it left behind, thrown or not. -/
def nthScanNext : Nat → BTreeIndex → Except Thrown (RecordId × BTreeIndex)
  | 0, s => scanNext s
  | n + 1, s =>
    match scanNext s with
    | Except.ok (_, s1) => nthScanNext n s1
    | Except.error (_, s1) => nthScanNext n s1

/-- The members a scan does not write once its range is set. -/
def scanArgsOf (s : BTreeIndex) :=
  (s.headerPageNum, s.rootPageNum, s.attributeType, s.attrByteOffset, s.leafOccupancy,
    s.nodeOccupancy, s.lowValInt, s.highValInt, s.lowOp, s.highOp, s.initialRootPageNum)

/-- The object `t` has the page contents and the scan range of `s`; pins, the
cursor and `scanExecuting` may differ. -/
def ScanFrame (s t : BTreeIndex) : Prop :=
  (∀ p, pageOf t p = pageOf s p) ∧ scanArgsOf t = scanArgsOf s

/-- The leaf `X` of page `pc` is its own right sibling and its slot 0 is used
with a key below `lowVal`. -/
def SelfSib (X : LeafNodeInt) (pc : Nat) (lowVal : Int) : Prop :=
  X.rightSibPageNo = pc ∧ ∃ k0 r0, X.keyArray[0]? = some k0 ∧ k0 < lowVal
    ∧ X.ridArray[0]? = some r0 ∧ r0.page_number ≠ 0

/-- Where the descent of `startScan` ends for the leaf `X` in page `pc`: the
leaf has no right sibling, or it is its own right sibling and its slot 0 is
used with a key below `lowVal`. -/
def LeafEnd (X : LeafNodeInt) (pc : Nat) (lowVal : Int) : Prop :=
  X.rightSibPageNo = 0 ∨ SelfSib X pc lowVal

/-- A scan of the range `lo lop .. hi hop` is executing on `t` with the leaf
`X` of page `pc` as current page, leaf capacity `L`. -/
def ScanAt (lo : Int) (lop : Operator) (hi : Int) (hop : Operator) (L : Nat)
    (X : LeafNodeInt) (pc : Nat) (t : BTreeIndex) : Prop :=
  pageOf t pc = some (Page.leaf X) ∧ t.leafOccupancy = L
    ∧ t.lowValInt = lo ∧ t.lowOp = lop ∧ t.highValInt = hi ∧ t.highOp = hop
    ∧ t.scanExecuting = true ∧ t.currentPageNum = pc

/-- The cursor of a scan that has delivered slot `j` of the leaf `X` in page
`pc`: on the next slot, or back on slot 0 of a leaf that is its own right
sibling. -/
def CursorPast (X : LeafNodeInt) (pc j : Nat) (lowVal : Int) (nextEntry : Nat) : Prop :=
  nextEntry = j + 1 ∨ (nextEntry = 0 ∧ SelfSib X pc lowVal)

/-- The sample object `sampleSplit` with a scan Positioned on key 9. -/
def sampleSplitPositioned : BTreeIndex :=
  objectOf (startScan 5 sampleSplit 9 Operator.GTE 9 Operator.LTE)

/-- The object `t` has the members of `s` (`rootPageNum` and the buffer pool
apart), still has every page of `s`, and its pin counts are those of `s` plus
`d`. -/
def PinDelta (d : Nat → Int) (s t : BTreeIndex) : Prop :=
  confOf t = confOf s
    ∧ (∀ q, (getFrame s q).isSome = true → (getFrame t q).isSome = true)
    ∧ ∀ q, pinCntOf t q = pinCntOf s q + d q

/-- The sample object after the Positioned scan on key 5 has delivered its
record id and a further `scanNext` has raised IndexScanCompletedException. -/
def sampleCompleted : BTreeIndex := (scanAll 5 samplePositioned).2.2

/-- The (key, record id) pairs of the used slots of a leaf, in slot order. -/
def usedEntries (n : LeafNodeInt) : List (Int × RecordId) :=
  (n.keyArray.zip n.ridArray).filter (fun kr => decide (kr.2.page_number ≠ 0))

/-- The header page is a meta page whose `rootPageNo` is `rootPageNum`. -/
def HeaderMeta (s : BTreeIndex) : Prop :=
  ∃ m, pageOf s s.headerPageNum = some (Page.meta m) ∧ m.rootPageNo = s.rootPageNum

/-- A relation name of 20 characters. -/
def sampleLongName : List Char := "customer_orders_2019".toList

/-- A relation name of 19 characters. -/
def sampleShortName : List Char := "customer_orders_201".toList

/-- The exception with which an operation ended, if it threw. -/
def errOf (r : Except Thrown BTreeIndex) : Option Err :=
  match r with
  | Except.ok _ => none
  | Except.error (e, _) => some e

/-- An index file for the keys 1,2,3,4 with leaf capacity 4 as the data model
describes it: the leaves of pages 2 and 3 chained by `rightSibPageNo`, and the
root of page 4 with the separator 3. -/
def sampleChainFile : List Frame :=
  [ { page := Page.meta { relationName := [], attrByteOffset := 0,
                          attrType := Datatype.INTEGER, rootPageNo := 4 },
      pinCnt := 0, dirty := false },
    { page := Page.leaf { keyArray := [1, 2, 0, 0],
                          ridArray := [ridOf 1, ridOf 2, ⟨0, 0⟩, ⟨0, 0⟩], rightSibPageNo := 3 },
      pinCnt := 0, dirty := false },
    { page := Page.leaf { keyArray := [3, 4, 0, 0],
                          ridArray := [ridOf 3, ridOf 4, ⟨0, 0⟩, ⟨0, 0⟩], rightSibPageNo := 0 },
      pinCnt := 0, dirty := false },
    { page := Page.nonLeaf { level := 1, keyArray := [3, 0, 0, 0],
                             pageNoArray := [2, 3, 0, 0, 0] },
      pinCnt := 0, dirty := false } ]

/-- The object the constructor leaves when it opens `sampleChainFile`. -/
def sampleChained : BTreeIndex :=
  objectOf (openIndex sampleChainFile [] 0 Datatype.INTEGER 4 4 0)

/-- The object on which the search loop of `startScan` for the range
(> 2, <= 4) on `sampleChained` turns: the range is set and page 3 is pinned as
current page. -/
def sampleChainedLoop : BTreeIndex :=
  { sampleChained with
    bufPool := sampleChained.bufPool.set 2
      { page := Page.leaf { keyArray := [3, 4, 0, 0],
                            ridArray := [ridOf 3, ridOf 4, ⟨0, 0⟩, ⟨0, 0⟩], rightSibPageNo := 0 },
        pinCnt := 1, dirty := false },
    currentPageNum := 3, lowValInt := 2, lowOp := Operator.GT,
    highValInt := 4, highOp := Operator.LTE }

/-- Follows the claim's words: `val` lies above `lowVal` (`>` for GT, `>=` for
GTE) and below `highVal` (`<` for LT, `<=` for LTE). -/
def withinBounds (lowVal : Int) (lowOp : Operator) (highVal : Int) (highOp : Operator)
    (val : Int) : Prop :=
  ((lowOp = Operator.GT → val > lowVal) ∧ (lowOp = Operator.GTE → val ≥ lowVal))
    ∧ ((highOp = Operator.LT → val < highVal) ∧ (highOp = Operator.LTE → val ≤ highVal))

/-- Sample object: leaf capacity 4, the keys 5, 6, 7 inserted. -/
def sampleThree : BTreeIndex := objectOf (buildIndex 4 4 (entriesOf [5, 6, 7]))

/-- The sample object `sampleThree` with a scan Positioned for the range
(>= 5, <= 7). -/
def sampleThreePositioned : BTreeIndex :=
  objectOf (startScan 5 sampleThree 5 Operator.GTE 7 Operator.LTE)

/-- The object that `startScan(10, GT, 5, LT)`, called on the Positioned scan
of `sampleThreePositioned`, leaves behind when it throws. -/
def sampleAfterBadRange : BTreeIndex :=
  objectOf (startScan 5 sampleThreePositioned 10 Operator.GT 5 Operator.LT)

/-- The keys of the used slots of every leaf page of the file, in page order. -/
def storedKeys (s : BTreeIndex) : List Int :=
  (s.bufPool.map (fun f =>
    match f.page with
    | Page.leaf n => usedKeys n
    | _ => [])).flatten

/-- The index file for the keys 1..6 with leaf capacity 2 and node capacity 3
when the accesses of `splitNonLeaf` outside `keyArray` fall on the neighbouring
members of the structure (btree.h 147-157 declares `level`, `keyArray`,
`pageNoArray` in this order): the write of `keyArray[3]` (btree.cpp 267) zeroes
`pageNoArray[0]` of the old root in page 4, and `nonLeafInsertion` on the new
node of page 8 moves `level` into key slot 0 before it stores key 5 there.
Page 9 is the new root of level 0. -/
def sampleNodeSplitFile : List Frame :=
  [ { page := Page.meta { relationName := [], attrByteOffset := 0,
                          attrType := Datatype.INTEGER, rootPageNo := 9 },
      pinCnt := 0, dirty := false },
    { page := Page.leaf { keyArray := [1, 0], ridArray := [ridOf 1, ⟨0, 0⟩],
                          rightSibPageNo := 0 },
      pinCnt := 0, dirty := false },
    { page := Page.leaf { keyArray := [2, 0], ridArray := [ridOf 2, ⟨0, 0⟩],
                          rightSibPageNo := 3 },
      pinCnt := 0, dirty := false },
    { page := Page.nonLeaf { level := 1, keyArray := [2, 0, 4], pageNoArray := [0, 0, 5, 0] },
      pinCnt := 0, dirty := false },
    { page := Page.leaf { keyArray := [3, 0], ridArray := [ridOf 3, ⟨0, 0⟩],
                          rightSibPageNo := 5 },
      pinCnt := 0, dirty := false },
    { page := Page.leaf { keyArray := [4, 0], ridArray := [ridOf 4, ⟨0, 0⟩],
                          rightSibPageNo := 6 },
      pinCnt := 0, dirty := false },
    { page := Page.leaf { keyArray := [5, 6], ridArray := [ridOf 5, ridOf 6],
                          rightSibPageNo := 7 },
      pinCnt := 0, dirty := false },
    { page := Page.nonLeaf { level := 1, keyArray := [5, 4, 0], pageNoArray := [6, 7, 0, 0] },
      pinCnt := 0, dirty := false },
    { page := Page.nonLeaf { level := 0, keyArray := [3, 0, 0], pageNoArray := [4, 8, 0, 0] },
      pinCnt := 0, dirty := false } ]

/-- The object with the pages of `sampleNodeSplitFile`: leaf capacity 2, node
capacity 3, `initialRootPageNum` 2 and the root of page 9. -/
def sampleNodeSplit : BTreeIndex :=
  objectOf (openIndex sampleNodeSplitFile [] 0 Datatype.INTEGER 2 3 2)

/-- The object `sampleNodeSplit` with a scan Positioned for the range
(>= 4, <= 4). -/
def sampleNodeSplitPositioned : BTreeIndex :=
  objectOf (startScan 9 sampleNodeSplit 4 Operator.GTE 4 Operator.LTE)

/-- Every used child slot of the node `R` names a leaf page when `R.level` is 1
and a page with a non-leaf node otherwise. -/
def ChildrenKind (s : BTreeIndex) (R : NonLeafNodeInt) : Prop :=
  ∀ (j q : Nat), R.pageNoArray[j]? = some q → q ≠ 0 →
    (R.level = 1 → ∃ X, pageOf s q = some (Page.leaf X))
      ∧ (R.level ≠ 1 → ∃ R2, pageOf s q = some (Page.nonLeaf R2))

/-- A well-formed tree of any height, for leaf capacity `L` and node capacity
`N`: the header names the root; every leaf has the declared size and its used
slots form a prefix; every non-leaf node has the declared size, its used child
slots form a prefix of at least two, and they name leaves if the level of the
node is 1 and non-leaf nodes otherwise; `initialRootPageNum` names a leaf;
`rootPageNum` is `initialRootPageNum` and the root page is a leaf, or it is
another page and that page is a non-leaf node.  Pin counts, dirty flags and the
members of a scan are free. -/
structure Shape (L N : Nat) (s : BTreeIndex) : Prop where
  leafCap : s.leafOccupancy = L
  nodeCap : s.nodeOccupancy = N
  header : HeaderMeta s
  leaves : ∀ p n, pageOf s p = some (Page.leaf n) → LeafOK L n
  nodes : ∀ p R, pageOf s p = some (Page.nonLeaf R) →
    NonLeafSized N R ∧ (∃ c, 2 ≤ c ∧ UsedChildren R.pageNoArray c) ∧ ChildrenKind s R
  initial : ∃ n, pageOf s s.initialRootPageNum = some (Page.leaf n)
  root : (s.initialRootPageNum = s.rootPageNum
        ∧ ∃ n, pageOf s s.rootPageNum = some (Page.leaf n))
      ∨ (s.initialRootPageNum ≠ s.rootPageNum
        ∧ ∃ R, pageOf s s.rootPageNum = some (Page.nonLeaf R))

end badgerdb

/-!
# Word locator (`wl.cpp`) : shallow embedding

The embedding follows `src/Words Locator/wl.cpp`.

* A `Node *` is `null` or points to a node that owns its two subtrees; the
  functions that write through pointers return the tree they leave behind.
* A `std::string` is the list of its characters; `operator<` compares
  character by character and a proper prefix is smaller.
* The counters are C `int`s: an increment is taken modulo 2^32.
-/

namespace wl

/-- The comparison `a < b` of two `std::string`s. -/
def strLt : List Char → List Char → Bool
  | [], [] => false
  | [], _ :: _ => true
  | _ :: _, [] => false
  | a :: as, b :: bs =>
    if a.toNat < b.toNat then true
    else if b.toNat < a.toNat then false
    else strLt as bs

/-- A `Node *` (wl.cpp 39-45): the null pointer, or a node with its name, its
word count and its left and right subtree. -/
inductive Tree where
  | null
  | node (name : List Char) (wordCount : Int) (left right : Tree)
deriving DecidableEq, Repr

/-- The value of a C `int` after an arithmetic step whose exact result is `x`. -/
def wrap32 (x : Int) : Int := (x + 2 ^ 31) % 2 ^ 32 - 2 ^ 31

/-- The function `Insert` (wl.cpp 70-86); `new_node` has the name `newName`,
the word count `newCount` and no children, as `load` builds it.  `Insert`
dereferences `root`; both callers test the pointer before the call, so the
first case is never reached. -/
def Insert : Tree → List Char → Int → Tree
  | Tree.null, _, _ => Tree.null
  | Tree.node name wordCount left right, newName, newCount =>
    if strLt newName name = true then
      match left with
      | Tree.null =>
        Tree.node name wordCount (Tree.node newName newCount Tree.null Tree.null) right
      | Tree.node _ _ _ _ => Tree.node name wordCount (Insert left newName newCount) right
    else
      match right with
      | Tree.null =>
        Tree.node name wordCount left (Tree.node newName newCount Tree.null Tree.null)
      | Tree.node _ _ _ _ => Tree.node name wordCount left (Insert right newName newCount)

/-- The loop of `load` (wl.cpp 109-135) over the words of the file, each as it
is after the clean-up of its token (wl.cpp 117-119).  The result is
`wordTree->root` and `count`. -/
def loadLoop : Tree → Int → List (List Char) → Tree × Int
  | root, count, [] => (root, count)
  | root, count, word :: rest =>
    loadLoop
      (match root with
        | Tree.null => Tree.node word count Tree.null Tree.null
        | Tree.node _ _ _ _ => Insert root word count)
      (wrap32 (count + 1)) rest

/-- The function `load` (wl.cpp 98-138) for a file with the given words; the
argument and the result are `wordTree->root`. -/
def load (root : Tree) (words : List (List Char)) : Tree := (loadLoop root 1 words).1

/-- The function `locate` (wl.cpp 154-183).  The last argument is `*pt` at the
call; the result is the returned value and `*pt` at the return.  When none of
the three comparisons holds the function ends without a `return`. -/
def locate : Tree → List Char → Int → Int → Int × Int
  | Tree.null, _, _, _ => (0, 1)
  | Tree.node name wordCount left right, word, occurence, pt =>
    if word = name then
      if pt = occurence then (wordCount, 1)
      else locate right word occurence (wrap32 (pt + 1))
    else if strLt word name = true then locate left word occurence pt
    else if strLt name word = true then locate right word occurence pt
    else (0, pt)

/-- Follows the claim's words: the positions, counted from 1, at which the
word `w` occurs in the list `ws`. -/
def occurrencePositions (ws : List (List Char)) (w : List Char) : List Nat :=
  ((ws.enum).filter (fun p => decide (p.2 = w))).map (fun p => p.1 + 1)

/-- Follows the claim's words: the position of the `m`-th occurrence of `w` in
`ws` if `m >= 1` and `w` occurs at least `m` times, and 0 otherwise. -/
def mthOccurrence (ws : List (List Char)) (w : List Char) (m : Int) : Int :=
  if 1 ≤ m then
    match (occurrencePositions ws w)[(m - 1).toNat]? with
    | some p => (p : Int)
    | none => 0
  else 0

/-- What `load` does with a pointer slot: the new node is stored in a null
slot, and passed to `Insert` otherwise. -/
def attach (slot : Tree) (newName : List Char) (newCount : Int) : Tree :=
  match slot with
  | Tree.null => Tree.node newName newCount Tree.null Tree.null
  | Tree.node _ _ _ _ => Insert slot newName newCount

/-- The word counts of the nodes named `w` that a search for `w` passes, from
the root downwards. -/
def pathCounts : Tree → List Char → List Int
  | Tree.null, _ => []
  | Tree.node name wordCount left right, w =>
    if w = name then wordCount :: pathCounts right w
    else if strLt w name = true then pathCounts left w
    else pathCounts right w

/-- The walk of `locate` over the word counts of the nodes named like the
word: the count at which `*pt` equals `occurence`. -/
def pickCount : List Int → Int → Int → Int × Int
  | [], _, _ => (0, 1)
  | c :: cs, occurence, pt =>
    if pt = occurence then (c, 1) else pickCount cs occurence (wrap32 (pt + 1))

/-- The counts that the loop of `load` gives to the occurrences of `w`. -/
def countsFrom : Int → List (List Char) → List Char → List Int
  | _, [], _ => []
  | count, word :: rest, w =>
    if word = w then count :: countsFrom (wrap32 (count + 1)) rest w
    else countsFrom (wrap32 (count + 1)) rest w

/-- Sample file: the words "the cat saw the dog the". -/
def sampleWords : List (List Char) :=
  ["the".toList, "cat".toList, "saw".toList, "the".toList, "dog".toList, "the".toList]

/-- The test `std::isalpha(ch)` in the "C" locale: an ASCII letter. -/
def isalpha (ch : Char) : Bool :=
  (decide (65 ≤ ch.toNat) && decide (ch.toNat ≤ 90))
    || (decide (97 ≤ ch.toNat) && decide (ch.toNat ≤ 122))

/-- The test `isdigit(ch)`. -/
def isdigit (ch : Char) : Bool := decide (48 ≤ ch.toNat) && decide (ch.toNat ≤ 57)

/-- The function `::tolower` in the "C" locale. -/
def tolower (ch : Char) : Char :=
  if 65 ≤ ch.toNat ∧ ch.toNat ≤ 90 then Char.ofNat (ch.toNat + 32) else ch

/-- The white space at which `infile >> wordRaw` ends a token: space, tab, line
feed, vertical tab, form feed and carriage return. -/
def isspace (ch : Char) : Bool :=
  decide (ch.toNat = 32) || (decide (9 ≤ ch.toNat) && decide (ch.toNat ≤ 13))

/-- The test of the lambda in `load` (wl.cpp 117), negated: the character is a
letter, a digit or an apostrophe (character 39). -/
def isWordChar (ch : Char) : Bool := isalpha ch || isdigit ch || decide (ch.toNat = 39)

/-- The clean-up of a token in `load` (wl.cpp 117-119): `remove_copy_if`
copies the characters that are a letter, a digit or an apostrophe to `word`,
and `transform` lower-cases `word`. -/
def cleanWord (wordRaw : List Char) : List Char :=
  (wordRaw.filter isWordChar).map tolower

/-- The tokens that the repeated `infile >> wordRaw` (wl.cpp 110) extracts
from the characters of the file: the maximal runs without white space.  The
second argument is the token read so far, last character first. -/
def tokensFrom : List Char → List Char → List (List Char)
  | [], cur => if cur.isEmpty = true then [] else [cur.reverse]
  | ch :: rest, cur =>
    if isspace ch = true then
      if cur.isEmpty = true then tokensFrom rest [] else cur.reverse :: tokensFrom rest []
    else tokensFrom rest (ch :: cur)

/-- The function `load` (wl.cpp 98-138) on a file with the given characters;
the argument and the result are `wordTree->root`. -/
def loadFile (root : Tree) (contents : List Char) : Tree :=
  load root ((tokensFrom contents []).map cleanWord)

/-- Follows the claim's words: the maximal runs of letters, digits and
apostrophes in the characters of the file, lower-cased; every other character
separates words.  The second argument is the word read so far, last character
first. -/
def claimedWordsFrom : List Char → List Char → List (List Char)
  | [], cur => if cur.isEmpty = true then [] else [cur.reverse]
  | ch :: rest, cur =>
    if isWordChar ch = true then claimedWordsFrom rest (tolower ch :: cur)
    else if cur.isEmpty = true then claimedWordsFrom rest []
    else cur.reverse :: claimedWordsFrom rest []

end wl

namespace badgerdb

/-! ## Properties -/

/-- C1 (the code departs from the claim).  Scenario A of the specification:
keys 5,3,8,1,9,2,7,4,6,0 inserted with leaf capacity 4, then the scan
(>= 2, < 7).  The scan delivers the record ids of 5 and 3 and is then
exhausted, instead of those of 2,3,4,5,6.  With keys 1,2,3,4,5 the point scan
of the inserted key 3 finds no key at all. -/
theorem C1_scenarioA_scan :
    scanOf 4 4 [5, 3, 8, 1, 9, 2, 7, 4, 6, 0] 20 2 Operator.GTE 7 Operator.LT
        = Except.ok ([ridOf 5, ridOf 3], Err.IndexScanCompletedException)
      ∧ scanOf 4 4 [1, 2, 3, 4, 5] 20 3 Operator.GTE 3 Operator.LTE
        = Except.error Err.NoSuchKeyFoundException := by
  constructor <;> rfl

/-- C2 (the code departs from the claim).  With leaf capacity 4, inserting key
5 and then key 3 leaves the root leaf with the used keys 5, 3 in that order:
`leafInsertion` stores the entry behind the last used slot whatever its key. -/
theorem C2_leaf_not_sorted :
    (leafOf 4 4 [5, 3] 2).map usedKeys = some [5, 3]
      ∧ (leafInsertion 4
            { keyArray := [5, 0, 0, 0],
              ridArray := [ridOf 5, ⟨0, 0⟩, ⟨0, 0⟩, ⟨0, 0⟩], rightSibPageNo := 0 }
            { rid := ridOf 3, key := 3 }).toOption.map usedKeys = some [5, 3] := by
  constructor <;> rfl

/-- C3 (the code departs from the claim).  With leaf capacity 4 and keys
1,2,3,4,5 the root leaf (page 2) splits once.  Afterwards its right sibling is
still 0 and the new leaf (page 3) names itself as right sibling, so the chain
from the leftmost leaf delivers the keys 1, 2 only. -/
theorem C3_sibling_chain_broken :
    (leafOf 4 4 [1, 2, 3, 4, 5] 2).map (fun n => n.rightSibPageNo) = some 0
      ∧ (leafOf 4 4 [1, 2, 3, 4, 5] 3).map (fun n => (usedKeys n, n.rightSibPageNo))
          = some ([3, 4, 5], 3)
      ∧ chainOf 4 4 [1, 2, 3, 4, 5] 2 = some [1, 2] := by
  refine ⟨?_, ?_, ?_⟩ <;> rfl

/-- C4 (the code departs from the claim).  With leaf capacity 4 and keys
5,3,8,1,9 the root (page 4) has the children 2 and 3 and the separator 8; key
1 is stored in leaf 3, and `findNext` on the root routes key 1 to leaf 2. -/
theorem C4_routing_misses_key :
    (nonLeafOf 4 4 [5, 3, 8, 1, 9] 4).map (fun n => (n.keyArray, n.pageNoArray))
        = some ([8, 0, 0, 0], [2, 3, 0, 0, 0])
      ∧ (leafOf 4 4 [5, 3, 8, 1, 9] 2).map usedKeys = some [5, 3]
      ∧ (leafOf 4 4 [5, 3, 8, 1, 9] 3).map usedKeys = some [8, 1, 9]
      ∧ (nonLeafOf 4 4 [5, 3, 8, 1, 9] 4).map (fun n => findNext 4 n 1)
          = some (Except.ok 2) := by
  refine ⟨?_, ?_, ?_, ?_⟩ <;> rfl

/-! ### Errors of the node-level functions -/

theorem liftE_error {α : Type} {s s' : BTreeIndex} {x : Except Err α} {e : Err}
    (h : liftE s x = Except.error (e, s')) : x = Except.error e ∧ s' = s := by
  cases x with
  | error e0 => simp [liftE] at h; exact ⟨by rw [h.1], h.2.symm⟩
  | ok a => simp [liftE] at h

theorem liftE_ok {α : Type} {s : BTreeIndex} {x : Except Err α} {a : α}
    (h : liftE s x = Except.ok a) : x = Except.ok a := by
  cases x with
  | error e0 => simp [liftE] at h
  | ok b => simp [liftE] at h; rw [h]

theorem rd_error {α : Type} {a : List α} {i : Int} {e : Err}
    (h : rd a i = Except.error e) : e = Err.outOfBounds := by
  unfold rd at h
  split at h
  · injection h with h; exact h.symm
  · split at h
    · cases h
    · injection h with h; exact h.symm

theorem wr_error {α : Type} {a : List α} {i : Int} {v : α} {e : Err}
    (h : wr a i v = Except.error e) : e = Err.outOfBounds := by
  unfold wr at h
  split at h
  · injection h with h; exact h.symm
  · split at h
    · cases h
    · injection h with h; exact h.symm

theorem nonLeafSkipEmpty_error {a : List Nat} {e : Err} :
    ∀ n, nonLeafSkipEmpty a n = Except.error e → e = Err.outOfBounds := by
  intro n
  induction n with
  | zero => intro h; simp [nonLeafSkipEmpty] at h
  | succ n ih =>
    intro h
    unfold nonLeafSkipEmpty at h
    split at h
    · rename_i e0 h0
      injection h with h; subst h; exact rd_error h0
    · split at h
      · exact ih h
      · cases h

theorem findNextLoop_error {a : List Int} {v : Int} {e : Err} :
    ∀ n, findNextLoop a v n = Except.error e → e = Err.outOfBounds := by
  intro n
  induction n with
  | zero => intro h; simp [findNextLoop] at h
  | succ n ih =>
    intro h
    unfold findNextLoop at h
    split at h
    · rename_i e0 h0
      injection h with h; subst h; exact rd_error h0
    · split at h
      · exact ih h
      · cases h

theorem findNext_error {N : Nat} {node : NonLeafNodeInt} {v : Int} {e : Err}
    (h : findNext N node v = Except.error e) : e = Err.outOfBounds := by
  unfold findNext at h
  cases h1 : nonLeafSkipEmpty node.pageNoArray (N + 1) with
  | error e1 =>
    rw [h1] at h
    simp [bind, Except.bind] at h
    subst h; exact nonLeafSkipEmpty_error _ h1
  | ok n =>
    rw [h1] at h
    simp only [bind, Except.bind] at h
    cases n with
    | zero => exact rd_error h
    | succ m =>
      simp only at h
      cases h2 : findNextLoop node.keyArray v m with
      | error e2 => rw [h2] at h; simp at h; subst h; exact findNextLoop_error _ h2
      | ok i => rw [h2] at h; exact rd_error h

/-! ### The buffer manager model -/

theorem getFrame_setFrame (s : BTreeIndex) (q : Nat) (f : Frame) (p : Nat) :
    getFrame (setFrame s q f) p
      = if p = q then (if (getFrame s q).isSome then some f else none) else getFrame s p := by
  unfold getFrame setFrame
  by_cases hq : q = 0
  · subst hq
    by_cases hp : p = 0
    · subst hp; simp
    · simp [hp]
  · by_cases hp : p = 0
    · subst hp
      have : ¬ (0 = q) := fun h => hq h.symm
      simp [hq, this]
    · by_cases hpq : p = q
      · subst hpq
        simp only [hq, if_false, if_true]
        by_cases hl : p - 1 < s.bufPool.length
        · simp [List.getElem?_set, hl]
        · have hl' : s.bufPool.length ≤ p - 1 := Nat.le_of_not_lt hl
          simp [List.getElem?_set, hl, List.getElem?_eq_none hl']
      · have hne : q - 1 ≠ p - 1 := by omega
        simp [hq, hp, hpq, List.getElem?_set, hne]

theorem setFrame_fields (s : BTreeIndex) (q : Nat) (f : Frame) :
    setFrame s q f = { s with bufPool := (setFrame s q f).bufPool } := by
  unfold setFrame
  split <;> rfl

theorem unPinPage_fields (s : BTreeIndex) (q : Nat) (d : Bool) :
    unPinPage s q d = { s with bufPool := (unPinPage s q d).bufPool } := by
  unfold unPinPage
  split
  · rfl
  · exact setFrame_fields _ _ _

theorem readPage_error {s s' : BTreeIndex} {q : Nat} {e : Err}
    (h : readPage s q = Except.error (e, s')) :
    e = Err.invalidPage ∧ s' = s ∧ getFrame s q = none := by
  unfold readPage at h
  split at h
  · rename_i h0
    injection h with h; injection h with h1 h2
    exact ⟨h1.symm, h2.symm, h0⟩
  · cases h

theorem readPage_ok {s t : BTreeIndex} {q : Nat} (h : readPage s q = Except.ok t) :
    ∃ f, getFrame s q = some f ∧ t = setFrame s q { f with pinCnt := f.pinCnt + 1 } := by
  unfold readPage at h
  split at h
  · cases h
  · rename_i f h0
    injection h with h
    exact ⟨f, h0, h.symm⟩

theorem readPage_fields {s t : BTreeIndex} {q : Nat} (h : readPage s q = Except.ok t) :
    t = { s with bufPool := t.bufPool } := by
  obtain ⟨f, _, ht⟩ := readPage_ok h
  rw [ht]; exact setFrame_fields _ _ _

theorem pinCntOf_readPage {s t : BTreeIndex} {q : Nat} (h : readPage s q = Except.ok t)
    (p : Nat) : pinCntOf t p = pinCntOf s p + (if p = q then 1 else 0) := by
  obtain ⟨f, hf, ht⟩ := readPage_ok h
  subst ht
  unfold pinCntOf
  rw [getFrame_setFrame]
  by_cases hpq : p = q
  · subst hpq; simp [hf]
  · simp [hpq]

theorem getFrame_isSome_readPage {s t : BTreeIndex} {q : Nat} (h : readPage s q = Except.ok t)
    (p : Nat) : (getFrame t p).isSome = (getFrame s p).isSome := by
  obtain ⟨f, hf, ht⟩ := readPage_ok h
  subst ht
  rw [getFrame_setFrame]
  by_cases hpq : p = q
  · subst hpq; simp [hf]
  · simp [hpq]

theorem pinCntOf_unPinPage (s : BTreeIndex) (q : Nat) (d : Bool) (p : Nat) :
    pinCntOf (unPinPage s q d) p
      = pinCntOf s p - (if p = q ∧ (getFrame s q).isSome then 1 else 0) := by
  unfold unPinPage
  cases hf : getFrame s q with
  | none => simp
  | some f =>
    simp only [pinCntOf]
    rw [getFrame_setFrame]
    by_cases hpq : p = q
    · subst hpq; simp [hf]
    · simp [hpq]

theorem getFrame_isSome_unPinPage (s : BTreeIndex) (q : Nat) (d : Bool) (p : Nat) :
    (getFrame (unPinPage s q d) p).isSome = (getFrame s p).isSome := by
  unfold unPinPage
  cases hf : getFrame s q with
  | none => simp
  | some f =>
    simp only
    rw [getFrame_setFrame]
    by_cases hpq : p = q
    · subst hpq; simp [hf]
    · simp [hpq]

theorem getLeaf_error {s s' : BTreeIndex} {q : Nat} {e : Err}
    (h : getLeaf s q = Except.error (e, s')) :
    (e = Err.invalidPage ∨ e = Err.badCast) ∧ s' = s := by
  unfold getLeaf at h
  split at h
  · injection h with h; injection h with h1 h2
    exact ⟨Or.inl h1.symm, h2.symm⟩
  · rename_i f _
    obtain ⟨h1, h2⟩ := liftE_error h
    refine ⟨Or.inr ?_, h2⟩
    cases hp : f.page <;> rw [hp] at h1 <;> simp [asLeaf] at h1 <;> exact h1.symm

theorem getNonLeaf_error {s s' : BTreeIndex} {q : Nat} {e : Err}
    (h : getNonLeaf s q = Except.error (e, s')) :
    (e = Err.invalidPage ∨ e = Err.badCast) ∧ s' = s := by
  unfold getNonLeaf at h
  split at h
  · injection h with h; injection h with h1 h2
    exact ⟨Or.inl h1.symm, h2.symm⟩
  · rename_i f _
    obtain ⟨h1, h2⟩ := liftE_error h
    refine ⟨Or.inr ?_, h2⟩
    cases hp : f.page <;> rw [hp] at h1 <;> simp [asNonLeaf] at h1 <;> exact h1.symm

/-! ### The search of `startScan` -/

theorem Searching.unpin {base : Nat → Int} {s : BTreeIndex} (hs : Searching base s) :
    (unPinPage s s.currentPageNum false).scanExecuting = false
      ∧ ∀ p, pinCntOf (unPinPage s s.currentPageNum false) p = base p := by
  obtain ⟨h1, h2, h3⟩ := hs
  constructor
  · rw [unPinPage_fields]; exact h1
  · intro p
    rw [pinCntOf_unPinPage, h3 p]
    by_cases hp : p = s.currentPageNum
    · simp [hp, h2]
    · simp [hp]

theorem Searching.move {base : Nat → Int} {s t : BTreeIndex} {q : Nat}
    (hs : Searching base s)
    (h : readPage { unPinPage s s.currentPageNum false with currentPageNum := q } q
          = Except.ok t) :
    Searching base t ∧ t.currentPageNum = q := by
  obtain ⟨hu1, hu2⟩ := hs.unpin
  have hf := readPage_fields h
  have hc : t.currentPageNum = q := by rw [hf]
  obtain ⟨f, hfr, _⟩ := readPage_ok h
  refine ⟨⟨?_, ?_, ?_⟩, hc⟩
  · rw [hf]; exact hu1
  · rw [hc, getFrame_isSome_readPage h, hfr]; rfl
  · intro p
    rw [pinCntOf_readPage h p, hc]
    have : pinCntOf { unPinPage s s.currentPageNum false with currentPageNum := q } p
        = pinCntOf (unPinPage s s.currentPageNum false) p := rfl
    rw [this, hu2 p]

theorem searchErr_oob : searchErr Err.outOfBounds := Or.inr (Or.inr (Or.inr (Or.inl rfl)))

theorem searchErr_nokey : searchErr Err.NoSuchKeyFoundException := Or.inl rfl

theorem searchErr_invalid : searchErr Err.invalidPage := Or.inr (Or.inl rfl)

theorem startScanFoundVal_error {leafNode : LeafNodeInt} {i : Nat} {s t : BTreeIndex} {e : Err}
    (h : startScanFoundVal leafNode i s = Except.error (e, t)) : e = Err.outOfBounds := by
  unfold startScanFoundVal at h
  split at h
  · split at h
    · rename_i e0 h0
      injection h with h; subst h
      exact rd_error (liftE_error h0).1
    · cases h
  · cases h

theorem startScanToSibling_spec (leafNode : LeafNodeInt) {base : Nat → Int} {s : BTreeIndex}
    (hs : Searching base s) :
    (∀ t, startScanToSibling leafNode s = Except.ok t →
        Searching base t ∧ t.currentPageNum = leafNode.rightSibPageNo)
      ∧ (∀ e t, startScanToSibling leafNode s = Except.error (e, t) →
          searchErr e ∧ (e = Err.NoSuchKeyFoundException →
            t.scanExecuting = false ∧ ∀ p, pinCntOf t p = base p)) := by
  unfold startScanToSibling
  simp only
  by_cases hz : leafNode.rightSibPageNo = 0
  · simp only [hz, if_true]
    constructor
    · intro t h; cases h
    · intro e t h
      injection h with h; injection h with h1 h2
      subst h1; subst h2
      exact ⟨searchErr_nokey, fun _ => hs.unpin⟩
  · simp only [hz, if_false]
    constructor
    · intro t h; exact hs.move h
    · intro e t h
      obtain ⟨h1, _, _⟩ := readPage_error h
      subst h1
      exact ⟨searchErr_invalid, fun h => by cases h⟩

theorem startScanFor_spec (leafNode : LeafNodeInt) (base : Nat → Int) :
    ∀ k i s, Searching base s →
      (∀ t, startScanFor leafNode k i s = Except.ok (false, t) → Searching base t)
      ∧ (∀ e t, startScanFor leafNode k i s = Except.error (e, t) →
          searchErr e ∧ (e = Err.NoSuchKeyFoundException →
            t.scanExecuting = false ∧ ∀ p, pinCntOf t p = base p)) := by
  intro k
  induction k with
  | zero =>
    intro i s hs
    constructor
    · intro t h; simp [startScanFor] at h; rw [← h]; exact hs
    · intro e t h; simp [startScanFor] at h
  | succ k ih =>
    intro i s hs
    unfold startScanFor
    cases hv : liftE s (rd leafNode.keyArray (i : Int)) with
    | error et =>
      obtain ⟨e0, t0⟩ := et
      have he := rd_error (liftE_error hv).1
      constructor
      · intro t h; cases h
      · intro e t h
        injection h with h; injection h with h3 h4
        subst h3; subst he
        exact ⟨searchErr_oob, fun h => by cases h⟩
    | ok val =>
      simp only
      cases hfv : startScanFoundVal leafNode i s with
      | error et =>
        obtain ⟨e0, t0⟩ := et
        have he := startScanFoundVal_error hfv
        constructor
        · intro t h; cases h
        · intro e t h
          injection h with h; injection h with h3 h4
          subst h3; subst he
          exact ⟨searchErr_oob, fun h => by cases h⟩
      | ok foundVal =>
        simp only
        split
        · constructor
          · intro t h; simp at h
          · intro e t h; cases h
        · split
          · constructor
            · intro t h; cases h
            · intro e t h
              injection h with h; injection h with h1 h2
              subst h1; subst h2
              exact ⟨searchErr_nokey, fun _ => hs.unpin⟩
          · split
            · constructor
              · intro t h; cases h
              · intro e t h
                injection h with h; injection h with h1 h2
                subst h1; subst h2
                exact ⟨searchErr_nokey, fun _ => hs.unpin⟩
            · split
              · obtain ⟨hok, herr⟩ := startScanToSibling_spec leafNode hs
                cases hsib : startScanToSibling leafNode s with
                | error et =>
                  obtain ⟨e0, t0⟩ := et
                  simp only
                  constructor
                  · intro t h; cases h
                  · intro e t h
                    injection h with h; injection h with h1 h2
                    subst h1; subst h2
                    exact herr _ _ hsib
                | ok t0 =>
                  simp only
                  constructor
                  · intro t h
                    injection h with h; injection h with h1 h2
                    subst h2
                    exact (hok _ hsib).1
                  · intro e t h; cases h
              · exact ih (i + 1) s hs

theorem startScanWhile_error (leafNode : LeafNodeInt) (base : Nat → Int) :
    ∀ fuel s, Searching base s → ∀ e t,
      startScanWhile leafNode fuel s = Except.error (e, t) →
        searchErr e ∧ (e = Err.NoSuchKeyFoundException →
          t.scanExecuting = false ∧ ∀ p, pinCntOf t p = base p) := by
  intro fuel
  induction fuel with
  | zero =>
    intro s _ e t h
    simp [startScanWhile] at h
    rw [← h.1]
    exact ⟨Or.inr (Or.inr (Or.inr (Or.inr rfl))), fun h => by cases h⟩
  | succ fuel ih =>
    intro s hs e t h
    unfold startScanWhile at h
    cases h0 : liftE s (rd leafNode.ridArray 0) with
    | error et =>
      obtain ⟨e0, t0⟩ := et
      have he := rd_error (liftE_error h0).1
      rw [h0] at h
      injection h with h; injection h with h3 h4
      subst h3; subst he
      exact ⟨searchErr_oob, fun h => by cases h⟩
    | ok r0 =>
      rw [h0] at h
      simp only at h
      split at h
      · injection h with h; injection h with h1 h2
        subst h1; subst h2
        exact ⟨searchErr_nokey, fun _ => hs.unpin⟩
      · obtain ⟨hok, herr⟩ := startScanFor_spec leafNode base s.leafOccupancy 0 s hs
        cases hfor : startScanFor leafNode s.leafOccupancy 0 s with
        | error et =>
          obtain ⟨e0, t0⟩ := et
          rw [hfor] at h
          injection h with h; injection h with h1 h2
          subst h1; subst h2
          exact herr _ _ hfor
        | ok r =>
          obtain ⟨b, t0⟩ := r
          rw [hfor] at h
          cases b with
          | true => cases h
          | false => exact ih t0 (hok _ hfor) e t h

theorem startScanDescend_spec (base : Nat → Int) :
    ∀ fuel s, Searching base s →
      (∀ t, startScanDescend fuel s = Except.ok t → Searching base t)
      ∧ (∀ e t, startScanDescend fuel s = Except.error (e, t) →
          searchErr e ∧ e ≠ Err.NoSuchKeyFoundException) := by
  intro fuel
  induction fuel with
  | zero =>
    intro s _
    constructor
    · intro t h; simp [startScanDescend] at h
    · intro e t h
      simp [startScanDescend] at h
      rw [← h.1]
      exact ⟨Or.inr (Or.inr (Or.inr (Or.inr rfl))), fun h => by cases h⟩
  | succ fuel ih =>
    intro s hs
    unfold startScanDescend
    cases hn : getNonLeaf s s.currentPageNum with
    | error et =>
      obtain ⟨e0, t0⟩ := et
      obtain ⟨he, _⟩ := getNonLeaf_error hn
      constructor
      · intro t h; cases h
      · intro e t h
        injection h with h; injection h with h1 h2
        subst h1
        rcases he with he | he <;> subst he
        · exact ⟨searchErr_invalid, fun h => by cases h⟩
        · exact ⟨Or.inr (Or.inr (Or.inl rfl)), fun h => by cases h⟩
    | ok node =>
      simp only
      cases hf : liftE s (findNext s.nodeOccupancy node s.lowValInt) with
      | error et =>
        obtain ⟨e0, t0⟩ := et
        have he := findNext_error (liftE_error hf).1
        constructor
        · intro t h; cases h
        · intro e t h
          injection h with h; injection h with h1 h2
          subst h1; subst he
          exact ⟨searchErr_oob, fun h => by cases h⟩
      | ok nextPageNum =>
        simp only
        cases hr : readPage { unPinPage s s.currentPageNum false with
            currentPageNum := nextPageNum } nextPageNum with
        | error et =>
          obtain ⟨e0, t0⟩ := et
          obtain ⟨he, _, _⟩ := readPage_error hr
          constructor
          · intro t h; cases h
          · intro e t h
            injection h with h; injection h with h1 h2
            subst h1; subst he
            exact ⟨searchErr_invalid, fun h => by cases h⟩
        | ok s1 =>
          simp only
          have hs1 := (hs.move hr).1
          split
          · constructor
            · intro t h; injection h with h; subst h; exact hs1
            · intro e t h; cases h
          · exact ih s1 hs1

theorem startScanToLeaf_spec (fuel : Nat) (s : BTreeIndex) :
    (∀ t, startScanToLeaf fuel s = Except.ok t →
        Searching (fun p => pinCntOf s p - scanPin s p) t)
      ∧ (∀ e t, startScanToLeaf fuel s = Except.error (e, t) →
          searchErr e ∧ e ≠ Err.NoSuchKeyFoundException) := by
  unfold startScanToLeaf
  -- the object after a running scan has been ended
  have key : ∃ s0, (if s.scanExecuting = true then endScan s else Except.ok s) = Except.ok s0
      ∧ s0.scanExecuting = false ∧ s0.rootPageNum = s.rootPageNum
      ∧ (∀ p, pinCntOf s0 p = pinCntOf s p - scanPin s p)
      ∧ (∀ p, (getFrame s0 p).isSome = (getFrame s p).isSome) := by
    by_cases hx : s.scanExecuting = true
    · refine ⟨unPinPage { s with scanExecuting := false } s.currentPageNum false, ?_, ?_, ?_, ?_, ?_⟩
      · simp [hx, endScan]
      · rw [unPinPage_fields]
      · rw [unPinPage_fields]
      · intro p
        rw [pinCntOf_unPinPage]
        have h1 : pinCntOf { s with scanExecuting := false } p = pinCntOf s p := rfl
        have h2 : getFrame { s with scanExecuting := false } s.currentPageNum
            = getFrame s s.currentPageNum := rfl
        rw [h1, h2]
        unfold scanPin
        by_cases hp : p = s.currentPageNum
        · subst hp; simp [hx]
        · simp [hp]
      · intro p
        rw [getFrame_isSome_unPinPage]; rfl
    · have hx' : s.scanExecuting = false := by
        cases h : s.scanExecuting
        · rfl
        · exact absurd h hx
      refine ⟨s, ?_, hx', rfl, ?_, fun _ => rfl⟩
      · simp [hx']
      · intro p; simp [scanPin, hx']
  obtain ⟨s0, h0, hex, hroot, hpin, hsome⟩ := key
  rw [h0]
  simp only
  cases hr : readPage { s0 with currentPageNum := s0.rootPageNum } s0.rootPageNum with
  | error et =>
    obtain ⟨e0, t0⟩ := et
    obtain ⟨he, _, _⟩ := readPage_error hr
    constructor
    · intro t h; cases h
    · intro e t h
      injection h with h; injection h with h1 h2
      subst h1; subst he
      exact ⟨searchErr_invalid, fun h => by cases h⟩
  | ok s1 =>
    simp only
    have hf := readPage_fields hr
    obtain ⟨f, hfr, _⟩ := readPage_ok hr
    have hc : s1.currentPageNum = s0.rootPageNum := by rw [hf]
    have hs1 : Searching (fun p => pinCntOf s p - scanPin s p) s1 := by
      refine ⟨?_, ?_, ?_⟩
      · rw [hf]; exact hex
      · rw [hc, getFrame_isSome_readPage hr, hfr]; rfl
      · intro p
        rw [pinCntOf_readPage hr p, hc]
        have : pinCntOf { s0 with currentPageNum := s0.rootPageNum } p = pinCntOf s0 p := rfl
        rw [this, hpin p]
    split
    · exact startScanDescend_spec _ fuel s1 hs1
    · constructor
      · intro t h; injection h with h; subst h; exact hs1
      · intro e t h; cases h

theorem startScanSearch_error (fuel : Nat) (s : BTreeIndex) (e : Err) (t : BTreeIndex)
    (h : startScanSearch fuel s = Except.error (e, t)) :
    searchErr e ∧ (e = Err.NoSuchKeyFoundException →
      t.scanExecuting = false ∧ ∀ p, pinCntOf t p = pinCntOf s p - scanPin s p) := by
  unfold startScanSearch at h
  obtain ⟨hok, herr⟩ := startScanToLeaf_spec fuel s
  cases hl : startScanToLeaf fuel s with
  | error et =>
    obtain ⟨e0, t0⟩ := et
    rw [hl] at h
    injection h with h; injection h with h1 h2
    subst h1
    obtain ⟨h3, h4⟩ := herr _ _ hl
    exact ⟨h3, fun h => absurd h h4⟩
  | ok s1 =>
    rw [hl] at h
    simp only at h
    cases hg : getLeaf s1 s1.currentPageNum with
    | error et =>
      obtain ⟨e0, t0⟩ := et
      rw [hg] at h
      injection h with h; injection h with h1 h2
      subst h1
      obtain ⟨he, _⟩ := getLeaf_error hg
      rcases he with he | he <;> subst he
      · exact ⟨searchErr_invalid, fun h => by cases h⟩
      · exact ⟨Or.inr (Or.inr (Or.inl rfl)), fun h => by cases h⟩
    | ok leafNode =>
      rw [hg] at h
      exact startScanWhile_error leafNode _ fuel s1 (hok _ hl) e t h

theorem createIndex_empty (name : List Char) (off : Int) (ty : Datatype) (L N : Nat) :
    createIndex name off ty L N [] = Except.ok
      { bufPool :=
          [ { page := Page.meta { relationName := (cString name).take 19, attrByteOffset := off,
                                  attrType := ty, rootPageNo := 2 },
              pinCnt := 0, dirty := true },
            { page := Page.leaf (zeroLeaf L), pinCnt := 0, dirty := true } ],
        headerPageNum := 1, rootPageNum := 2, attributeType := ty, attrByteOffset := off,
        leafOccupancy := L, nodeOccupancy := N, scanExecuting := false, nextEntry := 0,
        currentPageNum := 0, lowValInt := 0, highValInt := 0, lowOp := Operator.LT,
        highOp := Operator.LT, initialRootPageNum := 2 } := by
  simp [createIndex, createStart, allocPage, getMeta, getLeaf, getFrame, putPage, setFrame,
    unPinPage, insertAll, liftE, asMeta, asLeaf, zeroMeta, zeroLeaf, bind, Except.bind, pure,
    Except.pure]

/-! ### Validation and failure of `startScan` (C6 - C9) -/

/-- C6.  Whenever `startScan` raises NoSuchKeyFoundException the index is
Idle: `scanExecuting` is false, every page has the pin count it had before the
call less the pin of a scan that was Positioned before the call, and a
following `scanNext` raises ScanNotInitializedException. -/
theorem C6_noSuchKey_leaves_idle (fuel : Nat) (s : BTreeIndex) (lowVal : Int) (lowOp : Operator)
    (highVal : Int) (highOp : Operator) (t : BTreeIndex)
    (h : startScan fuel s lowVal lowOp highVal highOp
          = Except.error (Err.NoSuchKeyFoundException, t)) :
    t.scanExecuting = false
      ∧ (∀ p, pinCntOf t p = pinCntOf s p - scanPin s p)
      ∧ scanNext t = Except.error (Err.ScanNotInitializedException, t) := by
  have main : t.scanExecuting = false ∧ ∀ p, pinCntOf t p = pinCntOf s p - scanPin s p := by
    unfold startScan at h
    split at h
    · cases h
    · split at h
      · cases h
      · simp only at h
        split at h
        · cases h
        · exact (startScanSearch_error fuel _ _ _ h).2 rfl
  refine ⟨main.1, main.2, ?_⟩
  unfold scanNext
  simp [main.1]

/-- Witness for C6: on the sample index a scan is Positioned on key 5; a second
`startScan` for the range 7..9 raises NoSuchKeyFoundException and leaves the
index Idle. -/
theorem C6_noSuchKey_leaves_idle_witness :
    samplePositioned.scanExecuting = true
      ∧ pinCntOf samplePositioned 2 = 1
      ∧ sampleAfterNoKey.scanExecuting = false
      ∧ (∀ p, pinCntOf sampleAfterNoKey p = pinCntOf samplePositioned p - scanPin samplePositioned p)
      ∧ scanNext sampleAfterNoKey
          = Except.error (Err.ScanNotInitializedException, sampleAfterNoKey) :=
  ⟨rfl, rfl,
    C6_noSuchKey_leaves_idle 5 samplePositioned 7 Operator.GTE 9 Operator.LTE sampleAfterNoKey rfl⟩

/-- C7.  `startScan` raises BadOpcodesException exactly when `lowOp` is not GT
or GTE, or `highOp` is not LT or LTE, whatever the bounds and the index; in
that case the object is unchanged, also when the low bound exceeds the high
bound. -/
theorem C7_badOpcodes_iff (fuel : Nat) (s : BTreeIndex) (lowVal : Int) (lowOp : Operator)
    (highVal : Int) (highOp : Operator) :
    ((∃ t, startScan fuel s lowVal lowOp highVal highOp
            = Except.error (Err.BadOpcodesException, t))
        ↔ (¬ (lowOp = Operator.GT ∨ lowOp = Operator.GTE)
            ∨ ¬ (highOp = Operator.LT ∨ highOp = Operator.LTE)))
      ∧ ((¬ (lowOp = Operator.GT ∨ lowOp = Operator.GTE)
            ∨ ¬ (highOp = Operator.LT ∨ highOp = Operator.LTE)) →
          startScan fuel s lowVal lowOp highVal highOp
            = Except.error (Err.BadOpcodesException, s)) := by
  have bad : (¬ (lowOp = Operator.GT ∨ lowOp = Operator.GTE)
            ∨ ¬ (highOp = Operator.LT ∨ highOp = Operator.LTE)) →
          startScan fuel s lowVal lowOp highVal highOp
            = Except.error (Err.BadOpcodesException, s) := by
    intro hb
    unfold startScan
    by_cases h1 : lowOp ≠ Operator.GT ∧ lowOp ≠ Operator.GTE
    · simp [h1]
    · have h2 : highOp ≠ Operator.LT ∧ highOp ≠ Operator.LTE := by
        rcases hb with hb | hb
        · exact absurd (not_or.mp hb) h1
        · exact not_or.mp hb
      rw [if_neg h1, if_pos h2]
  refine ⟨⟨?_, fun hb => ⟨s, bad hb⟩⟩, bad⟩
  rintro ⟨t, h⟩
  by_contra hgood
  have hlo : ¬ (lowOp ≠ Operator.GT ∧ lowOp ≠ Operator.GTE) := by
    intro hc; exact hgood (Or.inl (not_or.mpr hc))
  have hhi : ¬ (highOp ≠ Operator.LT ∧ highOp ≠ Operator.LTE) := by
    intro hc; exact hgood (Or.inr (not_or.mpr hc))
  unfold startScan at h
  rw [if_neg hlo, if_neg hhi] at h
  simp only at h
  split at h
  · cases h
  · have := (startScanSearch_error fuel _ _ _ h).1
    rcases this with h | h | h | h | h <;> cases h

/-- Witness for C7: on the sample index `startScan(10, LT, 5, LT)` raises
BadOpcodesException, although the bounds are out of order as well, and leaves
the object as it was. -/
theorem C7_badOpcodes_iff_witness :
    startScan 5 sampleIndex 10 Operator.LT 5 Operator.LT
      = Except.error (Err.BadOpcodesException, sampleIndex) :=
  (C7_badOpcodes_iff 5 sampleIndex 10 Operator.LT 5 Operator.LT).2 (Or.inl (by decide))

/-- C8.  With valid operators `startScan` raises BadScanrangeException exactly
when the low bound is greater than the high bound, whatever the index holds;
equal bounds are not rejected. -/
theorem C8_badScanrange_iff (fuel : Nat) (s : BTreeIndex) (lowVal : Int) (lowOp : Operator)
    (highVal : Int) (highOp : Operator)
    (hlo : lowOp = Operator.GT ∨ lowOp = Operator.GTE)
    (hhi : highOp = Operator.LT ∨ highOp = Operator.LTE) :
    (∃ t, startScan fuel s lowVal lowOp highVal highOp
            = Except.error (Err.BadScanrangeException, t))
      ↔ lowVal > highVal := by
  have h1 : ¬ (lowOp ≠ Operator.GT ∧ lowOp ≠ Operator.GTE) := by
    rintro ⟨a, b⟩; rcases hlo with h | h
    · exact a h
    · exact b h
  have h2 : ¬ (highOp ≠ Operator.LT ∧ highOp ≠ Operator.LTE) := by
    rintro ⟨a, b⟩; rcases hhi with h | h
    · exact a h
    · exact b h
  unfold startScan
  rw [if_neg h1, if_neg h2]
  simp only
  constructor
  · rintro ⟨t, h⟩
    by_contra hle
    rw [if_neg hle] at h
    have := (startScanSearch_error fuel _ _ _ h).1
    rcases this with h | h | h | h | h <;> cases h
  · intro hgt
    rw [if_pos hgt]
    exact ⟨_, rfl⟩

/-- Witness for C8: Scenario C, `startScan(10, GT, 5, LT)`, on the sample
index. -/
theorem C8_badScanrange_iff_witness :
    ∃ t, startScan 5 sampleIndex 10 Operator.GT 5 Operator.LT
          = Except.error (Err.BadScanrangeException, t) :=
  (C8_badScanrange_iff 5 sampleIndex 10 Operator.GT 5 Operator.LT (Or.inl rfl) (Or.inl rfl)).2
    (by decide)

/-- C9.  A freshly created index (empty relation, at least one slot per leaf)
exists, and every `startScan` on it with valid operators and ordered bounds
raises NoSuchKeyFoundException. -/
theorem C9_empty_index_noSuchKey (name : List Char) (off : Int) (ty : Datatype)
    (L N : Nat) (hL : 1 ≤ L) :
    ∃ s, createIndex name off ty L N [] = Except.ok s
      ∧ ∀ (fuel : Nat) (lowVal : Int) (lowOp : Operator) (highVal : Int) (highOp : Operator),
          1 ≤ fuel →
          (lowOp = Operator.GT ∨ lowOp = Operator.GTE) →
          (highOp = Operator.LT ∨ highOp = Operator.LTE) →
          lowVal ≤ highVal →
          ∃ t, startScan fuel s lowVal lowOp highVal highOp
                = Except.error (Err.NoSuchKeyFoundException, t) := by
  refine ⟨_, createIndex_empty name off ty L N, ?_⟩
  intro fuel lowVal lowOp highVal highOp hfuel hlo hhi hle
  have h1 : ¬ (lowOp ≠ Operator.GT ∧ lowOp ≠ Operator.GTE) := by
    rintro ⟨a, b⟩; rcases hlo with h | h
    · exact a h
    · exact b h
  have h2 : ¬ (highOp ≠ Operator.LT ∧ highOp ≠ Operator.LTE) := by
    rintro ⟨a, b⟩; rcases hhi with h | h
    · exact a h
    · exact b h
  obtain ⟨f, rfl⟩ : ∃ f, fuel = f + 1 := ⟨fuel - 1, by omega⟩
  obtain ⟨l, rfl⟩ : ∃ l, L = l + 1 := ⟨L - 1, by omega⟩
  have hnot : ¬ lowVal > highVal := not_lt.mpr hle
  unfold startScan
  rw [if_neg h1, if_neg h2]
  simp only
  rw [if_neg hnot]
  simp [startScanSearch, startScanToLeaf, readPage, getFrame, setFrame, getLeaf, liftE, asLeaf,
    zeroLeaf, startScanWhile, rd, List.replicate_succ]

/-- Witness for C9: Scenario D with leaf capacity 4; the scan (>= 1, <= 9) on
the fresh index raises NoSuchKeyFoundException. -/
theorem C9_empty_index_noSuchKey_witness :
    ∃ s, createIndex [] 0 Datatype.INTEGER 4 4 [] = Except.ok s
      ∧ ∃ t, startScan 1 s 1 Operator.GTE 9 Operator.LTE
              = Except.error (Err.NoSuchKeyFoundException, t) := by
  obtain ⟨s, hs, h⟩ := C9_empty_index_noSuchKey [] 0 Datatype.INTEGER 4 4 (by decide)
  exact ⟨s, hs, h 1 1 Operator.GTE 9 Operator.LTE (by decide) (Or.inr rfl) (Or.inr rfl)
    (by decide)⟩

/-! ### Array reads, writes and `memmove` -/

theorem rd_nat {α : Type} (a : List α) (n : Nat) (v : α) :
    rd a (n : Int) = Except.ok v ↔ a[n]? = some v := by
  unfold rd
  have h : ¬ ((n : Int) < 0) := by omega
  rw [if_neg h, Int.toNat_ofNat]
  cases a[n]? with
  | none => simp
  | some w => simp

theorem rd_nat_of_lt {α : Type} (a : List α) (n : Nat) (h : n < a.length) :
    rd a (n : Int) = Except.ok (a[n]) := by
  rw [rd_nat, List.getElem?_eq_getElem h]

theorem rd_neg {α : Type} (a : List α) (i : Int) (h : i < 0) :
    rd a i = Except.error Err.outOfBounds := by
  unfold rd; rw [if_pos h]

theorem rd_ok_lt {α : Type} {a : List α} {n : Nat} {v : α}
    (h : rd a (n : Int) = Except.ok v) : n < a.length := by
  rw [rd_nat] at h
  by_contra hc
  rw [List.getElem?_eq_none (Nat.le_of_not_lt hc)] at h
  cases h

theorem wr_nat {α : Type} (a : List α) (n : Nat) (v : α) (a' : List α) :
    wr a (n : Int) v = Except.ok a' ↔ n < a.length ∧ a' = a.set n v := by
  unfold wr
  have h : ¬ ((n : Int) < 0) := by omega
  rw [if_neg h, Int.toNat_ofNat]
  by_cases hl : n < a.length
  · rw [if_pos hl]
    constructor
    · intro h; injection h with h; exact ⟨hl, h.symm⟩
    · rintro ⟨_, h⟩; rw [h]
  · rw [if_neg hl]
    constructor
    · intro h; cases h
    · rintro ⟨h, _⟩; exact absurd h hl

theorem wr_nat_of_lt {α : Type} (a : List α) (n : Nat) (v : α) (h : n < a.length) :
    wr a (n : Int) v = Except.ok (a.set n v) :=
  (wr_nat a n v _).2 ⟨h, rfl⟩

theorem wr_nat_of_ge {α : Type} (a : List α) (n : Nat) (v : α) (h : a.length ≤ n) :
    wr a (n : Int) v = Except.error Err.outOfBounds := by
  unfold wr
  have h0 : ¬ ((n : Int) < 0) := by omega
  rw [if_neg h0, Int.toNat_ofNat, if_neg (Nat.not_lt.mpr h)]

theorem wr_length {α : Type} {a a' : List α} {i : Int} {v : α}
    (h : wr a i v = Except.ok a') : a'.length = a.length := by
  unfold wr at h
  split at h
  · cases h
  · split at h
    · injection h with h; rw [← h, List.length_set]
    · cases h

theorem memmove_error {α : Type} {a : List α} {d s : Int} {len : Nat} {e : Err}
    (h : memmove a d s len = Except.error e) : e = Err.outOfBounds := by
  unfold memmove at h
  split at h
  · cases h
  · split at h
    · injection h with h; exact h.symm
    · split at h
      · cases h
      · injection h with h; exact h.symm

theorem memmove_nat {α : Type} (a : List α) (d s len : Nat)
    (hs : s + len ≤ a.length) (hd : d + len ≤ a.length) :
    memmove a (d : Int) (s : Int) len
      = Except.ok (if len = 0 then a
          else a.take d ++ (a.drop s).take len ++ a.drop (d + len)) := by
  unfold memmove
  by_cases h0 : len = 0
  · simp [h0]
  · have h1 : ¬ ((d : Int) < 0 ∨ (s : Int) < 0) := by omega
    simp only [h0, if_false, h1, Int.toNat_ofNat]
    rw [if_pos ⟨hs, hd⟩]

theorem memmove_length {α : Type} {a a' : List α} {d s : Int} {len : Nat}
    (h : memmove a d s len = Except.ok a') : a'.length = a.length := by
  unfold memmove at h
  split at h
  · injection h with h; rw [h]
  · split at h
    · cases h
    · split at h
      · rename_i hb
        injection h with h
        rw [← h]
        simp only [List.length_append, List.length_take, List.length_drop]
        omega
      · cases h

/-- Pointwise description of a successful `memmove`. -/
theorem memmove_getElem? {α : Type} {a a' : List α} {d s len : Nat}
    (h : memmove a (d : Int) (s : Int) len = Except.ok a') (j : Nat) :
    a'[j]? = if d ≤ j ∧ j < d + len then a[s + (j - d)]? else a[j]? := by
  unfold memmove at h
  by_cases h0 : len = 0
  · rw [if_pos h0] at h
    injection h with h
    subst h
    have : ¬ (d ≤ j ∧ j < d + len) := by omega
    rw [if_neg this]
  · have h1 : ¬ ((d : Int) < 0 ∨ (s : Int) < 0) := by omega
    rw [if_neg h0, if_neg h1] at h
    simp only [Int.toNat_ofNat] at h
    split at h
    · rename_i hb
      injection h with h
      subst h
      obtain ⟨hs, hd⟩ := hb
      by_cases hj1 : j < d
      · have : ¬ (d ≤ j ∧ j < d + len) := by omega
        rw [if_neg this]
        rw [List.append_assoc, List.getElem?_append_left (by simp; omega)]
        rw [List.getElem?_take_of_lt hj1]
      · by_cases hj2 : j < d + len
        · rw [if_pos ⟨by omega, hj2⟩]
          rw [List.getElem?_append_left (by simp; omega)]
          rw [List.getElem?_append_right (by simp; omega)]
          have hl : (List.take d a).length = d := by simp; omega
          rw [hl, List.getElem?_take_of_lt (by omega), List.getElem?_drop]
        · have : ¬ (d ≤ j ∧ j < d + len) := by omega
          rw [if_neg this]
          rw [List.getElem?_append_right (by simp; omega)]
          have hl : (List.take d a ++ List.take len (List.drop s a)).length = d + len := by
            simp; omega
          rw [hl, List.getElem?_drop]
          congr 1; omega
    · cases h

/-! ### `leafInsertion` -/

theorem leafSkipEmpty_usedPrefix {rids : List RecordId} {m : Nat} (h : UsedPrefix rids m) :
    ∀ k, m ≤ k → k ≤ rids.length → leafSkipEmpty rids k = Except.ok m := by
  intro k
  induction k with
  | zero =>
    intro hm _
    have : m = 0 := by omega
    subst this; rfl
  | succ k ih =>
    intro hm hk
    unfold leafSkipEmpty
    rw [rd_nat_of_lt rids k (by omega)]
    simp only
    have hu := h.2 k rids[k] (List.getElem?_eq_getElem (by omega))
    by_cases hmk : m = k + 1
    · have : rids[k].page_number ≠ 0 := hu.2 (by omega)
      rw [if_neg this, hmk]
    · have : rids[k].page_number = 0 := by
        by_contra hc
        have := hu.1 hc
        omega
      rw [if_pos this]
      exact ih (by omega) (by omega)

theorem LeafSized.keyLt {L : Nat} {n : LeafNodeInt} (h : LeafSized L n) {j : Nat} (hj : j < L) :
    j < n.keyArray.length := by rw [h.1]; exact hj

theorem LeafSized.ridLt {L : Nat} {n : LeafNodeInt} (h : LeafSized L n) {j : Nat} (hj : j < L) :
    j < n.ridArray.length := by rw [h.2]; exact hj

theorem leafInsertion_spec {L : Nat} {node : LeafNodeInt} {m : Nat} (e : RIDKeyPair)
    (hs : LeafSized L node)
    (hu : UsedPrefix node.ridArray m) (hm : m < L) :
    ∃ n', leafInsertion L node e = Except.ok n'
      ∧ n'.rightSibPageNo = node.rightSibPageNo
      ∧ LeafSized L n'
      ∧ n'.keyArray[m]? = some e.key ∧ n'.ridArray[m]? = some e.rid
      ∧ (∀ j, j < m → n'.keyArray[j]? = node.keyArray[j]? ∧ n'.ridArray[j]? = node.ridArray[j]?)
      ∧ (∀ j r, m < j → n'.ridArray[j]? = some r → r.page_number = 0) := by
  obtain ⟨hk, hr⟩ := hs
  have hL : 0 < L := by omega
  unfold leafInsertion
  rw [show (0 : Int) = ((0 : Nat) : Int) from rfl, rd_nat_of_lt node.ridArray 0 (by omega)]
  simp only [bind, Except.bind, pure, Except.pure]
  by_cases h0 : node.ridArray[0].page_number = 0
  · -- empty leaf: slot 0 is written
    have hm0 : m = 0 := by
      by_contra hc
      have := (hu.2 0 _ (List.getElem?_eq_getElem (by omega))).2 (by omega)
      exact this h0
    subst hm0
    rw [if_pos h0, wr_nat_of_lt _ 0 _ (by omega), wr_nat_of_lt _ 0 _ (by omega)]
    refine ⟨_, rfl, rfl, ⟨by simp [hk], by simp [hr]⟩, ?_, ?_, ?_, ?_⟩
    · rw [List.getElem?_set_self (by omega)]
    · rw [List.getElem?_set_self (by omega)]
    · intro j hj; omega
    · intro j r hj hjr
      simp only [List.getElem?_set] at hjr
      have : ¬ (0 = j) := by omega
      rw [if_neg this] at hjr
      by_contra hc
      have := (hu.2 j r hjr).1 hc
      omega
  · have hm1 : 0 < m := (hu.2 0 _ (List.getElem?_eq_getElem (by omega))).1 h0
    rw [if_neg h0, leafSkipEmpty_usedPrefix hu L (by omega) (by omega)]
    simp only
    obtain ⟨m', rfl⟩ : ∃ m', m = m' + 1 := ⟨m - 1, by omega⟩
    have e1 : ((m' + 1 : Nat) : Int) - 1 = (m' : Int) := by push_cast; ring
    have e2 : ((m' + 1 : Nat) : Int) - 1 + 1 = ((m' + 1 : Nat) : Int) := by ring
    rw [e2, e1]
    obtain ⟨ks, hmk⟩ : ∃ ks, memmove node.keyArray ((m' + 1 : Nat) : Int) (m' : Int)
        (L - (m' + 1)) = Except.ok ks :=
      ⟨_, memmove_nat node.keyArray (m' + 1) m' (L - (m' + 1)) (by omega) (by omega)⟩
    obtain ⟨rs, hmr⟩ : ∃ rs, memmove node.ridArray ((m' + 1 : Nat) : Int) (m' : Int)
        (L - (m' + 1)) = Except.ok rs :=
      ⟨_, memmove_nat node.ridArray (m' + 1) m' (L - (m' + 1)) (by omega) (by omega)⟩
    rw [hmk, hmr]
    simp only
    have hlk := memmove_length hmk
    have hlr := memmove_length hmr
    rw [wr_nat_of_lt _ (m' + 1) _ (by omega), wr_nat_of_lt _ (m' + 1) _ (by omega)]
    have gk := memmove_getElem? hmk
    have gr := memmove_getElem? hmr
    refine ⟨_, rfl, rfl, ⟨by simp only [List.length_set]; omega,
      by simp only [List.length_set]; omega⟩, ?_, ?_, ?_, ?_⟩
    · rw [List.getElem?_set_self (by omega)]
    · rw [List.getElem?_set_self (by omega)]
    · intro j hj
      simp only [List.getElem?_set]
      have : ¬ (m' + 1 = j) := by omega
      rw [if_neg this, if_neg this, gk j, gr j]
      have : ¬ (m' + 1 ≤ j ∧ j < m' + 1 + (L - (m' + 1))) := by omega
      rw [if_neg this, if_neg this]
      exact ⟨rfl, rfl⟩
    · intro j r hj hjr
      simp only [List.getElem?_set] at hjr
      have : ¬ (m' + 1 = j) := by omega
      rw [if_neg this, gr j] at hjr
      by_contra hc
      by_cases hjL : j < L
      · have hc1 : m' + 1 ≤ j ∧ j < m' + 1 + (L - (m' + 1)) := ⟨by omega, by omega⟩
        rw [if_pos hc1] at hjr
        have h2 := (hu.2 _ r hjr).1 hc
        omega
      · have hc1 : ¬ (m' + 1 ≤ j ∧ j < m' + 1 + (L - (m' + 1))) := by omega
        rw [if_neg hc1, List.getElem?_eq_none (by omega)] at hjr
        cases hjr

theorem usedPrefix_of_room {L : Nat} {rids : List RecordId} {m : Nat} {last : RecordId}
    (hr : rids.length = L) (hu : UsedPrefix rids m)
    (hl : rd rids ((L : Int) - 1) = Except.ok last) (h0 : last.page_number = 0) : m < L := by
  by_cases hL : L = 0
  · subst hL
    rw [rd_neg _ _ (by omega)] at hl
    cases hl
  · obtain ⟨l, rfl⟩ : ∃ l, L = l + 1 := ⟨L - 1, by omega⟩
    have e : ((l + 1 : Nat) : Int) - 1 = (l : Int) := by push_cast; ring
    rw [e, rd_nat] at hl
    have := (hu.2 l last hl)
    by_contra hc
    have h1 : l < m := by have := hu.1; omega
    exact (this.2 h1) h0

theorem usedPrefix_full {L : Nat} {rids : List RecordId} {m : Nat} {last : RecordId}
    (hr : rids.length = L) (hu : UsedPrefix rids m)
    (hl : rd rids ((L : Int) - 1) = Except.ok last) (h0 : last.page_number ≠ 0) : m = L := by
  by_cases hL : L = 0
  · subst hL
    rw [rd_neg _ _ (by omega)] at hl
    cases hl
  · obtain ⟨l, rfl⟩ : ∃ l, L = l + 1 := ⟨L - 1, by omega⟩
    have e : ((l + 1 : Nat) : Int) - 1 = (l : Int) := by push_cast; ring
    rw [e, rd_nat] at hl
    have := (hu.2 l last hl).1 h0
    have := hu.1
    omega

/-- After `leafInsertion` on a leaf with room the leaf is still well formed,
its sibling link is unchanged, and a used slot 0 keeps its contents. -/
theorem leafInsertion_leafOK {L : Nat} {node : LeafNodeInt} {m : Nat} (e : RIDKeyPair)
    (hs : LeafSized L node)
    (hu : UsedPrefix node.ridArray m) (hm : m < L) :
    ∃ n', leafInsertion L node e = Except.ok n'
      ∧ n'.rightSibPageNo = node.rightSibPageNo
      ∧ LeafOK L n'
      ∧ (0 < m → n'.keyArray[0]? = node.keyArray[0]? ∧ n'.ridArray[0]? = node.ridArray[0]?) := by
  obtain ⟨n', h1, h2, h3, h5, h6, h7, h8⟩ := leafInsertion_spec e hs hu hm
  refine ⟨n', h1, h2, ⟨h3, ?_⟩, fun h => h7 0 h⟩
  by_cases he : e.rid.page_number = 0
  · refine ⟨m, by rw [h3.2]; omega, ?_⟩
    intro j r hjr
    rcases Nat.lt_trichotomy j m with hj | hj | hj
    · rw [(h7 j hj).2] at hjr
      exact hu.2 j r hjr
    · subst hj
      rw [h6] at hjr
      injection hjr with hjr
      subst hjr
      simp [he]
    · have := h8 j r hj hjr
      constructor
      · intro hc; exact absurd this hc
      · intro hc; omega
  · refine ⟨m + 1, by rw [h3.2]; omega, ?_⟩
    intro j r hjr
    rcases Nat.lt_trichotomy j m with hj | hj | hj
    · rw [(h7 j hj).2] at hjr
      have := hu.2 j r hjr
      constructor
      · intro _; omega
      · intro _; exact this.2 hj
    · subst hj
      rw [h6] at hjr
      injection hjr with hjr
      subst hjr
      simp [he]
    · have := h8 j r hj hjr
      constructor
      · intro hc; exact absurd this hc
      · intro hc; omega

/-! ### `splitLeaf` -/

theorem splitLeafStep_spec {L midPt i : Nat} {node newLeaf : LeafNodeInt}
    (hi : i < L) (hmi : midPt ≤ i)
    (hs : LeafSized L node) (hns : LeafSized L newLeaf) :
    ∃ node' newLeaf', splitLeafStep midPt i node newLeaf = Except.ok (node', newLeaf')
      ∧ node'.rightSibPageNo = node.rightSibPageNo
      ∧ newLeaf'.rightSibPageNo = newLeaf.rightSibPageNo
      ∧ LeafSized L node' ∧ LeafSized L newLeaf'
      ∧ (∀ j, node'.keyArray[j]? = if i = j then some 0 else node.keyArray[j]?)
      ∧ (∀ j, node'.ridArray[j]?
            = if i = j then (node.ridArray[j]?).map (fun r => { r with page_number := 0 })
              else node.ridArray[j]?)
      ∧ (∀ j, newLeaf'.keyArray[j]?
            = if i = j + midPt then node.keyArray[i]? else newLeaf.keyArray[j]?)
      ∧ (∀ j, newLeaf'.ridArray[j]?
            = if i = j + midPt then node.ridArray[i]? else newLeaf.ridArray[j]?) := by
  obtain ⟨hk, hr⟩ := hs
  obtain ⟨hnk, hnr⟩ := hns
  unfold splitLeafStep
  have e1 : (i : Int) - (midPt : Int) = ((i - midPt : Nat) : Int) := by omega
  have hxk : node.keyArray[i]? = some node.keyArray[i] := List.getElem?_eq_getElem (by omega)
  have hxr : node.ridArray[i]? = some node.ridArray[i] := List.getElem?_eq_getElem (by omega)
  rw [e1, rd_nat_of_lt node.ridArray i (by omega), rd_nat_of_lt node.keyArray i (by omega)]
  simp only [bind, Except.bind]
  rw [wr_nat_of_lt newLeaf.ridArray (i - midPt) _ (by omega),
    wr_nat_of_lt newLeaf.keyArray (i - midPt) _ (by omega),
    wr_nat_of_lt node.ridArray i _ (by omega), wr_nat_of_lt node.keyArray i _ (by omega)]
  refine ⟨_, _, rfl, rfl, rfl, ⟨by simp [hk], by simp [hr]⟩, ⟨by simp [hnk], by simp [hnr]⟩,
    ?_, ?_, ?_, ?_⟩ <;> intro j <;> simp only [List.getElem?_set]
  · by_cases hj : i = j
    · rw [if_pos hj, if_pos hj, if_pos (by omega)]
    · rw [if_neg hj, if_neg hj]
  · by_cases hj : i = j
    · subst hj
      rw [if_pos rfl, if_pos rfl, if_pos (by omega), hxr]
      rfl
    · rw [if_neg hj, if_neg hj]
  · by_cases hj : i = j + midPt
    · have hj3 : i - midPt = j := by omega
      rw [if_pos hj3, if_pos hj, if_pos (by omega), hxk]
    · have hj3 : ¬ (i - midPt = j) := by omega
      rw [if_neg hj3, if_neg hj]
  · by_cases hj : i = j + midPt
    · have hj3 : i - midPt = j := by omega
      rw [if_pos hj3, if_pos hj, if_pos (by omega), hxr]
    · have hj3 : ¬ (i - midPt = j) := by omega
      rw [if_neg hj3, if_neg hj]

theorem splitLeafLoop_spec (L midPt : Nat) :
    ∀ k i (node newLeaf : LeafNodeInt), i + k = L → midPt ≤ i →
      LeafSized L node → LeafSized L newLeaf →
      ∃ node' newLeaf', splitLeafLoop midPt k i node newLeaf = Except.ok (node', newLeaf')
        ∧ node'.rightSibPageNo = node.rightSibPageNo
        ∧ newLeaf'.rightSibPageNo = newLeaf.rightSibPageNo
        ∧ LeafSized L node' ∧ LeafSized L newLeaf'
        ∧ (∀ j, node'.keyArray[j]?
              = if i ≤ j ∧ j < L then some 0 else node.keyArray[j]?)
        ∧ (∀ j, node'.ridArray[j]?
              = if i ≤ j ∧ j < L then
                  (node.ridArray[j]?).map (fun r => { r with page_number := 0 })
                else node.ridArray[j]?)
        ∧ (∀ j, newLeaf'.keyArray[j]?
              = if i ≤ j + midPt ∧ j + midPt < L then node.keyArray[j + midPt]?
                else newLeaf.keyArray[j]?)
        ∧ (∀ j, newLeaf'.ridArray[j]?
              = if i ≤ j + midPt ∧ j + midPt < L then node.ridArray[j + midPt]?
                else newLeaf.ridArray[j]?) := by
  intro k
  induction k with
  | zero =>
    intro i node newLeaf hik _ hs hns
    refine ⟨node, newLeaf, rfl, rfl, rfl, hs, hns, ?_, ?_, ?_, ?_⟩ <;> intro j
    · have : ¬ (i ≤ j ∧ j < L) := by omega
      rw [if_neg this]
    · have : ¬ (i ≤ j ∧ j < L) := by omega
      rw [if_neg this]
    · have : ¬ (i ≤ j + midPt ∧ j + midPt < L) := by omega
      rw [if_neg this]
    · have : ¬ (i ≤ j + midPt ∧ j + midPt < L) := by omega
      rw [if_neg this]
  | succ k ih =>
    intro i node newLeaf hik hmi hs0 hns0
    have hiL : i < L := by omega
    have hik1 : i + 1 + k = L := by omega
    have hmi1 : midPt ≤ i + 1 := by omega
    obtain ⟨n1, n2, hs, s1, s2, s3, s5, s7, s8, s9, s10⟩ :=
      splitLeafStep_spec hiL hmi hs0 hns0
    obtain ⟨node', newLeaf', h1, h2, h3, h4, h6, h8, h9, h10, h11⟩ :=
      ih (i + 1) n1 n2 hik1 hmi1 s3 s5
    unfold splitLeafLoop
    rw [hs]
    simp only
    refine ⟨node', newLeaf', h1, h2.trans s1, h3.trans s2, h4, h6, ?_, ?_, ?_, ?_⟩
      <;> intro j
    · rw [h8 j, s7 j]
      clear ih hs h1 h2 h3 h4 h6 h8 h9 h10 h11 s1 s2 s3 s5 s7 s8 s9 s10 hs0 hns0
      by_cases hj : i = j
      · have hj2 : ¬ (i + 1 ≤ j ∧ j < L) := by omega
        have hj3 : i ≤ j ∧ j < L := by omega
        rw [if_neg hj2, if_pos hj, if_pos hj3]
      · by_cases hj2 : i + 1 ≤ j ∧ j < L
        · have hj3 : i ≤ j ∧ j < L := by omega
          rw [if_pos hj2, if_pos hj3]
        · have hj3 : ¬ (i ≤ j ∧ j < L) := by omega
          rw [if_neg hj2, if_neg hj, if_neg hj3]
    · rw [h9 j, s8 j]
      clear ih hs h1 h2 h3 h4 h6 h8 h9 h10 h11 s1 s2 s3 s5 s7 s8 s9 s10 hs0 hns0
      by_cases hj : i = j
      · have hj2 : ¬ (i + 1 ≤ j ∧ j < L) := by omega
        have hj3 : i ≤ j ∧ j < L := by omega
        rw [if_neg hj2, if_pos hj, if_pos hj3]
      · by_cases hj2 : i + 1 ≤ j ∧ j < L
        · have hj3 : i ≤ j ∧ j < L := by omega
          rw [if_pos hj2, if_pos hj3, if_neg hj]
        · have hj3 : ¬ (i ≤ j ∧ j < L) := by omega
          rw [if_neg hj2, if_neg hj, if_neg hj3]
    · rw [h10 j, s9 j, s7 (j + midPt)]
      clear ih hs h1 h2 h3 h4 h6 h8 h9 h10 h11 s1 s2 s3 s5 s7 s8 s9 s10 hs0 hns0
      by_cases hj : i = j + midPt
      · have hj2 : ¬ (i + 1 ≤ j + midPt ∧ j + midPt < L) := by omega
        have hj3 : i ≤ j + midPt ∧ j + midPt < L := by omega
        rw [if_neg hj2, if_pos hj, if_pos hj3, hj]
      · by_cases hj2 : i + 1 ≤ j + midPt ∧ j + midPt < L
        · have hj3 : i ≤ j + midPt ∧ j + midPt < L := by omega
          rw [if_pos hj2, if_pos hj3, if_neg hj]
        · have hj3 : ¬ (i ≤ j + midPt ∧ j + midPt < L) := by omega
          rw [if_neg hj2, if_neg hj, if_neg hj3]
    · rw [h11 j, s10 j, s8 (j + midPt)]
      clear ih hs h1 h2 h3 h4 h6 h8 h9 h10 h11 s1 s2 s3 s5 s7 s8 s9 s10 hs0 hns0
      by_cases hj : i = j + midPt
      · have hj2 : ¬ (i + 1 ≤ j + midPt ∧ j + midPt < L) := by omega
        have hj3 : i ≤ j + midPt ∧ j + midPt < L := by omega
        rw [if_neg hj2, if_pos hj, if_pos hj3, hj]
      · by_cases hj2 : i + 1 ≤ j + midPt ∧ j + midPt < L
        · have hj3 : i ≤ j + midPt ∧ j + midPt < L := by omega
          rw [if_pos hj2, if_pos hj3, if_neg hj]
        · have hj3 : ¬ (i ≤ j + midPt ∧ j + midPt < L) := by omega
          rw [if_neg hj2, if_neg hj, if_neg hj3]

theorem splitLeafMidPt_spec {L : Nat} {node : LeafNodeInt} (e : RIDKeyPair)
    (hL : 2 ≤ L) (hs : LeafSized L node) :
    ∃ midPt, splitLeafMidPt L node e = Except.ok midPt ∧ 1 ≤ midPt ∧ midPt < L
      ∧ (midPt = L / 2 ∨ midPt = L / 2 + 1) := by
  unfold splitLeafMidPt
  by_cases hodd : L % 2 = 1
  · have hb : L / 2 < node.keyArray.length := hs.keyLt (by omega)
    rw [if_pos hodd, rd_nat_of_lt node.keyArray (L / 2) hb]
    simp only
    by_cases hgt : e.key > node.keyArray[L / 2]
    · rw [if_pos hgt]
      exact ⟨_, rfl, by omega, by omega, Or.inr rfl⟩
    · rw [if_neg hgt]
      exact ⟨_, rfl, by omega, by omega, Or.inl rfl⟩
  · rw [if_neg hodd]
    exact ⟨_, rfl, by omega, by omega, Or.inl rfl⟩

/-- The two leaves after the copy loop of `splitLeaf` on a full leaf and a
fresh one: both are well formed, with `midPt` and `L - midPt` used slots. -/
theorem splitLeafLoop_full {L midPt : Nat} {node newLeaf : LeafNodeInt}
    (h1 : 1 ≤ midPt) (h2 : midPt < L)
    (hs : LeafSized L node)
    (hfull : UsedPrefix node.ridArray L)
    (hns : LeafSized L newLeaf)
    (hempty : UsedPrefix newLeaf.ridArray 0) :
    ∃ n1 n2, splitLeafLoop midPt (L - midPt) midPt node newLeaf = Except.ok (n1, n2)
      ∧ n1.rightSibPageNo = node.rightSibPageNo
      ∧ n2.rightSibPageNo = newLeaf.rightSibPageNo
      ∧ LeafSized L n1 ∧ LeafSized L n2
      ∧ UsedPrefix n1.ridArray midPt ∧ UsedPrefix n2.ridArray (L - midPt)
      ∧ (∀ j, j < midPt → n1.keyArray[j]? = node.keyArray[j]?
            ∧ n1.ridArray[j]? = node.ridArray[j]?)
      ∧ (∀ j, j < L - midPt → n2.keyArray[j]? = node.keyArray[j + midPt]?
            ∧ n2.ridArray[j]? = node.ridArray[j + midPt]?) := by
  obtain ⟨n1, n2, h, s1, s2, s3, s5, s7, s8, s9, s10⟩ :=
    splitLeafLoop_spec L midPt (L - midPt) midPt node newLeaf (by omega) (le_refl _)
      hs hns
  refine ⟨n1, n2, h, s1, s2, s3, s5, ⟨by rw [s3.2]; omega, ?_⟩, ⟨by rw [s5.2]; omega, ?_⟩,
    ?_, ?_⟩
  · intro j r hjr
    rw [s8 j] at hjr
    by_cases hj : midPt ≤ j ∧ j < L
    · rw [if_pos hj] at hjr
      cases hx : node.ridArray[j]? with
      | none => rw [hx] at hjr; cases hjr
      | some r0 =>
        rw [hx] at hjr
        simp only [Option.map_some'] at hjr
        injection hjr with hjr
        subst hjr
        constructor
        · intro hc; exact absurd rfl hc
        · intro hc; omega
    · rw [if_neg hj] at hjr
      have hjL : j < L := by
        by_contra hc
        rw [List.getElem?_eq_none (by rw [hs.2]; omega)] at hjr
        cases hjr
      have := hfull.2 j r hjr
      constructor
      · intro _; omega
      · intro _; exact this.2 hjL
  · intro j r hjr
    rw [s10 j] at hjr
    by_cases hj : midPt ≤ j + midPt ∧ j + midPt < L
    · rw [if_pos hj] at hjr
      have := hfull.2 _ r hjr
      constructor
      · intro _; omega
      · intro _; exact this.2 hj.2
    · rw [if_neg hj] at hjr
      have := hempty.2 j r hjr
      constructor
      · intro hc; exact absurd (this.1 hc) (by omega)
      · intro hc; omega
  · intro j hj
    rw [s7 j, s8 j]
    have : ¬ (midPt ≤ j ∧ j < L) := by omega
    rw [if_neg this, if_neg this]
    exact ⟨rfl, rfl⟩
  · intro j hj
    rw [s9 j, s10 j]
    have : midPt ≤ j + midPt ∧ j + midPt < L := by omega
    rw [if_pos this, if_pos this]
    exact ⟨rfl, rfl⟩

/-- The node-level part of `splitLeaf` on a full, well-formed leaf and a fresh
page (capacity at least 2): it succeeds, both leaves are well formed, the
original keeps its sibling link and its slot 0, the new leaf names
`newPageNum` as its sibling, has a used slot 0 and its key is the token key. -/
theorem splitLeafNodes_spec {L : Nat} {node newLeaf : LeafNodeInt} (e : RIDKeyPair) (q : Nat)
    (hL : 2 ≤ L)
    (hs : LeafSized L node)
    (hfull : UsedPrefix node.ridArray L)
    (hns : LeafSized L newLeaf)
    (hempty : UsedPrefix newLeaf.ridArray 0) :
    ∃ n1 n2 k0, splitLeafNodes L node newLeaf q e = Except.ok (n1, n2, k0)
      ∧ n1.rightSibPageNo = node.rightSibPageNo ∧ n2.rightSibPageNo = q
      ∧ LeafOK L n1 ∧ LeafOK L n2
      ∧ n1.keyArray[0]? = node.keyArray[0]? ∧ n1.ridArray[0]? = node.ridArray[0]?
      ∧ n2.keyArray[0]? = some k0
      ∧ (∃ r, n2.ridArray[0]? = some r ∧ r.page_number ≠ 0) := by
  obtain ⟨midPt, hmid, hm1, hm2, _⟩ := splitLeafMidPt_spec e hL hs
  obtain ⟨a1, a2, hloop, t1, t2, t3, t5, t7, t8, t9, t10⟩ :=
    splitLeafLoop_full hm1 hm2 hs hfull hns hempty
  -- slot 0 of the new leaf is slot `midPt` of the full leaf
  have hz : 0 < L - midPt := by omega
  have ha2 := t10 0 hz
  rw [Nat.zero_add] at ha2
  have hbr : midPt < node.ridArray.length := hs.ridLt hm2
  have hbk : midPt < node.keyArray.length := hs.keyLt hm2
  have hmL : node.ridArray[midPt]? = some node.ridArray[midPt] :=
    List.getElem?_eq_getElem hbr
  have hmK : node.keyArray[midPt]? = some node.keyArray[midPt] :=
    List.getElem?_eq_getElem hbk
  have hused := (hfull.2 midPt _ hmL).2 hm2
  have ha1 := t9 0 hm1
  -- the read of `keyArray[midPt - 1]`
  obtain ⟨mp, rfl⟩ : ∃ mp, midPt = mp + 1 := ⟨midPt - 1, by omega⟩
  have e1 : ((mp + 1 : Nat) : Int) - 1 = (mp : Int) := by push_cast; ring
  unfold splitLeafNodes
  rw [hmid]
  simp only
  rw [hloop]
  simp only
  unfold splitLeafInsert
  have hmp : mp < a1.keyArray.length := t3.keyLt (by omega)
  rw [e1, rd_nat_of_lt a1.keyArray mp hmp]
  simp only
  by_cases hgt : e.key > a1.keyArray[mp]
  · rw [if_pos hgt]
    obtain ⟨n', hn, u1, u2, u3⟩ := leafInsertion_leafOK e t5 t8 (by omega)
    have u3' := u3 hz
    rw [hn]
    simp only
    have hk0 : n'.keyArray[0]? = some node.keyArray[mp + 1] := by
      rw [u3'.1, ha2.1, hmK]
    rw [show (0 : Int) = ((0 : Nat) : Int) from rfl, (rd_nat _ _ _).2 hk0]
    refine ⟨_, _, _, rfl, t1, rfl, ⟨t3, _, t7⟩, ?_, ha1.1, ha1.2, hk0, ?_⟩
    · exact ⟨u2.1, u2.2⟩
    · exact ⟨_, by rw [u3'.2, ha2.2, hmL], hused⟩
  · rw [if_neg hgt]
    obtain ⟨n', hn, u1, u2, u3⟩ := leafInsertion_leafOK e t3 t7 hm2
    have u3' := u3 (by omega : 0 < mp + 1)
    rw [hn]
    simp only
    have hk0 : a2.keyArray[0]? = some node.keyArray[mp + 1] := by
      rw [ha2.1, hmK]
    rw [show (0 : Int) = ((0 : Nat) : Int) from rfl, (rd_nat _ _ _).2 hk0]
    refine ⟨_, _, _, rfl, u1.trans t1, rfl, u2, ⟨t5, _, t8⟩, ?_, ?_, hk0, ?_⟩
    · rw [u3'.1, ha1.1]
    · rw [u3'.2, ha1.2]
    · exact ⟨_, by rw [ha2.2, hmL], hused⟩

/-! ### Non-leaf nodes -/

theorem NonLeafSized.nodeKeyLt {N : Nat} {n : NonLeafNodeInt} (h : NonLeafSized N n) {j : Nat}
    (hj : j < N) : j < n.keyArray.length := by rw [h.1]; exact hj

theorem NonLeafSized.pageLt {N : Nat} {n : NonLeafNodeInt} (h : NonLeafSized N n) {j : Nat}
    (hj : j < N + 1) : j < n.pageNoArray.length := by rw [h.2]; exact hj

theorem nonLeafSkipEmpty_used {pages : List Nat} {c : Nat} (h : UsedChildren pages c) :
    ∀ k, c ≤ k → k ≤ pages.length → nonLeafSkipEmpty pages k = Except.ok c := by
  intro k
  induction k with
  | zero =>
    intro hm _
    have : c = 0 := by omega
    subst this; rfl
  | succ k ih =>
    intro hm hk
    unfold nonLeafSkipEmpty
    have hb : k < pages.length := by omega
    rw [rd_nat_of_lt pages k hb]
    simp only
    have hu := h.2 k pages[k] (List.getElem?_eq_getElem hb)
    by_cases hmk : c = k + 1
    · have : pages[k] ≠ 0 := hu.2 (by omega)
      rw [if_neg this, hmk]
    · have : pages[k] = 0 := by
        by_contra hc
        have := hu.1 hc
        omega
      rw [if_pos this]
      exact ih (by omega) (by omega)

theorem findNextLoop_spec (keys : List Int) (v : Int) :
    ∀ m, m ≤ keys.length →
      ∃ i, i ≤ m ∧ findNextLoop keys v m = Except.ok i
        ∧ (i = 0 ∨ ∃ k, keys[i - 1]? = some k ∧ k < v) := by
  intro m
  induction m with
  | zero => intro _; exact ⟨0, le_refl _, rfl, Or.inl rfl⟩
  | succ m ih =>
    intro hm
    have hb : m < keys.length := by omega
    unfold findNextLoop
    rw [rd_nat_of_lt keys m hb]
    simp only
    by_cases hge : keys[m] ≥ v
    · rw [if_pos hge]
      obtain ⟨i, hi, h1, h2⟩ := ih (by omega)
      exact ⟨i, by omega, h1, h2⟩
    · rw [if_neg hge]
      refine ⟨m + 1, le_refl _, rfl, Or.inr ⟨keys[m], ?_, by omega⟩⟩
      rw [Nat.add_sub_cancel]
      exact List.getElem?_eq_getElem hb

/-- On a node with `c >= 1` used children `findNext` returns one of them:
child 0, or a child whose left separator is smaller than the value. -/
theorem findNext_spec {N : Nat} {node : NonLeafNodeInt} {c : Nat} (v : Int)
    (hs : NonLeafSized N node) (hu : UsedChildren node.pageNoArray c)
    (hc1 : 1 ≤ c) (hcN : c ≤ N + 1) :
    ∃ i p, i < c ∧ findNext N node v = Except.ok p ∧ node.pageNoArray[i]? = some p
      ∧ (i = 0 ∨ ∃ k, node.keyArray[i - 1]? = some k ∧ k < v) := by
  unfold findNext
  rw [nonLeafSkipEmpty_used hu (N + 1) hcN (by rw [hs.2])]
  simp only [bind, Except.bind]
  obtain ⟨m, rfl⟩ : ∃ m, c = m + 1 := ⟨c - 1, by omega⟩
  simp only
  obtain ⟨i, hi, h1, h2⟩ := findNextLoop_spec node.keyArray v m (by rw [hs.1]; omega)
  rw [h1]
  simp only
  have hb : i < node.pageNoArray.length := hs.pageLt (by omega)
  rw [rd_nat_of_lt node.pageNoArray i hb]
  exact ⟨i, _, by omega, rfl, List.getElem?_eq_getElem hb, h2⟩

/-- The function `nonLeafInsertion` on a node with `c >= 2` used children and a
free child slot stores the key in key slot `c - 1` and the page number in
child slot `c`; the earlier slots keep their contents. -/
theorem nonLeafInsertion_spec {N : Nat} {node : NonLeafNodeInt} {c : Nat} (tok : PageKeyPair)
    (hs : NonLeafSized N node) (hu : UsedChildren node.pageNoArray c)
    (hc2 : 2 ≤ c) (hcN : c ≤ N) :
    ∃ n', nonLeafInsertion N node tok = Except.ok n'
      ∧ n'.level = node.level ∧ NonLeafSized N n'
      ∧ n'.keyArray[c - 1]? = some tok.key ∧ n'.pageNoArray[c]? = some tok.pageNo
      ∧ (∀ j, j < c - 1 → n'.keyArray[j]? = node.keyArray[j]?)
      ∧ (∀ j, j < c → n'.pageNoArray[j]? = node.pageNoArray[j]?)
      ∧ (∀ j p, c < j → n'.pageNoArray[j]? = some p → p = 0) := by
  obtain ⟨hk, hp⟩ := hs
  unfold nonLeafInsertion
  rw [nonLeafSkipEmpty_used hu (N + 1) (by omega) (by omega)]
  simp only [bind, Except.bind, pure, Except.pure]
  obtain ⟨c', rfl⟩ : ∃ c', c = c' + 2 := ⟨c - 2, by omega⟩
  have e1 : ((c' + 2 : Nat) : Int) - 1 = ((c' + 1 : Nat) : Int) := by push_cast; ring
  have e2 : ((c' + 1 : Nat) : Int) - 1 = (c' : Int) := by push_cast; ring
  have e3 : ((c' + 1 : Nat) : Int) + 1 = ((c' + 2 : Nat) : Int) := by push_cast; ring
  rw [e1, e2, e3]
  obtain ⟨ks, hmk⟩ : ∃ ks, memmove node.keyArray ((c' + 1 : Nat) : Int) (c' : Int)
      (N + 1 - (c' + 2)) = Except.ok ks :=
    ⟨_, memmove_nat node.keyArray (c' + 1) c' (N + 1 - (c' + 2)) (by omega) (by omega)⟩
  obtain ⟨ps, hmp⟩ : ∃ ps, memmove node.pageNoArray ((c' + 2 : Nat) : Int) ((c' + 1 : Nat) : Int)
      (N + 1 - (c' + 2)) = Except.ok ps :=
    ⟨_, memmove_nat node.pageNoArray (c' + 2) (c' + 1) (N + 1 - (c' + 2)) (by omega) (by omega)⟩
  rw [hmk, hmp]
  simp only
  have hlk := memmove_length hmk
  have hlp := memmove_length hmp
  rw [wr_nat_of_lt _ (c' + 1) _ (by omega), wr_nat_of_lt _ (c' + 2) _ (by omega)]
  have gk := memmove_getElem? hmk
  have gp := memmove_getElem? hmp
  refine ⟨_, rfl, rfl, ⟨by simp only [List.length_set]; omega,
    by simp only [List.length_set]; omega⟩, ?_, ?_, ?_, ?_, ?_⟩
  · rw [show c' + 2 - 1 = c' + 1 from rfl, List.getElem?_set_self (by omega)]
  · rw [List.getElem?_set_self (by omega)]
  · intro j hj
    simp only [List.getElem?_set]
    have h1 : ¬ (c' + 1 = j) := by omega
    have h2 : ¬ (c' + 1 ≤ j ∧ j < c' + 1 + (N + 1 - (c' + 2))) := by omega
    rw [if_neg h1, gk j, if_neg h2]
  · intro j hj
    simp only [List.getElem?_set]
    have h1 : ¬ (c' + 2 = j) := by omega
    have h2 : ¬ (c' + 2 ≤ j ∧ j < c' + 2 + (N + 1 - (c' + 2))) := by omega
    rw [if_neg h1, gp j, if_neg h2]
  · intro j p hj hjp
    simp only [List.getElem?_set] at hjp
    have h1 : ¬ (c' + 2 = j) := by omega
    rw [if_neg h1, gp j] at hjp
    by_contra hc
    by_cases hjL : j < N + 1
    · have hc1 : c' + 2 ≤ j ∧ j < c' + 2 + (N + 1 - (c' + 2)) := ⟨by omega, by omega⟩
      rw [if_pos hc1] at hjp
      have h2 := (hu.2 _ p hjp).1 hc
      omega
    · have hc1 : ¬ (c' + 2 ≤ j ∧ j < c' + 2 + (N + 1 - (c' + 2))) := by omega
      rw [if_neg hc1, List.getElem?_eq_none (by omega)] at hjp
      cases hjp

/-! ### `splitNonLeaf` leaves the key array -/

theorem splitNonLeafStep_cases (midPt i : Nat) (node newNode : NonLeafNodeInt) :
    (∃ e, splitNonLeafStep midPt i node newNode = Except.error e)
      ∨ (∃ n1 n2, splitNonLeafStep midPt i node newNode = Except.ok (n1, n2)
          ∧ n1.keyArray.length = node.keyArray.length
          ∧ i + 1 < node.keyArray.length) := by
  unfold splitNonLeafStep
  simp only [bind, Except.bind, pure, Except.pure]
  cases h1 : rd node.pageNoArray ((i : Int) + 1) with
  | error e => exact Or.inl ⟨e, rfl⟩
  | ok p =>
    simp only
    cases h2 : wr newNode.pageNoArray ((i : Int) - (midPt : Int)) p with
    | error e => exact Or.inl ⟨e, rfl⟩
    | ok newPages =>
      simp only
      cases h3 : rd node.keyArray (i : Int) with
      | error e => exact Or.inl ⟨e, rfl⟩
      | ok key =>
        simp only
        cases h4 : wr newNode.keyArray ((i : Int) - (midPt : Int)) key with
        | error e => exact Or.inl ⟨e, rfl⟩
        | ok newKeys =>
          simp only
          cases h5 : wr node.pageNoArray ((i : Int) + 1) 0 with
          | error e => exact Or.inl ⟨e, rfl⟩
          | ok pages =>
            simp only
            cases h6 : wr node.keyArray ((i : Int) + 1) 0 with
            | error e => exact Or.inl ⟨e, rfl⟩
            | ok keys =>
              simp only
              refine Or.inr ⟨_, _, rfl, wr_length h6, ?_⟩
              have e1 : (i : Int) + 1 = ((i + 1 : Nat) : Int) := by push_cast; ring
              rw [e1, wr_nat] at h6
              exact h6.1

/-- The copy loop of `splitNonLeaf` cannot complete when it runs up to the
last key slot: its last iteration writes `keyArray[i + 1]` past the end. -/
theorem splitNonLeafLoop_error (midPt : Nat) :
    ∀ k i (node newNode : NonLeafNodeInt), 1 ≤ k → i + k = node.keyArray.length →
      ∃ e, splitNonLeafLoop midPt k i node newNode = Except.error e := by
  intro k
  induction k with
  | zero => intro i node newNode h; omega
  | succ k ih =>
    intro i node newNode _ hik
    unfold splitNonLeafLoop
    rcases splitNonLeafStep_cases midPt i node newNode with ⟨e, he⟩ | ⟨n1, n2, he, hl, hlt⟩
    · rw [he]; exact ⟨e, rfl⟩
    · rw [he]
      simp only
      exact ih (i + 1) n1 n2 (by omega) (by omega)

theorem pushIndexOf_cases (N : Nat) (node : NonLeafNodeInt) (tok : PageKeyPair) :
    (∃ e, pushIndexOf N node tok = Except.error e)
      ∨ pushIndexOf N node tok = Except.ok (((N / 2 : Nat) : Int) - 1)
      ∨ pushIndexOf N node tok = Except.ok ((N / 2 : Nat) : Int) := by
  unfold pushIndexOf
  split
  · cases h : rd node.keyArray ((N / 2 : Nat) : Int) with
    | error e => exact Or.inl ⟨e, rfl⟩
    | ok km =>
      simp only
      split
      · exact Or.inr (Or.inl rfl)
      · exact Or.inr (Or.inr rfl)
  · exact Or.inr (Or.inr rfl)

/-- With at least three key slots the node-level part of `splitNonLeaf` always
runs out of the key array. -/
theorem splitNonLeafNodes_error {N : Nat} (node newNode : NonLeafNodeInt) (tok : PageKeyPair)
    (hN : 3 ≤ N) (hk : node.keyArray.length = N) :
    ∃ e, splitNonLeafNodes N node newNode tok = Except.error e := by
  unfold splitNonLeafNodes
  have loopErr : ∀ mp : Nat, mp ≤ N / 2 + 1 →
      ∃ e, splitNonLeafLoop mp (N - mp) mp node newNode = Except.error e := by
    intro mp hmp
    exact splitNonLeafLoop_error mp (N - mp) mp node newNode (by omega) (by omega)
  rcases pushIndexOf_cases N node tok with ⟨e, he⟩ | he | he
  · rw [he]; exact ⟨e, rfl⟩
  · rw [he]
    simp only
    cases h1 : rd node.keyArray (((N / 2 : Nat) : Int) - 1) with
    | error e => exact ⟨e, rfl⟩
    | ok pushKey =>
      simp only
      have e1 : (((N / 2 : Nat) : Int) - 1 + 1).toNat = N / 2 := by
        rw [Int.sub_add_cancel, Int.toNat_ofNat]
      rw [e1]
      obtain ⟨e, he⟩ := loopErr (N / 2) (by omega)
      rw [he]; exact ⟨e, rfl⟩
  · rw [he]
    simp only
    cases h1 : rd node.keyArray ((N / 2 : Nat) : Int) with
    | error e => exact ⟨e, rfl⟩
    | ok pushKey =>
      simp only
      have e1 : (((N / 2 : Nat) : Int) + 1).toNat = N / 2 + 1 := by
        rw [show ((N / 2 : Nat) : Int) + 1 = ((N / 2 + 1 : Nat) : Int) by push_cast; ring,
          Int.toNat_ofNat]
      rw [e1]
      obtain ⟨e, he⟩ := loopErr (N / 2 + 1) (le_refl _)
      rw [he]; exact ⟨e, rfl⟩

/-! ### Page contents under the buffer manager calls -/

theorem pageOf_readPage {s t : BTreeIndex} {q : Nat} (h : readPage s q = Except.ok t) (p : Nat) :
    pageOf t p = pageOf s p := by
  obtain ⟨f, hf, ht⟩ := readPage_ok h
  subst ht
  unfold pageOf
  rw [getFrame_setFrame]
  by_cases hpq : p = q
  · subst hpq; simp [hf]
  · simp [hpq]

theorem pageOf_unPinPage (s : BTreeIndex) (q : Nat) (d : Bool) (p : Nat) :
    pageOf (unPinPage s q d) p = pageOf s p := by
  unfold unPinPage
  cases hf : getFrame s q with
  | none => rfl
  | some f =>
    simp only [pageOf]
    rw [getFrame_setFrame]
    by_cases hpq : p = q
    · subst hpq; simp [hf]
    · simp [hpq]

theorem putPage_fields (s : BTreeIndex) (q : Nat) (pg : Page) :
    putPage s q pg = { s with bufPool := (putPage s q pg).bufPool } := by
  unfold putPage
  split
  · rfl
  · exact setFrame_fields _ _ _

theorem pageOf_putPage (s : BTreeIndex) (q : Nat) (pg : Page) (p : Nat) :
    pageOf (putPage s q pg) p
      = if p = q ∧ (pageOf s q).isSome then some pg else pageOf s p := by
  unfold putPage
  cases hf : getFrame s q with
  | none =>
    simp only [pageOf]
    by_cases hpq : p = q
    · subst hpq; simp [hf]
    · simp [hpq]
  | some f =>
    simp only [pageOf]
    rw [getFrame_setFrame]
    by_cases hpq : p = q
    · subst hpq; simp [hf]
    · simp [hpq]

theorem pageOf_allocPage (s : BTreeIndex) (p : Nat) :
    pageOf (allocPage s).2 p
      = if p = s.bufPool.length + 1 then some Page.blank else pageOf s p := by
  unfold allocPage pageOf getFrame
  by_cases hp : p = 0
  · subst hp; simp
  · simp only [hp, if_false]
    by_cases hpl : p = s.bufPool.length + 1
    · subst hpl
      simp
    · rw [if_neg hpl]
      by_cases hlt : p - 1 < s.bufPool.length
      · rw [List.getElem?_append_left hlt]
      · have h1 : s.bufPool[p - 1]? = none := List.getElem?_eq_none (by omega)
        have h2 : (s.bufPool ++ [{ page := Page.blank, pinCnt := 1, dirty := false }])[p - 1]?
            = none := List.getElem?_eq_none (by simp; omega)
        rw [h1, h2]

theorem allocPage_fst (s : BTreeIndex) : (allocPage s).1 = s.bufPool.length + 1 := rfl

theorem allocPage_fields (s : BTreeIndex) :
    (allocPage s).2 = { s with bufPool := (allocPage s).2.bufPool } := rfl

theorem allocPage_length (s : BTreeIndex) :
    (allocPage s).2.bufPool.length = s.bufPool.length + 1 := by
  simp [allocPage]

theorem pageOf_isSome_iff (s : BTreeIndex) (p : Nat) :
    (pageOf s p).isSome = true ↔ 1 ≤ p ∧ p ≤ s.bufPool.length := by
  unfold pageOf getFrame
  by_cases hp : p = 0
  · subst hp; simp
  · simp only [hp, if_false, Option.isSome_map']
    constructor
    · intro h
      by_contra hc
      rw [List.getElem?_eq_none (by omega)] at h
      cases h
    · intro h
      rw [List.getElem?_eq_getElem (by omega)]
      rfl

theorem length_readPage {s t : BTreeIndex} {q : Nat} (h : readPage s q = Except.ok t) :
    t.bufPool.length = s.bufPool.length := by
  obtain ⟨f, hf, ht⟩ := readPage_ok h
  subst ht
  unfold setFrame
  split
  · rfl
  · simp

theorem length_unPinPage (s : BTreeIndex) (q : Nat) (d : Bool) :
    (unPinPage s q d).bufPool.length = s.bufPool.length := by
  unfold unPinPage
  split
  · rfl
  · unfold setFrame
    split
    · rfl
    · simp

theorem length_putPage (s : BTreeIndex) (q : Nat) (pg : Page) :
    (putPage s q pg).bufPool.length = s.bufPool.length := by
  unfold putPage
  split
  · rfl
  · unfold setFrame
    split
    · rfl
    · simp

theorem getLeaf_of_pageOf {s : BTreeIndex} {p : Nat} {n : LeafNodeInt}
    (h : pageOf s p = some (Page.leaf n)) : getLeaf s p = Except.ok n := by
  unfold pageOf at h
  unfold getLeaf
  cases hf : getFrame s p with
  | none => rw [hf] at h; cases h
  | some f =>
    rw [hf] at h
    simp only [Option.map_some', Option.some.injEq] at h
    simp only [h, asLeaf, liftE]

theorem getLeaf_of_blank {s : BTreeIndex} {p : Nat}
    (h : pageOf s p = some Page.blank) : getLeaf s p = Except.ok (zeroLeaf s.leafOccupancy) := by
  unfold pageOf at h
  unfold getLeaf
  cases hf : getFrame s p with
  | none => rw [hf] at h; cases h
  | some f =>
    rw [hf] at h
    simp only [Option.map_some', Option.some.injEq] at h
    simp only [h, asLeaf, liftE]

theorem getNonLeaf_of_pageOf {s : BTreeIndex} {p : Nat} {n : NonLeafNodeInt}
    (h : pageOf s p = some (Page.nonLeaf n)) : getNonLeaf s p = Except.ok n := by
  unfold pageOf at h
  unfold getNonLeaf
  cases hf : getFrame s p with
  | none => rw [hf] at h; cases h
  | some f =>
    rw [hf] at h
    simp only [Option.map_some', Option.some.injEq] at h
    simp only [h, asNonLeaf, liftE]

theorem getNonLeaf_of_blank {s : BTreeIndex} {p : Nat}
    (h : pageOf s p = some Page.blank) :
    getNonLeaf s p = Except.ok (zeroNonLeaf s.nodeOccupancy) := by
  unfold pageOf at h
  unfold getNonLeaf
  cases hf : getFrame s p with
  | none => rw [hf] at h; cases h
  | some f =>
    rw [hf] at h
    simp only [Option.map_some', Option.some.injEq] at h
    simp only [h, asNonLeaf, liftE]

theorem getLeaf_ok {s : BTreeIndex} {p : Nat} {n : LeafNodeInt}
    (h : getLeaf s p = Except.ok n) :
    pageOf s p = some (Page.leaf n)
      ∨ (pageOf s p = some Page.blank ∧ n = zeroLeaf s.leafOccupancy) := by
  unfold getLeaf at h
  unfold pageOf
  cases hf : getFrame s p with
  | none => rw [hf] at h; cases h
  | some f =>
    rw [hf] at h
    simp only at h
    have h1 := liftE_ok h
    simp only [Option.map_some']
    cases hp : f.page with
    | blank => rw [hp] at h1; simp only [asLeaf] at h1; injection h1 with h1; exact Or.inr ⟨rfl, h1.symm⟩
    | meta m => rw [hp] at h1; simp [asLeaf] at h1
    | leaf n0 => rw [hp] at h1; simp only [asLeaf] at h1; injection h1 with h1; rw [h1]; exact Or.inl rfl
    | nonLeaf n0 => rw [hp] at h1; simp [asLeaf] at h1

theorem getMeta_of_pageOf {s : BTreeIndex} {p : Nat} {m : IndexMetaInfo}
    (h : pageOf s p = some (Page.meta m)) : getMeta s p = Except.ok m := by
  unfold pageOf at h
  unfold getMeta
  cases hf : getFrame s p with
  | none => rw [hf] at h; cases h
  | some f =>
    rw [hf] at h
    simp only [Option.map_some', Option.some.injEq] at h
    simp only [h, asMeta, liftE]

theorem readPage_of_pageOf {s : BTreeIndex} {p : Nat} {pg : Page}
    (h : pageOf s p = some pg) : ∃ t, readPage s p = Except.ok t := by
  unfold pageOf at h
  unfold readPage
  cases hf : getFrame s p with
  | none => rw [hf] at h; cases h
  | some f => exact ⟨_, rfl⟩

theorem zeroLeaf_sized (L : Nat) : LeafSized L (zeroLeaf L) := by
  simp [LeafSized, zeroLeaf]

theorem zeroLeaf_empty (L : Nat) : UsedPrefix (zeroLeaf L).ridArray 0 := by
  refine ⟨Nat.zero_le _, ?_⟩
  intro j r hjr
  simp only [zeroLeaf] at hjr
  rw [List.getElem?_replicate] at hjr
  split at hjr
  · injection hjr with hjr
    subst hjr
    simp
  · cases hjr

theorem zeroNonLeaf_sized (N : Nat) : NonLeafSized N (zeroNonLeaf N) := by
  simp [NonLeafSized, zeroNonLeaf]

theorem pageOf_putPage_ne (s : BTreeIndex) {q p : Nat} (pg : Page) (h : p ≠ q) :
    pageOf (putPage s q pg) p = pageOf s p := by
  rw [pageOf_putPage]
  have : ¬ (p = q ∧ (pageOf s q).isSome = true) := fun hc => h hc.1
  rw [if_neg this]

theorem pageOf_putPage_self (s : BTreeIndex) {q : Nat} (pg pg0 : Page)
    (h : pageOf s q = some pg0) : pageOf (putPage s q pg) q = some pg := by
  rw [pageOf_putPage, h]
  simp

theorem pageOf_allocPage_new (s : BTreeIndex) :
    pageOf (allocPage s).2 (s.bufPool.length + 1) = some Page.blank := by
  rw [pageOf_allocPage, if_pos rfl]

theorem pageOf_allocPage_old (s : BTreeIndex) {p : Nat} (h : p ≠ s.bufPool.length + 1) :
    pageOf (allocPage s).2 p = pageOf s p := by
  rw [pageOf_allocPage, if_neg h]

theorem pageOf_some_le {s : BTreeIndex} {p : Nat} {pg : Page} (h : pageOf s p = some pg) :
    1 ≤ p ∧ p ≤ s.bufPool.length :=
  (pageOf_isSome_iff s p).1 (by rw [h]; rfl)

theorem pageOf_some_ne_new {s : BTreeIndex} {p : Nat} {pg : Page} (h : pageOf s p = some pg) :
    p ≠ s.bufPool.length + 1 := by
  have := pageOf_some_le h
  omega

/-! ### Members left alone by the buffer manager calls -/

theorem confOf_setFrame (s : BTreeIndex) (q : Nat) (f : Frame) :
    confOf (setFrame s q f) = confOf s ∧ (setFrame s q f).rootPageNum = s.rootPageNum := by
  unfold setFrame
  split
  · exact ⟨rfl, rfl⟩
  · exact ⟨rfl, rfl⟩

theorem confOf_unPinPage (s : BTreeIndex) (q : Nat) (d : Bool) :
    confOf (unPinPage s q d) = confOf s := by
  unfold unPinPage
  split
  · rfl
  · exact (confOf_setFrame _ _ _).1

theorem root_unPinPage (s : BTreeIndex) (q : Nat) (d : Bool) :
    (unPinPage s q d).rootPageNum = s.rootPageNum := by
  unfold unPinPage
  split
  · rfl
  · exact (confOf_setFrame _ _ _).2

theorem confOf_putPage (s : BTreeIndex) (q : Nat) (pg : Page) :
    confOf (putPage s q pg) = confOf s := by
  unfold putPage
  split
  · rfl
  · exact (confOf_setFrame _ _ _).1

theorem root_putPage (s : BTreeIndex) (q : Nat) (pg : Page) :
    (putPage s q pg).rootPageNum = s.rootPageNum := by
  unfold putPage
  split
  · rfl
  · exact (confOf_setFrame _ _ _).2

theorem confOf_readPage {s t : BTreeIndex} {q : Nat} (h : readPage s q = Except.ok t) :
    confOf t = confOf s := by
  obtain ⟨f, _, ht⟩ := readPage_ok h
  rw [ht]; exact (confOf_setFrame _ _ _).1

theorem root_readPage {s t : BTreeIndex} {q : Nat} (h : readPage s q = Except.ok t) :
    t.rootPageNum = s.rootPageNum := by
  obtain ⟨f, _, ht⟩ := readPage_ok h
  rw [ht]; exact (confOf_setFrame _ _ _).2

theorem confOf_allocPage (s : BTreeIndex) : confOf (allocPage s).2 = confOf s := rfl

theorem root_allocPage (s : BTreeIndex) : (allocPage s).2.rootPageNum = s.rootPageNum := rfl

theorem confOf_header {s t : BTreeIndex} (h : confOf t = confOf s) :
    t.headerPageNum = s.headerPageNum := congrArg (fun c => c.1) h

theorem confOf_leafOccupancy {s t : BTreeIndex} (h : confOf t = confOf s) :
    t.leafOccupancy = s.leafOccupancy := congrArg (fun c => c.2.2.2.1) h

theorem confOf_nodeOccupancy {s t : BTreeIndex} (h : confOf t = confOf s) :
    t.nodeOccupancy = s.nodeOccupancy := congrArg (fun c => c.2.2.2.2.1) h

theorem confOf_initialRoot {s t : BTreeIndex} (h : confOf t = confOf s) :
    t.initialRootPageNum = s.initialRootPageNum :=
  congrArg (fun c => c.2.2.2.2.2.2.2.2.2.2.2.2) h

/-! ### `updateRoot` -/

theorem updateRootNode_spec (N : Nat) (level : Int) (firstPid : Nat) (tok : PageKeyPair)
    (hN : 1 ≤ N) :
    ∃ R, updateRootNode (zeroNonLeaf N) level firstPid tok = Except.ok R
      ∧ R.level = level ∧ NonLeafSized N R
      ∧ R.pageNoArray[0]? = some firstPid ∧ R.pageNoArray[1]? = some tok.pageNo
      ∧ R.keyArray[0]? = some tok.key
      ∧ (∀ j p, 2 ≤ j → R.pageNoArray[j]? = some p → p = 0) := by
  unfold updateRootNode
  have l1 : (zeroNonLeaf N).pageNoArray.length = N + 1 := by simp [zeroNonLeaf]
  have l2 : (zeroNonLeaf N).keyArray.length = N := by simp [zeroNonLeaf]
  rw [show (0 : Int) = ((0 : Nat) : Int) from rfl, show (1 : Int) = ((1 : Nat) : Int) from rfl,
    wr_nat_of_lt _ 0 _ (by omega)]
  simp only
  rw [wr_nat_of_lt _ 1 _ (by rw [List.length_set]; omega), wr_nat_of_lt _ 0 _ (by omega)]
  refine ⟨_, rfl, rfl, ⟨by simp only [List.length_set]; exact l2,
    by simp only [List.length_set]; exact l1⟩, ?_, ?_, ?_, ?_⟩
  · rw [List.getElem?_set_ne (by omega), List.getElem?_set_self (by omega)]
  · rw [List.getElem?_set_self (by rw [List.length_set]; omega)]
  · rw [List.getElem?_set_self (by omega)]
  · intro j p hj hjp
    rw [List.getElem?_set_ne (by omega), List.getElem?_set_ne (by omega)] at hjp
    simp only [zeroNonLeaf] at hjp
    rw [List.getElem?_replicate] at hjp
    split at hjp
    · injection hjp with hjp; exact hjp.symm
    · cases hjp

theorem updateRoot_spec {s : BTreeIndex} (firstPid : Nat) (tok : PageKeyPair)
    {m : IndexMetaInfo} (hN : 1 ≤ s.nodeOccupancy)
    (hm : pageOf s s.headerPageNum = some (Page.meta m)) :
    ∃ s' R, updateRoot s firstPid tok = Except.ok s'
      ∧ confOf s' = confOf s ∧ s'.rootPageNum = s.bufPool.length + 1
      ∧ s'.bufPool.length = s.bufPool.length + 1
      ∧ pageOf s' (s.bufPool.length + 1) = some (Page.nonLeaf R)
      ∧ R.level = (if s.initialRootPageNum = s.rootPageNum then 1 else 0)
      ∧ NonLeafSized s.nodeOccupancy R
      ∧ R.pageNoArray[0]? = some firstPid ∧ R.pageNoArray[1]? = some tok.pageNo
      ∧ R.keyArray[0]? = some tok.key
      ∧ (∀ j p, 2 ≤ j → R.pageNoArray[j]? = some p → p = 0)
      ∧ pageOf s' s.headerPageNum
          = some (Page.meta { m with rootPageNo := s.bufPool.length + 1 })
      ∧ (∀ q, q ≠ s.bufPool.length + 1 → q ≠ s.headerPageNum → pageOf s' q = pageOf s q) := by
  have hne : s.headerPageNum ≠ s.bufPool.length + 1 := pageOf_some_ne_new hm
  have hblank : pageOf (allocPage s).2 (allocPage s).1 = some Page.blank :=
    pageOf_allocPage_new s
  obtain ⟨R, hR, r1, r2, r3, r4, r5, r6⟩ :=
    updateRootNode_spec s.nodeOccupancy (if s.initialRootPageNum = s.rootPageNum then 1 else 0)
      firstPid tok hN
  unfold updateRoot
  simp only
  rw [getNonLeaf_of_blank hblank]
  simp only
  have hR' : updateRootNode (zeroNonLeaf (allocPage s).2.nodeOccupancy)
      (if (allocPage s).2.initialRootPageNum = (allocPage s).2.rootPageNum then 1 else 0)
      firstPid tok = Except.ok R := hR
  rw [hR']
  simp only [liftE]
  have hh : (allocPage s).2.headerPageNum = s.headerPageNum := rfl
  have hn : (allocPage s).1 = s.bufPool.length + 1 := rfl
  rw [hh, hn]
  -- the page contents after the new root has been stored
  have hp2new : pageOf (putPage (allocPage s).2 (s.bufPool.length + 1) (Page.nonLeaf R))
      (s.bufPool.length + 1) = some (Page.nonLeaf R) :=
    pageOf_putPage_self _ _ _ hblank
  have hp2old : ∀ q, q ≠ s.bufPool.length + 1 →
      pageOf (putPage (allocPage s).2 (s.bufPool.length + 1) (Page.nonLeaf R)) q = pageOf s q := by
    intro q hq
    rw [pageOf_putPage_ne _ _ hq, pageOf_allocPage_old _ hq]
  have hmeta2 : pageOf (putPage (allocPage s).2 (s.bufPool.length + 1) (Page.nonLeaf R))
      s.headerPageNum = some (Page.meta m) := by
    rw [hp2old _ hne, hm]
  obtain ⟨s3, hs3⟩ := readPage_of_pageOf hmeta2
  rw [hs3]
  simp only
  have hp3 := pageOf_readPage hs3
  have hmeta3 : pageOf s3 s.headerPageNum = some (Page.meta m) := by rw [hp3, hmeta2]
  rw [getMeta_of_pageOf hmeta3]
  simp only
  refine ⟨_, R, rfl, ?_, ?_, ?_, ?_, r1, r2, r3, r4, r5, r6, ?_, ?_⟩
  · rw [confOf_unPinPage, confOf_unPinPage]
    show confOf (putPage s3 s.headerPageNum _) = _
    rw [confOf_putPage, confOf_readPage hs3, confOf_putPage]
    rfl
  · rw [root_unPinPage, root_unPinPage]
  · rw [length_unPinPage, length_unPinPage]
    show (putPage s3 s.headerPageNum _).bufPool.length = _
    rw [length_putPage, length_readPage hs3, length_putPage, allocPage_length]
  · rw [pageOf_unPinPage, pageOf_unPinPage]
    show pageOf (putPage s3 s.headerPageNum _) _ = _
    rw [pageOf_putPage_ne _ _ (Ne.symm hne), hp3, hp2new]
  · rw [pageOf_unPinPage, pageOf_unPinPage]
    show pageOf (putPage s3 s.headerPageNum _) _ = _
    rw [pageOf_putPage_self _ _ _ hmeta3]
  · intro q hq1 hq2
    rw [pageOf_unPinPage, pageOf_unPinPage]
    show pageOf (putPage s3 s.headerPageNum _) _ = _
    rw [pageOf_putPage_ne _ _ hq2, hp3, hp2old _ hq1]

/-! ### `splitLeaf` on the object -/

theorem splitLeaf_spec {s : BTreeIndex} {p : Nat} {node : LeafNodeInt} (e : RIDKeyPair)
    {m : IndexMetaInfo}
    (hL : 2 ≤ s.leafOccupancy) (hN : 1 ≤ s.nodeOccupancy)
    (hp : pageOf s p = some (Page.leaf node))
    (hs : LeafSized s.leafOccupancy node) (hfull : UsedPrefix node.ridArray s.leafOccupancy)
    (hm : pageOf s s.headerPageNum = some (Page.meta m)) :
    ∃ tok s' n1 n2, splitLeaf s p e = Except.ok (tok, s')
      ∧ tok.pageNo = s.bufPool.length + 1
      ∧ SplitLeafPost s.leafOccupancy node n1 n2 (s.bufPool.length + 1) tok.key
      ∧ confOf s' = confOf s
      ∧ pageOf s' p = some (Page.leaf n1)
      ∧ pageOf s' (s.bufPool.length + 1) = some (Page.leaf n2)
      ∧ ((p ≠ s.rootPageNum ∧ s'.rootPageNum = s.rootPageNum
            ∧ s'.bufPool.length = s.bufPool.length + 1
            ∧ ∀ x, x ≠ p → x ≠ s.bufPool.length + 1 → pageOf s' x = pageOf s x)
        ∨ (p = s.rootPageNum ∧ s'.rootPageNum = s.bufPool.length + 2
            ∧ s'.bufPool.length = s.bufPool.length + 2
            ∧ (∃ R, pageOf s' (s.bufPool.length + 2) = some (Page.nonLeaf R)
                ∧ NewRootPost s.nodeOccupancy R
                    (if s.initialRootPageNum = s.rootPageNum then 1 else 0)
                    p (s.bufPool.length + 1) tok.key)
            ∧ pageOf s' s.headerPageNum
                = some (Page.meta { m with rootPageNo := s.bufPool.length + 2 })
            ∧ ∀ x, x ≠ p → x ≠ s.bufPool.length + 1 → x ≠ s.bufPool.length + 2 →
                x ≠ s.headerPageNum → pageOf s' x = pageOf s x)) := by
  have hpne : p ≠ s.bufPool.length + 1 := pageOf_some_ne_new hp
  have hhne : s.headerPageNum ≠ s.bufPool.length + 1 := pageOf_some_ne_new hm
  have hph : p ≠ s.headerPageNum := by
    intro hc; rw [hc, hm] at hp; cases hp
  have hp1 : pageOf (allocPage s).2 p = some (Page.leaf node) := by
    rw [pageOf_allocPage_old _ hpne, hp]
  have hq1 : pageOf (allocPage s).2 (s.bufPool.length + 1) = some Page.blank :=
    pageOf_allocPage_new s
  obtain ⟨n1, n2, k0, hnodes, t1, t2, t3, t4, t5, t6, t7, t8⟩ :=
    splitLeafNodes_spec e (s.bufPool.length + 1) hL hs hfull (zeroLeaf_sized _) (zeroLeaf_empty _)
  unfold splitLeaf
  simp only
  have hn : (allocPage s).1 = s.bufPool.length + 1 := rfl
  have hLo : (allocPage s).2.leafOccupancy = s.leafOccupancy := rfl
  rw [hn, getLeaf_of_pageOf hp1]
  simp only
  rw [getLeaf_of_blank hq1]
  simp only
  rw [hLo, hnodes]
  simp only [liftE]
  -- the object before the two pages are unpinned
  obtain ⟨sA, hsA⟩ : ∃ sA, sA = putPage (putPage (allocPage s).2 p (Page.leaf n1))
      (s.bufPool.length + 1) (Page.leaf n2) := ⟨_, rfl⟩
  rw [← hsA]
  have hq2 : pageOf (putPage (allocPage s).2 p (Page.leaf n1)) (s.bufPool.length + 1)
      = some Page.blank := by
    rw [pageOf_putPage_ne _ _ (Ne.symm hpne), hq1]
  have hAp : pageOf sA p = some (Page.leaf n1) := by
    rw [hsA, pageOf_putPage_ne _ _ hpne, pageOf_putPage_self _ _ _ hp1]
  have hAq : pageOf sA (s.bufPool.length + 1) = some (Page.leaf n2) := by
    rw [hsA, pageOf_putPage_self _ _ _ hq2]
  have hAo : ∀ x, x ≠ p → x ≠ s.bufPool.length + 1 → pageOf sA x = pageOf s x := by
    intro x hx1 hx2
    rw [hsA, pageOf_putPage_ne _ _ hx2, pageOf_putPage_ne _ _ hx1, pageOf_allocPage_old _ hx2]
  have hAc : confOf sA = confOf s := by
    rw [hsA, confOf_putPage, confOf_putPage]; rfl
  have hAr : sA.rootPageNum = s.rootPageNum := by
    rw [hsA, root_putPage, root_putPage]; rfl
  have hAl : sA.bufPool.length = s.bufPool.length + 1 := by
    rw [hsA, length_putPage, length_putPage, allocPage_length]
  clear hsA
  obtain ⟨sB, hsB⟩ : ∃ sB, sB = unPinPage (unPinPage sA p true) (s.bufPool.length + 1) true :=
    ⟨_, rfl⟩
  have hBpage : ∀ x, pageOf sB x = pageOf sA x := by
    intro x; rw [hsB, pageOf_unPinPage, pageOf_unPinPage]
  have hBc : confOf sB = confOf s := by
    rw [hsB, confOf_unPinPage, confOf_unPinPage, hAc]
  have hBr : sB.rootPageNum = s.rootPageNum := by
    rw [hsB, root_unPinPage, root_unPinPage, hAr]
  have hBl : sB.bufPool.length = s.bufPool.length + 1 := by
    rw [hsB, length_unPinPage, length_unPinPage, hAl]
  unfold splitFinish
  simp only
  rw [← hsB, hBr]
  have post : SplitLeafPost s.leafOccupancy node n1 n2 (s.bufPool.length + 1) k0 :=
    ⟨t1, t2, t3, t4, t5, t6, t7, t8⟩
  by_cases hroot : p = s.rootPageNum
  · rw [if_pos hroot]
    have hBm : pageOf sB sB.headerPageNum = some (Page.meta m) := by
      rw [confOf_header hBc, hBpage, hAo _ (Ne.symm hph) hhne, hm]
    have hBN : 1 ≤ sB.nodeOccupancy := by rw [confOf_nodeOccupancy hBc]; exact hN
    obtain ⟨s', R, hu, u1, u2, u3, u4, u5, u6, u7, u8, u9, u10, u11, u12⟩ :=
      updateRoot_spec p { pageNo := s.bufPool.length + 1, key := k0 } hBN hBm
    rw [hu]
    simp only
    rw [hBl] at u2 u3 u4 u11 u12
    rw [confOf_header hBc] at u11 u12
    rw [confOf_nodeOccupancy hBc] at u6
    rw [confOf_initialRoot hBc, hBr] at u5
    have hne2 : p ≠ s.bufPool.length + 1 + 1 := by
      have := pageOf_some_le hp; omega
    refine ⟨_, s', n1, n2, rfl, rfl, post, u1.trans hBc, ?_, ?_, Or.inr ⟨hroot, u2, u3,
      ⟨R, u4, u5, u6, u7, u8, u9, u10⟩, u11, ?_⟩⟩
    · rw [u12 _ hne2 hph, hBpage, hAp]
    · rw [u12 _ (by omega) (Ne.symm hhne), hBpage, hAq]
    · intro x hx1 hx2 hx3 hx4
      rw [u12 _ hx3 hx4, hBpage, hAo _ hx1 hx2]
  · rw [if_neg hroot]
    refine ⟨_, sB, n1, n2, rfl, rfl, post, hBc, ?_, ?_, Or.inl ⟨hroot, hBr, hBl, ?_⟩⟩
    · rw [hBpage, hAp]
    · rw [hBpage, hAq]
    · intro x hx1 hx2
      rw [hBpage, hAo _ hx1 hx2]

/-! ### The leaf case of `insertion` -/

/-- The leaf case of `insertion` on a well-formed leaf page: either the entry
is stored in the leaf, or the leaf is split as described by `splitLeaf_spec`. -/
theorem insertionLeaf_spec {s : BTreeIndex} {p : Nat} {node : LeafNodeInt} (e : RIDKeyPair)
    {m : IndexMetaInfo}
    (hL : 2 ≤ s.leafOccupancy) (hN : 1 ≤ s.nodeOccupancy)
    (hp : pageOf s p = some (Page.leaf node)) (hok : LeafOK s.leafOccupancy node)
    (hm : pageOf s s.headerPageNum = some (Page.meta m)) :
    (∃ s' n', insertionLeaf s p e = Except.ok (none, s')
        ∧ confOf s' = confOf s ∧ s'.rootPageNum = s.rootPageNum
        ∧ s'.bufPool.length = s.bufPool.length
        ∧ pageOf s' p = some (Page.leaf n')
        ∧ (∀ x, x ≠ p → pageOf s' x = pageOf s x)
        ∧ LeafOK s.leafOccupancy n' ∧ n'.rightSibPageNo = node.rightSibPageNo
        ∧ ((∃ r, node.ridArray[0]? = some r ∧ r.page_number ≠ 0) →
            n'.keyArray[0]? = node.keyArray[0]? ∧ n'.ridArray[0]? = node.ridArray[0]?))
      ∨ (∃ tok s', insertionLeaf s p e = Except.ok (some tok, s')
          ∧ splitLeaf s p e = Except.ok (tok, s')
          ∧ UsedPrefix node.ridArray s.leafOccupancy) := by
  obtain ⟨hs, mu, hu⟩ := hok
  unfold insertionLeaf
  rw [getLeaf_of_pageOf hp]
  simp only
  obtain ⟨l, hl⟩ : ∃ l, s.leafOccupancy = l + 1 := ⟨s.leafOccupancy - 1, by omega⟩
  have e1 : ((s.leafOccupancy : Nat) : Int) - 1 = (l : Int) := by rw [hl]; push_cast; ring
  have hb : l < node.ridArray.length := hs.ridLt (by omega)
  have hrd : rd node.ridArray ((s.leafOccupancy : Int) - 1) = Except.ok node.ridArray[l] := by
    rw [e1, rd_nat_of_lt _ _ hb]
  rw [hrd]
  simp only [liftE]
  by_cases hz : node.ridArray[l].page_number = 0
  · rw [if_pos hz]
    left
    have hroom := usedPrefix_of_room hs.2 hu hrd hz
    obtain ⟨n', hn, u1, u2, u3⟩ := leafInsertion_leafOK e hs hu hroom
    rw [hn]
    simp only
    refine ⟨_, n', rfl, ?_, ?_, ?_, ?_, ?_, u2, u1, ?_⟩
    · rw [confOf_unPinPage, confOf_putPage]
    · rw [root_unPinPage, root_putPage]
    · rw [length_unPinPage, length_putPage]
    · rw [pageOf_unPinPage, pageOf_putPage_self _ _ _ hp]
    · intro x hx
      rw [pageOf_unPinPage, pageOf_putPage_ne _ _ hx]
    · rintro ⟨r, hr, hr0⟩
      exact u3 ((hu.2 0 r hr).1 hr0)
  · rw [if_neg hz]
    right
    have hfull : mu = s.leafOccupancy := usedPrefix_full hs.2 hu hrd hz
    subst hfull
    obtain ⟨tok, s', n1, n2, hsplit, _⟩ := splitLeaf_spec e hL hN hp hs hu hm
    rw [hsplit]
    exact ⟨tok, s', rfl, rfl, hu⟩

/-! ### `splitNonLeaf` on the object -/

theorem splitNonLeaf_error {s : BTreeIndex} {p : Nat} {R : NonLeafNodeInt} (tok : PageKeyPair)
    (hN : 3 ≤ s.nodeOccupancy) (hp : pageOf s p = some (Page.nonLeaf R))
    (hk : R.keyArray.length = s.nodeOccupancy) :
    ∃ e, splitNonLeaf s p tok = Except.error e := by
  have hpne : p ≠ s.bufPool.length + 1 := pageOf_some_ne_new hp
  have hp1 : pageOf (allocPage s).2 p = some (Page.nonLeaf R) := by
    rw [pageOf_allocPage_old _ hpne, hp]
  unfold splitNonLeaf
  simp only
  rw [getNonLeaf_of_pageOf hp1]
  simp only
  rw [show (allocPage s).1 = s.bufPool.length + 1 from rfl,
    getNonLeaf_of_blank (pageOf_allocPage_new s)]
  simp only
  obtain ⟨e, he⟩ := splitNonLeafNodes_error R (zeroNonLeaf (allocPage s).2.nodeOccupancy) tok hN hk
  rw [show (allocPage s).2.nodeOccupancy = s.nodeOccupancy from rfl] at he ⊢
  rw [he]
  exact ⟨_, rfl⟩

/-! ### The invariant `TreeInv` under `insertEntry` -/

theorem TreeInv.congrFields {L N : Nat} {s t : BTreeIndex} (h : TreeInv L N s)
    (hp : ∀ p, pageOf t p = pageOf s p)
    (hl : t.leafOccupancy = s.leafOccupancy) (hn : t.nodeOccupancy = s.nodeOccupancy)
    (hh : t.headerPageNum = s.headerPageNum)
    (hi : t.initialRootPageNum = s.initialRootPageNum)
    (hr : t.rootPageNum = s.rootPageNum) : TreeInv L N t := by
  refine ⟨?_, ?_, ?_, ?_, ?_, ?_, ?_, ?_⟩
  · rw [hl]; exact h.leafCap
  · rw [hn]; exact h.nodeCap
  · obtain ⟨m, hm⟩ := h.header
    exact ⟨m, by rw [hh, hp, hm]⟩
  · rw [hi]; exact h.init
  · intro p n hn; rw [hp] at hn; exact h.leaves p n hn
  · intro p n hn; rw [hp] at hn; exact h.nodes p n hn
  · obtain ⟨n0, h1, h2⟩ := h.first
    exact ⟨n0, by rw [hp, h1], h2⟩
  · rcases h.root with h1 | ⟨h1, R, c, h2, h3, h4, h5, h6, h7⟩
    · exact Or.inl (by rw [hr, h1])
    · refine Or.inr ⟨by rw [hr]; exact h1, R, c, by rw [hr, hp, h2], h3, h4, h5, h6, ?_⟩
      intro j hj1 hj2
      obtain ⟨q, X, k, c1, c2, c3, c4, c5, c6⟩ := h7 j hj1 hj2
      exact ⟨q, X, k, c1, c2, by rw [hp, c3], c4, c5, c6⟩

theorem TreeInv.congr {L N : Nat} {s t : BTreeIndex} (h : TreeInv L N s)
    (hp : ∀ p, pageOf t p = pageOf s p) (hc : confOf t = confOf s)
    (hr : t.rootPageNum = s.rootPageNum) : TreeInv L N t :=
  h.congrFields hp (confOf_leafOccupancy hc) (confOf_nodeOccupancy hc) (confOf_header hc)
    (confOf_initialRoot hc) hr

theorem TreeInv.ofReadPage {L N : Nat} {s t : BTreeIndex} {q : Nat} (h : TreeInv L N s)
    (hr : badgerdb.readPage s q = Except.ok t) : TreeInv L N t :=
  h.congr (pageOf_readPage hr) (confOf_readPage hr) (root_readPage hr)

/-- The root is still the leaf page 2: `insertion` at the root keeps the
invariant, with or without a split. -/
theorem inv_leafRoot {L N : Nat} {s : BTreeIndex} (hL2 : 2 ≤ L) (hN1 : 1 ≤ N)
    (h : TreeInv L N s) (hroot : s.rootPageNum = 2) (e : RIDKeyPair)
    {r : Option PageKeyPair × BTreeIndex} (hres : insertionLeaf s 2 e = Except.ok r) :
    TreeInv L N r.2 := by
  obtain ⟨n0, hp0, hsib0⟩ := h.first
  obtain ⟨m, hm⟩ := h.header
  have hok0 := h.leaves 2 n0 hp0
  have hLs : s.leafOccupancy = L := h.leafCap
  have hNs : s.nodeOccupancy = N := h.nodeCap
  rw [← hLs] at hok0
  rcases insertionLeaf_spec e (by rw [hLs]; exact hL2) (by rw [hNs]; exact hN1) hp0 hok0 hm with
    ⟨s', n', hi, a1, a2, a3, a4, a5, a6, a7, _⟩ | ⟨tok, s', hi, hsp, hfull⟩
  · rw [hi] at hres
    injection hres with hres
    subst hres
    simp only
    rw [hLs] at a6
    refine ⟨?_, ?_, ?_, ?_, ?_, ?_, ?_, ?_⟩
    · rw [confOf_leafOccupancy a1]; exact hLs
    · rw [confOf_nodeOccupancy a1]; exact hNs
    · refine ⟨m, ?_⟩
      rw [confOf_header a1]
      have hne : s.headerPageNum ≠ 2 := by
        intro hc; rw [hc, hp0] at hm; cases hm
      rw [a5 _ hne, hm]
    · rw [confOf_initialRoot a1]; exact h.init
    · intro p n hn
      by_cases hp2 : p = 2
      · subst hp2
        rw [a4] at hn
        injection hn with hn; injection hn with hn
        subst hn; exact a6
      · rw [a5 _ hp2] at hn
        exact h.leaves p n hn
    · intro p n hn
      by_cases hp2 : p = 2
      · subst hp2
        rw [a4] at hn
        cases hn
      · rw [a5 _ hp2] at hn
        exact h.nodes p n hn
    · exact ⟨n', a4, a7.trans hsib0⟩
    · exact Or.inl (by rw [a2, hroot])
  · rw [hi] at hres
    injection hres with hres
    subst hres
    simp only
    obtain ⟨tok', s'', n1, n2, hsp', b1, b2, b3, b4, b5, b6⟩ :=
      splitLeaf_spec e (by rw [hLs]; exact hL2) (by rw [hNs]; exact hN1) hp0 hok0.1 hfull hm
    rw [hsp] at hsp'
    injection hsp' with hsp'
    injection hsp' with ht hs''
    subst ht; subst hs''
    obtain ⟨p1, p2, p3, p4, p5, p6, p7, p8⟩ := b2
    rw [hLs] at p3 p4
    have hlen := pageOf_some_le hp0
    rcases b6 with ⟨hne, _⟩ | ⟨_, c1, c2, ⟨R, c3, c4, c5, c6, c7, c8, c9⟩, c10, c11⟩
    · exact absurd hroot.symm hne
    · rw [hNs] at c5
      have hhne2 : s.headerPageNum ≠ 2 := by
        intro hc; rw [hc, hp0] at hm; cases hm
      have hhle := pageOf_some_le hm
      refine ⟨?_, ?_, ?_, ?_, ?_, ?_, ?_, ?_⟩
      · rw [confOf_leafOccupancy b3]; exact hLs
      · rw [confOf_nodeOccupancy b3]; exact hNs
      · exact ⟨_, by rw [confOf_header b3]; exact c10⟩
      · rw [confOf_initialRoot b3]; exact h.init
      · intro p n hn
        by_cases hp2 : p = 2
        · subst hp2
          rw [b4] at hn
          injection hn with hn; injection hn with hn
          subst hn; exact p3
        · by_cases hpq : p = s.bufPool.length + 1
          · subst hpq
            rw [b5] at hn
            injection hn with hn; injection hn with hn
            subst hn; exact p4
          · by_cases hpr : p = s.bufPool.length + 2
            · subst hpr
              rw [c3] at hn; cases hn
            · by_cases hph : p = s.headerPageNum
              · subst hph
                rw [c10] at hn; cases hn
              · rw [c11 _ hp2 hpq hpr hph] at hn
                exact h.leaves p n hn
      · intro p n hn
        by_cases hp2 : p = 2
        · subst hp2
          rw [b4] at hn; cases hn
        · by_cases hpq : p = s.bufPool.length + 1
          · subst hpq
            rw [b5] at hn; cases hn
          · by_cases hpr : p = s.bufPool.length + 2
            · subst hpr
              rw [c3] at hn
              injection hn with hn; injection hn with hn
              subst hn; exact c5
            · by_cases hph : p = s.headerPageNum
              · subst hph
                rw [c10] at hn; cases hn
              · rw [c11 _ hp2 hpq hpr hph] at hn
                exact h.nodes p n hn
      · exact ⟨n1, b4, p1.trans hsib0⟩
      · right
        refine ⟨by rw [c1]; omega, R, 2, by rw [c1]; exact c3, ?_, ?_, le_refl _, c6, ?_⟩
        · rw [c4, h.init, hroot, if_pos rfl]
        · refine ⟨by rw [c5.2]; omega, ?_⟩
          intro j x hjx
          rcases Nat.lt_or_ge j 2 with hj | hj
          · have hx : x ≠ 0 := by
              rcases Nat.lt_or_ge j 1 with hj0 | hj1
              · have : j = 0 := by omega
                subst this
                rw [c6] at hjx; injection hjx with hjx; omega
              · have : j = 1 := by omega
                subst this
                rw [c7] at hjx; injection hjx with hjx; omega
            exact ⟨fun _ => hj, fun _ => hx⟩
          · have hx := c9 j x hj hjx
            constructor
            · intro hc; exact absurd hx hc
            · intro hc; omega
        · intro j hj1 hj2
          have : j = 1 := by omega
          subst this
          exact ⟨_, n2, _, c7, c8, b5, p2, p7, p8⟩

/-- The leaf page that `findNext` selects below a root of the shape `RootInv`:
page 2, or a child described by `ChildInv`. -/
theorem rootChild {L N : Nat} {s : BTreeIndex} (h : TreeInv L N s) {R : NonLeafNodeInt} {c : Nat}
    (hR : pageOf s s.rootPageNum = some (Page.nonLeaf R))
    (hu : UsedChildren R.pageNoArray c) (hc2 : 2 ≤ c)
    (h0 : R.pageNoArray[0]? = some 2) (hch : ∀ j, 1 ≤ j → j < c → ChildInv s R j) (v : Int) :
    ∃ i pc X, i < c ∧ findNext N R v = Except.ok pc ∧ R.pageNoArray[i]? = some pc
      ∧ pageOf s pc = some (Page.leaf X)
      ∧ (i = 0 ∨ ∃ k, R.keyArray[i - 1]? = some k ∧ k < v) := by
  have hsz := h.nodes _ _ hR
  have hcN : c ≤ N + 1 := by have := hu.1; rw [hsz.2] at this; exact this
  obtain ⟨i, pc, hi, hf, hpi, hk⟩ := findNext_spec v hsz hu (by omega) hcN
  rcases Nat.eq_zero_or_pos i with hi0 | hipos
  · subst hi0
    obtain ⟨n0, hp0, _⟩ := h.first
    rw [h0] at hpi
    injection hpi with hpi
    subst hpi
    exact ⟨0, 2, n0, hi, hf, h0, hp0, Or.inl rfl⟩
  · obtain ⟨q, X, k, c1, c2, c3, c4, c5, c6⟩ := hch i hipos hi
    rw [c1] at hpi
    injection hpi with hpi
    subst hpi
    exact ⟨i, q, X, hi, hf, c1, c3, hk⟩

/-- A child leaf received the entry without a split: the invariant holds for
every object that differs from the old one in that page only. -/
theorem inv_childStored {L N : Nat} {s t : BTreeIndex} {pc : Nat} {X n' : LeafNodeInt}
    (h : TreeInv L N s) (hri : RootInv s)
    (hX : pageOf s pc = some (Page.leaf X))
    (hc : confOf t = confOf s) (hr : t.rootPageNum = s.rootPageNum)
    (hpc : pageOf t pc = some (Page.leaf n'))
    (hoth : ∀ x, x ≠ pc → pageOf t x = pageOf s x)
    (hok : LeafOK L n') (hsib : n'.rightSibPageNo = X.rightSibPageNo)
    (hslot : (∃ r, X.ridArray[0]? = some r ∧ r.page_number ≠ 0) →
      n'.keyArray[0]? = X.keyArray[0]? ∧ n'.ridArray[0]? = X.ridArray[0]?) :
    TreeInv L N t := by
  obtain ⟨hne2, R, c, hR, hlev, hu, hc2, h0, hch⟩ := hri
  have hrpc : s.rootPageNum ≠ pc := by
    intro hc; rw [hc, hX] at hR; cases hR
  obtain ⟨m, hm⟩ := h.header
  have hhpc : s.headerPageNum ≠ pc := by
    intro hc; rw [hc, hX] at hm; cases hm
  refine ⟨?_, ?_, ?_, ?_, ?_, ?_, ?_, ?_⟩
  · rw [confOf_leafOccupancy hc]; exact h.leafCap
  · rw [confOf_nodeOccupancy hc]; exact h.nodeCap
  · exact ⟨m, by rw [confOf_header hc, hoth _ hhpc, hm]⟩
  · rw [confOf_initialRoot hc]; exact h.init
  · intro p n hn
    by_cases hp : p = pc
    · subst hp
      rw [hpc] at hn
      injection hn with hn; injection hn with hn
      subst hn; exact hok
    · rw [hoth _ hp] at hn
      exact h.leaves p n hn
  · intro p n hn
    by_cases hp : p = pc
    · subst hp
      rw [hpc] at hn; cases hn
    · rw [hoth _ hp] at hn
      exact h.nodes p n hn
  · obtain ⟨n0, hp0, hs0⟩ := h.first
    by_cases hp : 2 = pc
    · subst hp
      rw [hp0] at hX
      injection hX with hX; injection hX with hX
      subst hX
      exact ⟨n', hpc, hsib.trans hs0⟩
    · exact ⟨n0, by rw [hoth _ hp, hp0], hs0⟩
  · right
    refine ⟨by rw [hr]; exact hne2, R, c, by rw [hr, hoth _ hrpc, hR], hlev, hu, hc2, h0, ?_⟩
    intro j hj1 hj2
    obtain ⟨q, Y, k, c1, c2, c3, c4, c5, c6⟩ := hch j hj1 hj2
    by_cases hq : q = pc
    · subst hq
      rw [hX] at c3
      injection c3 with c3; injection c3 with c3
      subst c3
      obtain ⟨r, hr1, hr2⟩ := c6
      have hs := hslot ⟨r, hr1, hr2⟩
      exact ⟨q, n', k, c1, c2, hpc, hsib.trans c4, by rw [hs.1, c5], r, by rw [hs.2, hr1], hr2⟩
    · exact ⟨q, Y, k, c1, c2, by rw [hoth _ hq, c3], c4, c5, c6⟩

/-- A child leaf was split and the root absorbed the token: the invariant
holds for the resulting object. -/
theorem inv_childSplit {L N : Nat} {s t : BTreeIndex} {pc : Nat} {X n1 n2 : LeafNodeInt}
    {R R' : NonLeafNodeInt} {c : Nat} {k0 : Int}
    (h : TreeInv L N s) (hne2 : s.rootPageNum ≠ 2)
    (hR : pageOf s s.rootPageNum = some (Page.nonLeaf R)) (hlev : R.level = 1)
    (hu : UsedChildren R.pageNoArray c) (hc2 : 2 ≤ c)
    (h0 : R.pageNoArray[0]? = some 2) (hch : ∀ j, 1 ≤ j → j < c → ChildInv s R j)
    (hX : pageOf s pc = some (Page.leaf X))
    (post : SplitLeafPost L X n1 n2 (s.bufPool.length + 1) k0)
    (hc : confOf t = confOf s) (hr : t.rootPageNum = s.rootPageNum)
    (hpc : pageOf t pc = some (Page.leaf n1))
    (hq : pageOf t (s.bufPool.length + 1) = some (Page.leaf n2))
    (hroot : pageOf t s.rootPageNum = some (Page.nonLeaf R'))
    (hoth : ∀ x, x ≠ pc → x ≠ s.bufPool.length + 1 → x ≠ s.rootPageNum →
      pageOf t x = pageOf s x)
    (r1 : R'.level = R.level) (r2 : NonLeafSized N R')
    (r3 : R'.keyArray[c - 1]? = some k0)
    (r4 : R'.pageNoArray[c]? = some (s.bufPool.length + 1))
    (r5 : ∀ j, j < c - 1 → R'.keyArray[j]? = R.keyArray[j]?)
    (r6 : ∀ j, j < c → R'.pageNoArray[j]? = R.pageNoArray[j]?)
    (r7 : ∀ j p, c < j → R'.pageNoArray[j]? = some p → p = 0) :
    TreeInv L N t := by
  obtain ⟨p1, p2, p3, p4, p5, p6, p7, p8⟩ := post
  have hrpc : s.rootPageNum ≠ pc := by
    intro hc; rw [hc, hX] at hR; cases hR
  have hrq : s.rootPageNum ≠ s.bufPool.length + 1 := pageOf_some_ne_new hR
  have hpcq : pc ≠ s.bufPool.length + 1 := pageOf_some_ne_new hX
  obtain ⟨m, hm⟩ := h.header
  have hhpc : s.headerPageNum ≠ pc := by
    intro hc; rw [hc, hX] at hm; cases hm
  have hhq : s.headerPageNum ≠ s.bufPool.length + 1 := pageOf_some_ne_new hm
  have hhr : s.headerPageNum ≠ s.rootPageNum := by
    intro hc; rw [hc, hR] at hm; cases hm
  refine ⟨?_, ?_, ?_, ?_, ?_, ?_, ?_, ?_⟩
  · rw [confOf_leafOccupancy hc]; exact h.leafCap
  · rw [confOf_nodeOccupancy hc]; exact h.nodeCap
  · exact ⟨m, by rw [confOf_header hc, hoth _ hhpc hhq hhr, hm]⟩
  · rw [confOf_initialRoot hc]; exact h.init
  · intro p n hn
    by_cases hp : p = pc
    · subst hp
      rw [hpc] at hn
      injection hn with hn; injection hn with hn
      subst hn; exact p3
    · by_cases hp2 : p = s.bufPool.length + 1
      · subst hp2
        rw [hq] at hn
        injection hn with hn; injection hn with hn
        subst hn; exact p4
      · by_cases hp3 : p = s.rootPageNum
        · subst hp3
          rw [hroot] at hn; cases hn
        · rw [hoth _ hp hp2 hp3] at hn
          exact h.leaves p n hn
  · intro p n hn
    by_cases hp : p = pc
    · subst hp
      rw [hpc] at hn; cases hn
    · by_cases hp2 : p = s.bufPool.length + 1
      · subst hp2
        rw [hq] at hn; cases hn
      · by_cases hp3 : p = s.rootPageNum
        · subst hp3
          rw [hroot] at hn
          injection hn with hn; injection hn with hn
          subst hn; exact r2
        · rw [hoth _ hp hp2 hp3] at hn
          exact h.nodes p n hn
  · obtain ⟨n0, hp0, hs0⟩ := h.first
    have h2q : 2 ≠ s.bufPool.length + 1 := pageOf_some_ne_new hp0
    by_cases hp : 2 = pc
    · subst hp
      rw [hp0] at hX
      injection hX with hX; injection hX with hX
      subst hX
      exact ⟨n1, hpc, p1.trans hs0⟩
    · exact ⟨n0, by rw [hoth _ hp h2q (Ne.symm hne2), hp0], hs0⟩
  · right
    refine ⟨by rw [hr]; exact hne2, R', c + 1, by rw [hr]; exact hroot, r1.trans hlev, ?_,
      by omega, (r6 0 (by omega)).trans h0, ?_⟩
    · have hcl := hu.1
      refine ⟨?_, ?_⟩
      · have hlt : c < R'.pageNoArray.length := by
          by_contra hcon
          rw [List.getElem?_eq_none (by omega)] at r4
          cases r4
        omega
      · intro j x hjx
        rcases Nat.lt_trichotomy j c with hj | hj | hj
        · rw [r6 j hj] at hjx
          have := hu.2 j x hjx
          constructor
          · intro _; omega
          · intro _; exact this.2 hj
        · subst hj
          rw [r4] at hjx
          injection hjx with hjx
          constructor
          · intro _; omega
          · intro _; omega
        · have hx := r7 j x hj hjx
          constructor
          · intro hcon; exact absurd hx hcon
          · intro hcon; omega
    · intro j hj1 hj2
      rcases Nat.lt_or_ge j c with hj | hj
      · obtain ⟨q, Y, k, c1, c2, c3, c4, c5, c6⟩ := hch j hj1 hj
        have hqn : q ≠ s.bufPool.length + 1 := pageOf_some_ne_new c3
        have hqr : q ≠ s.rootPageNum := by
          intro hcon; rw [hcon, hR] at c3; cases c3
        have c1' : R'.pageNoArray[j]? = some q := by rw [r6 j hj, c1]
        have c2' : R'.keyArray[j - 1]? = some k := by rw [r5 (j - 1) (by omega), c2]
        by_cases hqpc : q = pc
        · subst hqpc
          rw [hX] at c3
          injection c3 with c3; injection c3 with c3
          subst c3
          obtain ⟨r, hr1, hr2⟩ := c6
          exact ⟨q, n1, k, c1', c2', hpc, p1.trans c4, by rw [p5, c5], r, by rw [p6, hr1], hr2⟩
        · exact ⟨q, Y, k, c1', c2', by rw [hoth _ hqpc hqn hqr, c3], c4, c5, c6⟩
      · have hjc : j = c := by omega
        subst hjc
        exact ⟨_, n2, k0, r4, r3, hq, p2, p7, p8⟩

/-- The root is a non-leaf node of the shape `RootInv`: `insertion` at the root
descends to one leaf, and the invariant holds when it returns. -/
theorem inv_nodeRoot {L N : Nat} {s : BTreeIndex} (hL2 : 2 ≤ L) (hN3 : 3 ≤ N)
    (h : TreeInv L N s) (hri : RootInv s) (e : RIDKeyPair) (fuel : Nat)
    {r : Option PageKeyPair × BTreeIndex}
    (hres : insertion (fuel + 2) s s.rootPageNum e false = Except.ok r) :
    TreeInv L N r.2 := by
  have hri0 := hri
  obtain ⟨hne2, R, c, hR, hlev, hu, hc2, h0, hch⟩ := hri
  have hLs : s.leafOccupancy = L := h.leafCap
  have hNs : s.nodeOccupancy = N := h.nodeCap
  obtain ⟨m, hm⟩ := h.header
  obtain ⟨i, pc, X, hi, hf, hpi, hX, _⟩ := rootChild h hR hu hc2 h0 hch e.key
  have hrpc : s.rootPageNum ≠ pc := by
    intro hc; rw [hc, hX] at hR; cases hR
  obtain ⟨s1, hs1⟩ := readPage_of_pageOf hX
  have h1 : TreeInv L N s1 := h.ofReadPage hs1
  have hp1 := pageOf_readPage hs1
  have hc1 := confOf_readPage hs1
  have hr1 := root_readPage hs1
  have hl1 := length_readPage hs1
  have hX1 : pageOf s1 pc = some (Page.leaf X) := by rw [hp1, hX]
  have hm1 : pageOf s1 s1.headerPageNum = some (Page.meta m) := by
    rw [confOf_header hc1, hp1, hm]
  have hL1 : s1.leafOccupancy = L := h1.leafCap
  have hN1 : s1.nodeOccupancy = N := h1.nodeCap
  have hXok : LeafOK s1.leafOccupancy X := by rw [hL1]; exact h.leaves _ _ hX
  -- unfold the call at the root and the recursive call at the leaf
  unfold insertion at hres
  rw [if_pos rfl, getNonLeaf_of_pageOf hR] at hres
  simp only at hres
  rw [hNs, hf] at hres
  simp only [liftE] at hres
  rw [hs1] at hres
  simp only at hres
  have hdec : decide (R.level = 1) = true := by simp [hlev]
  rw [hdec] at hres
  unfold insertion at hres
  rw [if_neg (by simp)] at hres
  rcases insertionLeaf_spec e (by rw [hL1]; exact hL2) (by rw [hN1]; omega) hX1 hXok hm1 with
    ⟨s2, n', hi2, a1, a2, a3, a4, a5, a6, a7, a8⟩ | ⟨tok, s2, hi2, hsp, hfull⟩
  · -- the entry went into the leaf
    rw [hi2] at hres
    simp only [insertionAbsorb] at hres
    injection hres with hres
    subst hres
    simp only
    rw [hL1] at a6
    refine inv_childStored h hri0 hX ?_ ?_ ?_ ?_ a6 a7 a8
    · rw [confOf_unPinPage, a1, hc1]
    · rw [root_unPinPage, a2, hr1]
    · rw [pageOf_unPinPage, a4]
    · intro x hx
      rw [pageOf_unPinPage, a5 _ hx, hp1]
  · -- the leaf was split
    rw [hi2] at hres
    simp only at hres
    obtain ⟨tok', s2', n1, n2, hsp', b1, b2, b3, b4, b5, b6⟩ :=
      splitLeaf_spec e (by rw [hL1]; exact hL2) (by rw [hN1]; omega) hX1 hXok.1 hfull hm1
    rw [hsp] at hsp'
    injection hsp' with hsp'
    injection hsp' with ht hs''
    subst ht; subst hs''
    rw [hl1] at b1 b2 b5 b6
    rw [hL1] at b2
    rcases b6 with ⟨_, d1, d2, d3⟩ | ⟨d0, _⟩
    · have hR2 : pageOf s2 s.rootPageNum = some (Page.nonLeaf R) := by
        rw [d3 _ hrpc (pageOf_some_ne_new hR), hp1, hR]
      have hsz := h.nodes _ _ hR
      have hN2 : s2.nodeOccupancy = N := by rw [confOf_nodeOccupancy b3]; exact hN1
      unfold insertionAbsorb at hres
      simp only at hres
      rw [getNonLeaf_of_pageOf hR2] at hres
      simp only at hres
      have hbN : N < R.pageNoArray.length := hsz.pageLt (by omega)
      rw [hN2, rd_nat_of_lt _ _ hbN] at hres
      simp only [liftE] at hres
      by_cases hz : R.pageNoArray[N] = 0
      · rw [if_pos hz] at hres
        have hcN : c ≤ N := by
          by_contra hcon
          have := (hu.2 N _ (List.getElem?_eq_getElem hbN)).2 (by omega)
          exact this hz
        obtain ⟨R', hin, r1, r2, r3, r4, r5, r6, r7⟩ := nonLeafInsertion_spec tok hsz hu hc2 hcN
        rw [hin] at hres
        simp only at hres
        injection hres with hres
        subst hres
        simp only
        rw [b1] at r4
        refine inv_childSplit h hne2 hR hlev hu hc2 h0 hch hX b2 ?_ ?_ ?_ ?_ ?_ ?_
          r1 r2 r3 r4 r5 r6 r7
        · rw [confOf_unPinPage, confOf_putPage, b3, hc1]
        · rw [root_unPinPage, root_putPage, d1, hr1]
        · rw [pageOf_unPinPage, pageOf_putPage_ne _ _ (Ne.symm hrpc), b4]
        · rw [pageOf_unPinPage, pageOf_putPage_ne _ _ (Ne.symm (pageOf_some_ne_new hR)), b5]
        · rw [pageOf_unPinPage, pageOf_putPage_self _ _ _ hR2]
        · intro x hx1 hx2 hx3
          rw [pageOf_unPinPage, pageOf_putPage_ne _ _ hx3, d3 _ hx1 hx2, hp1]
      · rw [if_neg hz] at hres
        obtain ⟨err, herr⟩ := splitNonLeaf_error tok (by rw [hN2]; exact hN3) hR2
          (by rw [hN2]; exact hsz.1)
        rw [herr] at hres
        cases hres
    · exact absurd (d0.trans hr1) (Ne.symm hrpc)

/-- The function `insertEntry` keeps the invariant `TreeInv` (leaf capacity at
least 2, node capacity at least 3). -/
theorem insertEntry_inv {L N : Nat} {s s' : BTreeIndex} (hL2 : 2 ≤ L) (hN3 : 3 ≤ N)
    (h : TreeInv L N s) (key : Int) (rid : RecordId)
    (hins : insertEntry s key rid = Except.ok s') : TreeInv L N s' := by
  unfold insertEntry at hins
  cases hs1 : readPage s s.rootPageNum with
  | error et => rw [hs1] at hins; cases hins
  | ok s1 =>
    rw [hs1] at hins
    simp only at hins
    have h1 : TreeInv L N s1 := h.ofReadPage hs1
    cases hres : insertion (s1.bufPool.length + 2) s1 s1.rootPageNum { rid := rid, key := key }
        (decide (s1.initialRootPageNum = s1.rootPageNum)) with
    | error et => rw [hres] at hins; cases hins
    | ok r =>
      rw [hres] at hins
      simp only at hins
      injection hins with hins
      subst hins
      rcases h1.root with hroot | hri
      · have hdec : decide (s1.initialRootPageNum = s1.rootPageNum) = true := by
          simp [h1.init, hroot]
        rw [hdec, hroot] at hres
        unfold insertion at hres
        rw [if_neg (by simp)] at hres
        exact inv_leafRoot hL2 (by omega) h1 hroot _ hres
      · have hdec : decide (s1.initialRootPageNum = s1.rootPageNum) = false := by
          have := hri.1
          simp only [h1.init, decide_eq_false_iff_not]
          exact fun hc => this hc.symm
        rw [hdec] at hres
        exact inv_nodeRoot hL2 hN3 h1 hri _ _ hres

theorem insertAll_inv {L N : Nat} (hL2 : 2 ≤ L) (hN3 : 3 ≤ N) :
    ∀ (entries : List (Int × RecordId)) (s s' : BTreeIndex), TreeInv L N s →
      insertAll s entries = Except.ok s' → TreeInv L N s' := by
  intro entries
  induction entries with
  | nil =>
    intro s s' h hins
    simp only [insertAll] at hins
    injection hins with hins
    subst hins; exact h
  | cons kr rest ih =>
    intro s s' h hins
    obtain ⟨k, r⟩ := kr
    simp only [insertAll] at hins
    cases h1 : insertEntry s k r with
    | error et => rw [h1] at hins; cases hins
    | ok s1 =>
      rw [h1] at hins
      exact ih s1 s' (insertEntry_inv hL2 hN3 h k r h1) hins

theorem zeroLeaf_ok (L : Nat) : LeafOK L (zeroLeaf L) :=
  ⟨zeroLeaf_sized L, 0, zeroLeaf_empty L⟩

/-- The freshly created index satisfies the invariant. -/
theorem createIndex_inv (name : List Char) (off : Int) (ty : Datatype) (L N : Nat)
    {s : BTreeIndex} (hc : createIndex name off ty L N [] = Except.ok s) : TreeInv L N s := by
  rw [createIndex_empty] at hc
  injection hc with hc
  subst hc
  refine ⟨rfl, rfl, ⟨_, rfl⟩, rfl, ?_, ?_, ⟨zeroLeaf L, rfl, rfl⟩, Or.inl rfl⟩
  · intro p n hn
    have hle := pageOf_some_le hn
    simp only [List.length_cons, List.length_nil] at hle
    have : p = 1 ∨ p = 2 := by omega
    rcases this with hp | hp <;> subst hp
    · simp [pageOf, getFrame] at hn
    · simp only [pageOf, getFrame] at hn
      simp at hn
      rw [← hn]; exact zeroLeaf_ok L
  · intro p n hn
    have hle := pageOf_some_le hn
    simp only [List.length_cons, List.length_nil] at hle
    have : p = 1 ∨ p = 2 := by omega
    rcases this with hp | hp <;> subst hp
    · simp [pageOf, getFrame] at hn
    · simp [pageOf, getFrame] at hn

/-- Every index built by `insertEntry` calls on a freshly created index
satisfies the invariant. -/
theorem buildIndex_inv {L N : Nat} (hL2 : 2 ≤ L) (hN3 : 3 ≤ N)
    (entries : List (Int × RecordId)) {s : BTreeIndex}
    (hb : buildIndex L N entries = Except.ok s) : TreeInv L N s := by
  unfold buildIndex at hb
  cases hc : createIndex [] 0 Datatype.INTEGER L N [] with
  | error et => rw [hc] at hb; cases hb
  | ok s0 =>
    rw [hc] at hb
    exact insertAll_inv hL2 hN3 entries s0 s (createIndex_inv _ _ _ _ _ hc) hb

/-! ### Occupancy (C5) -/

theorem usedKeys_length_le {L : Nat} {n : LeafNodeInt} (h : LeafSized L n) :
    (usedKeys n).length ≤ L := by
  unfold usedKeys
  refine le_trans (List.length_filterMap_le _ _) ?_
  rw [List.length_zip, h.1, h.2, Nat.min_self]

theorem leafHasRoom_of_usedPrefix {L : Nat} {n : LeafNodeInt} {m : Nat}
    (hs : LeafSized L n) (hu : UsedPrefix n.ridArray m) (hm : m < L) : LeafHasRoom L n := by
  obtain ⟨l, rfl⟩ : ∃ l, L = l + 1 := ⟨L - 1, by omega⟩
  have hb : l < n.ridArray.length := hs.ridLt (by omega)
  have e1 : ((l + 1 : Nat) : Int) - 1 = (l : Int) := by push_cast; ring
  refine ⟨n.ridArray[l], by rw [e1, rd_nat_of_lt _ _ hb], ?_⟩
  by_contra hc
  have := (hu.2 l _ (List.getElem?_eq_getElem hb)).1 hc
  omega

/-- Occupancy where the code stays inside its arrays.  Leaf capacity `L >= 2`,
node capacity `N >= 3`.
(1) In every index built by `insertEntry` calls on a fresh index each leaf has
exactly `L` key and record id slots, hence at most `L` used ones, and each
non-leaf node `N` key slots and `N + 1` child slots.
(2) `insertion` hands a leaf without a free slot to `splitLeaf`, not to
`leafInsertion`; on a well-formed leaf with a free slot `leafInsertion` stays
inside the arrays.
(3) In `splitLeaf` on a full leaf both leaves have a free slot after the copy
loop, whichever of them receives the entry.
(4) `insertion` hands a node without a free child slot to `splitNonLeaf`, not
to `nonLeafInsertion`; on a node with a free child slot (and at least two
children) `nonLeafInsertion` stays inside the arrays.
(5) `splitNonLeaf` never reaches its calls of `nonLeafInsertion`: its copy loop
leaves the key array first. -/
theorem occupancy_of_built (L N : Nat) (hL : 2 ≤ L) (hN : 3 ≤ N) :
    (∀ entries s, buildIndex L N entries = Except.ok s → ∀ p,
        (∀ n, pageOf s p = some (Page.leaf n) → LeafSized L n ∧ (usedKeys n).length ≤ L)
        ∧ (∀ n, pageOf s p = some (Page.nonLeaf n) → NonLeafSized N n))
    ∧ (∀ s p e node last, getLeaf s p = Except.ok node →
        rd node.ridArray ((s.leafOccupancy : Int) - 1) = Except.ok last →
        last.page_number ≠ 0 →
        insertionLeaf s p e
          = (match splitLeaf s p e with
              | Except.error er => Except.error er
              | Except.ok (tok, s2) => Except.ok (some tok, s2)))
    ∧ (∀ node e, LeafOK L node → LeafHasRoom L node →
        ∃ n, leafInsertion L node e = Except.ok n ∧ LeafOK L n)
    ∧ (∀ node e, LeafSized L node → UsedPrefix node.ridArray L →
        ∃ midPt n1 n2, splitLeafMidPt L node e = Except.ok midPt
          ∧ splitLeafLoop midPt (L - midPt) midPt node (zeroLeaf L) = Except.ok (n1, n2)
          ∧ LeafHasRoom L n1 ∧ LeafHasRoom L n2)
    ∧ (∀ s p tok node last, getNonLeaf s p = Except.ok node →
        rd node.pageNoArray (s.nodeOccupancy : Int) = Except.ok last → last ≠ 0 →
        insertionAbsorb s p (some tok)
          = (match splitNonLeaf s p tok with
              | Except.error er => Except.error er
              | Except.ok (tok2, s2) => Except.ok (some tok2, s2)))
    ∧ (∀ node tok c, NonLeafSized N node → UsedChildren node.pageNoArray c → 2 ≤ c →
        NodeHasRoom N node →
        ∃ n, nonLeafInsertion N node tok = Except.ok n ∧ NonLeafSized N n)
    ∧ (∀ node newNode tok, NonLeafSized N node →
        ∃ er, splitNonLeafNodes N node newNode tok = Except.error er) := by
  refine ⟨?_, ?_, ?_, ?_, ?_, ?_, ?_⟩
  · intro entries s hb p
    have hinv := buildIndex_inv hL hN entries hb
    constructor
    · intro n hn
      have := (hinv.leaves p n hn).1
      exact ⟨this, usedKeys_length_le this⟩
    · intro n hn
      exact hinv.nodes p n hn
  · intro s p e node last h1 h2 h3
    unfold insertionLeaf
    rw [h1]
    simp only
    rw [h2]
    simp only [liftE]
    rw [if_neg h3]
  · rintro node e ⟨hs, m, hu⟩ ⟨r, hr, hr0⟩
    have hm := usedPrefix_of_room hs.2 hu hr hr0
    obtain ⟨n, h1, _, h3, _⟩ := leafInsertion_leafOK e hs hu hm
    exact ⟨n, h1, h3⟩
  · intro node e hs hfull
    obtain ⟨midPt, h1, h2, h3, _⟩ := splitLeafMidPt_spec e hL hs
    obtain ⟨n1, n2, hloop, _, _, t3, t5, t7, t8, _, _⟩ :=
      splitLeafLoop_full h2 h3 hs hfull (zeroLeaf_sized L) (zeroLeaf_empty L)
    exact ⟨midPt, n1, n2, h1, hloop, leafHasRoom_of_usedPrefix t3 t7 h3,
      leafHasRoom_of_usedPrefix t5 t8 (by omega)⟩
  · intro s p tok node last h1 h2 h3
    unfold insertionAbsorb
    simp only
    rw [h1]
    simp only
    rw [h2]
    simp only [liftE]
    rw [if_neg h3]
  · intro node tok c hs hu hc2 hroom
    have hcN : c ≤ N := by
      by_contra hcon
      unfold NodeHasRoom at hroom
      rw [rd_nat] at hroom
      have := (hu.2 N 0 hroom).2 (by omega)
      exact this rfl
    obtain ⟨n, h1, _, h3, _⟩ := nonLeafInsertion_spec tok hs hu hc2 hcN
    exact ⟨n, h1, h3⟩
  · intro node newNode tok hs
    exact splitNonLeafNodes_error node newNode tok hN hs.1

/-- Leaf capacity 4 and node capacity 4: in the index built from the keys
5,3,8,1,9 the new leaf (page 3) has four slots, three of them used. -/
theorem occupancy_of_built_sample :
    ∃ n, pageOf sampleSplit 3 = some (Page.leaf n) ∧ LeafSized 4 n
      ∧ (usedKeys n).length = 3 ∧ (usedKeys n).length ≤ 4 := by
  have h := ((occupancy_of_built 4 4 (by decide) (by decide)).1 (entriesOf [5, 3, 8, 1, 9])
    sampleSplit rfl 3).1
  exact ⟨_, rfl, (h _ rfl).1, rfl, (h _ rfl).2⟩

theorem ScanFrame.same (s : BTreeIndex) : ScanFrame s s := ⟨fun _ => rfl, rfl⟩

theorem ScanFrame.comp {s t u : BTreeIndex} (h1 : ScanFrame s t) (h2 : ScanFrame t u) :
    ScanFrame s u :=
  ⟨fun p => (h2.1 p).trans (h1.1 p), h2.2.trans h1.2⟩

theorem scanArgsOf_setFrame (s : BTreeIndex) (q : Nat) (f : Frame) :
    scanArgsOf (setFrame s q f) = scanArgsOf s := by
  unfold setFrame
  split <;> rfl

theorem ScanFrame.ofUnPin (s : BTreeIndex) (q : Nat) (d : Bool) : ScanFrame s (unPinPage s q d) := by
  refine ⟨pageOf_unPinPage s q d, ?_⟩
  unfold unPinPage
  split
  · rfl
  · exact scanArgsOf_setFrame _ _ _

theorem ScanFrame.ofRead {s t : BTreeIndex} {q : Nat} (h : readPage s q = Except.ok t) :
    ScanFrame s t := by
  refine ⟨pageOf_readPage h, ?_⟩
  obtain ⟨f, _, ht⟩ := readPage_ok h
  rw [ht]; exact scanArgsOf_setFrame _ _ _

theorem ScanFrame.leafCapEq {s t : BTreeIndex} (h : ScanFrame s t) :
    t.leafOccupancy = s.leafOccupancy := congrArg (fun c => c.2.2.2.2.1) h.2

theorem ScanFrame.lowValEq {s t : BTreeIndex} (h : ScanFrame s t) :
    t.lowValInt = s.lowValInt := congrArg (fun c => c.2.2.2.2.2.2.1) h.2

theorem ScanFrame.highValEq {s t : BTreeIndex} (h : ScanFrame s t) :
    t.highValInt = s.highValInt := congrArg (fun c => c.2.2.2.2.2.2.2.1) h.2

theorem ScanFrame.lowOpEq {s t : BTreeIndex} (h : ScanFrame s t) :
    t.lowOp = s.lowOp := congrArg (fun c => c.2.2.2.2.2.2.2.2.1) h.2

theorem ScanFrame.highOpEq {s t : BTreeIndex} (h : ScanFrame s t) :
    t.highOp = s.highOp := congrArg (fun c => c.2.2.2.2.2.2.2.2.2.1) h.2

theorem ScanFrame.rootEq {s t : BTreeIndex} (h : ScanFrame s t) :
    t.rootPageNum = s.rootPageNum := congrArg (fun c => c.2.1) h.2

theorem ScanFrame.keepsInv {L N : Nat} {s t : BTreeIndex} (h : ScanFrame s t)
    (hi : TreeInv L N s) : TreeInv L N t :=
  hi.congrFields h.1 h.leafCapEq (congrArg (fun c => c.2.2.2.2.2.1) h.2)
    (congrArg (fun c => c.1) h.2) (congrArg (fun c => c.2.2.2.2.2.2.2.2.2.2) h.2) h.rootEq

theorem startScanToSibling_frame {X : LeafNodeInt} {s t : BTreeIndex}
    (h : startScanToSibling X s = Except.ok t) : ScanFrame s t := by
  unfold startScanToSibling at h
  simp only at h
  split at h
  · cases h
  · have h1 : ScanFrame s (unPinPage s s.currentPageNum false) := ScanFrame.ofUnPin _ _ _
    have h2 : ScanFrame (unPinPage s s.currentPageNum false)
        { unPinPage s s.currentPageNum false with currentPageNum := X.rightSibPageNo } :=
      ⟨fun _ => rfl, rfl⟩
    exact (h1.comp h2).comp (ScanFrame.ofRead h)

theorem startScanFoundVal_frame {X : LeafNodeInt} {i : Nat} {s s2 : BTreeIndex} {b : Bool}
    (hf : ScanFrame s s2) (h : startScanFoundVal X i s = Except.ok b) :
    startScanFoundVal X i s2 = Except.ok b := by
  unfold startScanFoundVal at h ⊢
  rw [hf.leafCapEq]
  split
  · rename_i hlt
    rw [if_pos hlt] at h
    cases hr : rd X.ridArray ((i : Int) + 1) with
    | error er => rw [hr] at h; simp [liftE] at h
    | ok r => rw [hr] at h; simp only [liftE] at h ⊢; exact h
  · rename_i hlt
    rw [if_neg hlt] at h
    exact h

/-- What a successful `for` loop of `startScan` found: a used slot `j` whose
key satisfies the range, reached over used slots only. -/
theorem startScanFor_found (X : LeafNodeInt) :
    ∀ k i s t, i + k = s.leafOccupancy →
      (∃ r, X.ridArray[i]? = some r ∧ r.page_number ≠ 0) →
      startScanFor X k i s = Except.ok (true, t) →
      ∃ j kj rj, j < s.leafOccupancy ∧ X.keyArray[j]? = some kj ∧ X.ridArray[j]? = some rj
        ∧ rj.page_number ≠ 0
        ∧ checkSatisfy s.lowValInt s.lowOp s.highValInt s.highOp kj = true
        ∧ t = { s with nextEntry := j, scanExecuting := true } := by
  intro k
  induction k with
  | zero => intro i s t _ _ h; simp [startScanFor] at h
  | succ k ih =>
    intro i s t hik hused h
    unfold startScanFor at h
    cases hv : rd X.keyArray (i : Int) with
    | error er => rw [hv] at h; simp [liftE] at h
    | ok val =>
      rw [hv] at h
      simp only [liftE] at h
      cases hfv : startScanFoundVal X i s with
      | error er => rw [hfv] at h; cases h
      | ok foundVal =>
        rw [hfv] at h
        simp only at h
        split at h
        · rename_i hsat
          injection h with h
          injection h with _ h
          obtain ⟨r, hr1, hr2⟩ := hused
          exact ⟨i, val, r, by omega, (rd_nat _ _ _).1 hv, hr1, hr2, hsat, h.symm⟩
        · split at h
          · cases h
          · split at h
            · cases h
            · split at h
              · cases hsib : startScanToSibling X s with
                | error er => rw [hsib] at h; cases h
                | ok s1 => rw [hsib] at h; simp at h
              · rename_i hnot
                have hnf : foundVal = false := by
                  cases foundVal
                  · rfl
                  · exact absurd (Or.inl rfl) hnot
                have hne : i + 1 ≠ s.leafOccupancy := fun hc => hnot (Or.inr hc)
                have hlt : i + 1 < s.leafOccupancy := by omega
                -- the next slot is used
                unfold startScanFoundVal at hfv
                rw [if_pos hlt] at hfv
                cases hr : rd X.ridArray ((i : Int) + 1) with
                | error er => rw [hr] at hfv; simp [liftE] at hfv
                | ok r =>
                  rw [hr] at hfv
                  simp only [liftE] at hfv
                  injection hfv with hfv
                  rw [hnf] at hfv
                  have hr0 : r.page_number ≠ 0 := by
                    intro hc; simp [hc] at hfv
                  have e1 : (i : Int) + 1 = ((i + 1 : Nat) : Int) := by push_cast; ring
                  rw [e1, rd_nat] at hr
                  exact ih (i + 1) s t (by omega) ⟨r, hr, hr0⟩ h

/-- Whether the `for` loop of `startScan` finds a slot depends on the leaf and
the range only: if it did not on `s`, it does not on any object with the same
range. -/
theorem startScanFor_stable (X : LeafNodeInt) :
    ∀ k i s s1, startScanFor X k i s = Except.ok (false, s1) →
      ∀ s2, ScanFrame s s2 → ∀ t, startScanFor X k i s2 ≠ Except.ok (true, t) := by
  intro k
  induction k with
  | zero => intro i s s1 _ s2 _ t h; simp [startScanFor] at h
  | succ k ih =>
    intro i s s1 h s2 hf t h2
    unfold startScanFor at h h2
    cases hv : rd X.keyArray (i : Int) with
    | error er => rw [hv] at h; simp [liftE] at h
    | ok val =>
      rw [hv] at h h2
      simp only [liftE] at h h2
      cases hfv : startScanFoundVal X i s with
      | error er => rw [hfv] at h; cases h
      | ok foundVal =>
        rw [hfv] at h
        rw [startScanFoundVal_frame hf hfv] at h2
        simp only at h h2
        rw [hf.lowValEq, hf.highValEq, hf.lowOpEq, hf.highOpEq, hf.leafCapEq] at h2
        split at h
        · simp at h
        · rename_i hsat
          rw [if_neg hsat] at h2
          split at h
          · cases h
          · rename_i hA
            rw [if_neg hA] at h2
            split at h
            · cases h
            · rename_i hB
              rw [if_neg hB] at h2
              split at h
              · rename_i hC
                rw [if_pos hC] at h2
                cases hsib : startScanToSibling X s2 with
                | error er => rw [hsib] at h2; cases h2
                | ok s3 => rw [hsib] at h2; simp at h2
              · rename_i hC
                rw [if_neg hC] at h2
                exact ih (i + 1) s s1 h s2 hf t h2

theorem startScanFor_frame (X : LeafNodeInt) :
    ∀ k i s s1, startScanFor X k i s = Except.ok (false, s1) → ScanFrame s s1 := by
  intro k
  induction k with
  | zero =>
    intro i s s1 h
    simp [startScanFor] at h
    rw [h]; exact ScanFrame.same _
  | succ k ih =>
    intro i s s1 h
    unfold startScanFor at h
    cases hv : liftE s (rd X.keyArray (i : Int)) with
    | error er => rw [hv] at h; cases h
    | ok val =>
      rw [hv] at h
      simp only at h
      cases hfv : startScanFoundVal X i s with
      | error er => rw [hfv] at h; cases h
      | ok foundVal =>
        rw [hfv] at h
        simp only at h
        split at h
        · simp at h
        · split at h
          · cases h
          · split at h
            · cases h
            · split at h
              · cases hsib : startScanToSibling X s with
                | error er => rw [hsib] at h; cases h
                | ok s3 =>
                  rw [hsib] at h
                  simp only at h
                  injection h with h
                  injection h with _ h
                  rw [← h]
                  exact startScanToSibling_frame hsib
              · exact ih (i + 1) s s1 h

theorem startScanWhile_never (X : LeafNodeInt) :
    ∀ fuel s, (∀ s2, ScanFrame s s2 → ∀ t, startScanFor X s.leafOccupancy 0 s2 ≠ Except.ok (true, t)) →
      ∀ t, startScanWhile X fuel s ≠ Except.ok t := by
  intro fuel
  induction fuel with
  | zero => intro s _ t h; simp [startScanWhile] at h
  | succ fuel ih =>
    intro s hnever t h
    unfold startScanWhile at h
    cases h0 : liftE s (rd X.ridArray 0) with
    | error er => rw [h0] at h; cases h
    | ok r0 =>
      rw [h0] at h
      simp only at h
      split at h
      · cases h
      · cases hfor : startScanFor X s.leafOccupancy 0 s with
        | error er => rw [hfor] at h; cases h
        | ok r =>
          obtain ⟨b, s1⟩ := r
          rw [hfor] at h
          cases b with
          | true => exact hnever s (ScanFrame.same s) s1 hfor
          | false =>
            simp only at h
            have hf := startScanFor_frame X _ _ _ _ hfor
            refine ih s1 ?_ t h
            intro s2 hf2 t2
            rw [hf.leafCapEq]
            exact hnever s2 (hf.comp hf2) t2

/-- A successful `while` loop of `startScan` succeeded in its first pass over
the leaf. -/
theorem startScanWhile_ok {X : LeafNodeInt} {fuel : Nat} {s t : BTreeIndex}
    (h : startScanWhile X fuel s = Except.ok t) :
    ∃ j kj rj, j < s.leafOccupancy ∧ X.keyArray[j]? = some kj ∧ X.ridArray[j]? = some rj
      ∧ rj.page_number ≠ 0
      ∧ checkSatisfy s.lowValInt s.lowOp s.highValInt s.highOp kj = true
      ∧ t = { s with nextEntry := j, scanExecuting := true } := by
  cases fuel with
  | zero => simp [startScanWhile] at h
  | succ fuel =>
    unfold startScanWhile at h
    cases h0 : rd X.ridArray 0 with
    | error er => rw [h0] at h; simp [liftE] at h
    | ok r0 =>
      rw [h0] at h
      simp only [liftE] at h
      split at h
      · cases h
      · rename_i hr0
        cases hfor : startScanFor X s.leafOccupancy 0 s with
        | error er => rw [hfor] at h; cases h
        | ok r =>
          obtain ⟨b, s1⟩ := r
          rw [hfor] at h
          cases b with
          | true =>
            simp only at h
            injection h with h
            subst h
            rw [show (0 : Int) = ((0 : Nat) : Int) from rfl, rd_nat] at h0
            exact startScanFor_found X _ 0 s s1 (by omega) ⟨r0, h0, hr0⟩ hfor
          | false =>
            simp only at h
            have hf := startScanFor_frame X _ _ _ _ hfor
            refine absurd h (startScanWhile_never X fuel s1 ?_ t)
            intro s2 hf2 t2
            rw [hf.leafCapEq]
            exact startScanFor_stable X _ 0 s s1 hfor s2 (hf.comp hf2) t2

theorem readPage_current {s t : BTreeIndex} {q : Nat} (h : readPage s q = Except.ok t) :
    t.currentPageNum = s.currentPageNum := by
  have h1 := readPage_fields h
  rw [h1]

/-- On an index built by insertions a successful descent of `startScan` ends
on a leaf that has no right sibling or is its own right sibling with a first
key below the low bound. -/
theorem startScanToLeaf_leaf {L N : Nat} {s t : BTreeIndex} {fuel : Nat}
    (hinv : TreeInv L N s) (h : startScanToLeaf fuel s = Except.ok t) :
    ScanFrame s t ∧ ∃ X, pageOf s t.currentPageNum = some (Page.leaf X)
      ∧ LeafEnd X t.currentPageNum s.lowValInt := by
  unfold startScanToLeaf at h
  have key : ∃ s0, (if s.scanExecuting = true then endScan s else Except.ok s) = Except.ok s0
      ∧ ScanFrame s s0 := by
    split
    · rename_i hex
      unfold endScan
      rw [if_neg (by rw [hex]; decide)]
      refine ⟨_, rfl, ?_⟩
      have h1 : ScanFrame s { s with scanExecuting := false } := ⟨fun _ => rfl, rfl⟩
      exact h1.comp (ScanFrame.ofUnPin _ _ _)
    · exact ⟨s, rfl, ScanFrame.same s⟩
  obtain ⟨s0, h0, hf0⟩ := key
  rw [h0] at h
  simp only at h
  cases h1 : readPage { s0 with currentPageNum := s0.rootPageNum } s0.rootPageNum with
  | error er => rw [h1] at h; cases h
  | ok s1 =>
    rw [h1] at h
    simp only at h
    have hf01 : ScanFrame s0 { s0 with currentPageNum := s0.rootPageNum } := ⟨fun _ => rfl, rfl⟩
    have hf1 : ScanFrame s s1 := (hf0.comp hf01).comp (ScanFrame.ofRead h1)
    have hc1 : s1.currentPageNum = s.rootPageNum := by
      rw [readPage_current h1]; exact hf0.rootEq
    have hi1 := hf1.keepsInv hinv
    have hroot1 : s1.rootPageNum = s.rootPageNum := hf1.rootEq
    split at h
    · rename_i hne
      -- the root has split: one step down
      rcases hinv.root with h2 | hR
      · exact absurd (by rw [hi1.init, hroot1, h2]) hne
      · obtain ⟨_, R, c, hpR, hlev, hu, hc2, hp0, hch⟩ := hR
        cases fuel with
        | zero => simp [startScanDescend] at h
        | succ fuel =>
          unfold startScanDescend at h
          have hpR1 : pageOf s1 s1.currentPageNum = some (Page.nonLeaf R) := by
            rw [hc1, hf1.1]; exact hpR
          rw [getNonLeaf_of_pageOf hpR1] at h
          simp only at h
          have hsz := hinv.nodes _ _ hpR
          have hcN : c ≤ N + 1 := by have := hu.1; rw [hsz.2] at this; exact this
          obtain ⟨i, pc, hi, hfn, hpi, hk⟩ := findNext_spec s1.lowValInt hsz hu (by omega) hcN
          rw [hi1.nodeCap, hfn] at h
          simp only [liftE] at h
          cases h2 : readPage { unPinPage s1 s1.currentPageNum false with currentPageNum := pc }
              pc with
          | error er => rw [h2] at h; cases h
          | ok s2 =>
            rw [h2] at h
            simp only at h
            rw [if_pos hlev] at h
            injection h with h
            subst h
            have hfu : ScanFrame s1 (unPinPage s1 s1.currentPageNum false) :=
              ScanFrame.ofUnPin _ _ _
            have hfc : ScanFrame (unPinPage s1 s1.currentPageNum false)
                { unPinPage s1 s1.currentPageNum false with currentPageNum := pc } :=
              ⟨fun _ => rfl, rfl⟩
            have hf2 : ScanFrame s s2 :=
              ((hf1.comp hfu).comp hfc).comp (ScanFrame.ofRead h2)
            have hc2pc : s2.currentPageNum = pc := readPage_current h2
            refine ⟨hf2, ?_⟩
            rw [hc2pc]
            rcases Nat.eq_zero_or_pos i with hi0 | hipos
            · subst hi0
              obtain ⟨n0, hn0, hsib⟩ := hinv.first
              rw [hp0] at hpi
              injection hpi with hpi
              subst hpi
              exact ⟨n0, hn0, Or.inl hsib⟩
            · obtain ⟨q, X, k, hq, hkq, hX, hsibX, hk0, r, hr, hr0⟩ := hch i hipos hi
              rw [hpi] at hq
              injection hq with hq
              subst hq
              rcases hk with hi0 | ⟨k2, hk2, hlt⟩
              · omega
              · rw [hkq] at hk2
                injection hk2 with hk2
                subst hk2
                rw [hf1.lowValEq] at hlt
                exact ⟨X, hX, Or.inr ⟨hsibX, k, r, hk0, hlt, hr, hr0⟩⟩
    · rename_i heq
      injection h with h
      subst h
      refine ⟨hf1, ?_⟩
      have h2 : s.rootPageNum = 2 := by
        have h3 : s1.initialRootPageNum = s1.rootPageNum := by
          by_contra hc; exact heq hc
        rw [← hroot1, ← h3]; exact hi1.init
      rw [hc1, h2]
      obtain ⟨n0, hn0, hsib⟩ := hinv.first
      exact ⟨n0, hn0, Or.inl hsib⟩

theorem checkSatisfy_below (lo : Int) (lop : Operator) (hi : Int) (hop : Operator) (k : Int)
    (h : k < lo) : checkSatisfy lo lop hi hop k = false := by
  unfold checkSatisfy
  split
  · simp; intro; omega
  · split
    · simp; intro; omega
    · split
      · simp; intro; omega
      · simp; intro; omega

/-- A successful search of `startScan` on an index built by insertions leaves
the scan on a used slot `j` of the leaf it descended to, with a key in the
range. -/
theorem startScanSearch_positioned {L N : Nat} {s t : BTreeIndex} {fuel : Nat}
    (hinv : TreeInv L N s) (h : startScanSearch fuel s = Except.ok t) :
    ∃ pc X j kj rj, pageOf s pc = some (Page.leaf X) ∧ LeafEnd X pc s.lowValInt ∧ j < L
      ∧ X.keyArray[j]? = some kj ∧ X.ridArray[j]? = some rj ∧ rj.page_number ≠ 0
      ∧ checkSatisfy s.lowValInt s.lowOp s.highValInt s.highOp kj = true
      ∧ ScanAt s.lowValInt s.lowOp s.highValInt s.highOp L X pc t ∧ t.nextEntry = j := by
  unfold startScanSearch at h
  cases h1 : startScanToLeaf fuel s with
  | error er => rw [h1] at h; cases h
  | ok s1 =>
    rw [h1] at h
    simp only at h
    obtain ⟨hf, X, hX, hend⟩ := startScanToLeaf_leaf hinv h1
    have hX1 : pageOf s1 s1.currentPageNum = some (Page.leaf X) := by
      rw [hf.1]; exact hX
    rw [getLeaf_of_pageOf hX1] at h
    simp only at h
    obtain ⟨j, kj, rj, hj, hkj, hrj, hr0, hsat, ht⟩ := startScanWhile_ok h
    rw [hf.leafCapEq] at hj
    rw [hf.lowValEq, hf.highValEq, hf.lowOpEq, hf.highOpEq] at hsat
    have hL : s.leafOccupancy = L := hinv.leafCap
    refine ⟨s1.currentPageNum, X, j, kj, rj, hX, hend, ?_, hkj, hrj, hr0, hsat, ?_, ?_⟩
    · rw [← hL]; exact hj
    · subst ht
      exact ⟨hX1, hf.leafCapEq.trans hL, hf.lowValEq, hf.lowOpEq, hf.highValEq, hf.highOpEq,
        rfl, rfl⟩
    · subst ht; rfl

theorem startScan_positioned {L N : Nat} {s t : BTreeIndex} {fuel : Nat}
    {lo hi : Int} {lop hop : Operator}
    (hinv : TreeInv L N s) (h : startScan fuel s lo lop hi hop = Except.ok t) :
    ∃ pc X j kj rj, pageOf s pc = some (Page.leaf X) ∧ LeafEnd X pc lo ∧ j < L
      ∧ X.keyArray[j]? = some kj ∧ X.ridArray[j]? = some rj ∧ rj.page_number ≠ 0
      ∧ checkSatisfy lo lop hi hop kj = true
      ∧ ScanAt lo lop hi hop L X pc t ∧ t.nextEntry = j := by
  unfold startScan at h
  split at h
  · cases h
  · split at h
    · cases h
    · simp only at h
      split at h
      · cases h
      · refine @startScanSearch_positioned L N _ _ _ ?_ h
        exact hinv.congrFields (fun _ => rfl) rfl rfl rfl rfl rfl

/-- The call of `scanNext` on a scan whose cursor is on a used slot with a key
in the range returns the record id of that slot and advances the cursor. -/
theorem scanNext_first {lo hi : Int} {lop hop : Operator} {L : Nat} {X : LeafNodeInt}
    {pc j : Nat} {kj : Int} {rj : RecordId} {t : BTreeIndex}
    (hat : ScanAt lo lop hi hop L X pc t) (hn : t.nextEntry = j) (hj : j < L)
    (hkj : X.keyArray[j]? = some kj) (hrj : X.ridArray[j]? = some rj)
    (hr0 : rj.page_number ≠ 0) (hsat : checkSatisfy lo lop hi hop kj = true) :
    scanNext t = Except.ok (rj, { t with nextEntry := j + 1 })
      ∧ ScanAt lo lop hi hop L X pc { t with nextEntry := j + 1 } := by
  obtain ⟨hX, hL, hlo, hlop, hhi, hhop, hex, hcur⟩ := hat
  refine ⟨?_, ⟨hX, hL, hlo, hlop, hhi, hhop, hex, hcur⟩⟩
  unfold scanNext
  rw [if_neg (by rw [hex]; decide), hcur, getLeaf_of_pageOf hX]
  simp only
  have hne : ¬ (t.nextEntry = t.leafOccupancy) := by rw [hn, hL]; omega
  unfold scanNextOutRid
  rw [if_neg hne, hn, (rd_nat _ _ _).2 hrj]
  simp only [liftE]
  have hnb : ¬ (rj.page_number = 0 ∨ j = t.leafOccupancy) := by
    rw [hL]; intro hc
    rcases hc with hc | hc
    · exact hr0 hc
    · omega
  rw [if_neg hnb]
  unfold scanNextCheck
  rw [hn, (rd_nat _ _ _).2 hkj]
  simp only [liftE]
  have hsat2 : checkSatisfy t.lowValInt t.lowOp t.highValInt t.highOp kj = true := by
    rw [hlo, hlop, hhi, hhop]; exact hsat
  rw [if_pos hsat2, hcur]

theorem unPinPage_nextEntry (s : BTreeIndex) (q : Nat) (d : Bool) :
    (unPinPage s q d).nextEntry = s.nextEntry := by
  have h1 := unPinPage_fields s q d
  rw [h1]

theorem unPinPage_scanExecuting (s : BTreeIndex) (q : Nat) (d : Bool) :
    (unPinPage s q d).scanExecuting = s.scanExecuting := by
  have h1 := unPinPage_fields s q d
  rw [h1]

theorem unPinPage_current (s : BTreeIndex) (q : Nat) (d : Bool) :
    (unPinPage s q d).currentPageNum = s.currentPageNum := by
  have h1 := unPinPage_fields s q d
  rw [h1]

theorem readPage_nextEntry {s t : BTreeIndex} {q : Nat} (h : readPage s q = Except.ok t) :
    t.nextEntry = s.nextEntry := by
  have h1 := readPage_fields h
  rw [h1]

theorem readPage_scanExecuting {s t : BTreeIndex} {q : Nat} (h : readPage s q = Except.ok t) :
    t.scanExecuting = s.scanExecuting := by
  have h1 := readPage_fields h
  rw [h1]

theorem ScanAt.ofFrame {lo hi : Int} {lop hop : Operator} {L : Nat} {X : LeafNodeInt}
    {pc : Nat} {t u : BTreeIndex} (hat : ScanAt lo lop hi hop L X pc t) (hf : ScanFrame t u)
    (hex : u.scanExecuting = true) (hcur : u.currentPageNum = pc) :
    ScanAt lo lop hi hop L X pc u := by
  obtain ⟨hX, hL, hlo, hlop, hhi, hhop, _, _⟩ := hat
  exact ⟨(hf.1 pc).trans hX, hf.leafCapEq.trans hL, hf.lowValEq.trans hlo,
    hf.lowOpEq.trans hlop, hf.highValEq.trans hhi, hf.highOpEq.trans hhop, hex, hcur⟩

/-- The move of `scanNext` to the right sibling of a leaf that has none, or is
its own right sibling with a first key below the low bound, ends the scan. -/
theorem scanNext_sibling {lo hi : Int} {lop hop : Operator} {L : Nat} {X : LeafNodeInt}
    {pc j : Nat} {t : BTreeIndex} (outRid : RecordId)
    (hat : ScanAt lo lop hi hop L X pc t) (hend : LeafEnd X pc lo)
    (hcp : CursorPast X pc j lo t.nextEntry) :
    ∃ u, ScanAt lo lop hi hop L X pc u ∧ CursorPast X pc j lo u.nextEntry
      ∧ (scanNextToSibling X t = Except.error (Err.IndexScanCompletedException, u)
        ∨ ∃ node s, scanNextToSibling X t = Except.ok (node, s)
            ∧ scanNextCheck node outRid s
                = Except.error (Err.IndexScanCompletedException, u)) := by
  have hex := hat.2.2.2.2.2.2.1
  have hcur := hat.2.2.2.2.2.2.2
  have hX := hat.1
  unfold scanNextToSibling
  simp only
  rcases hend with h0 | hself
  · rw [if_pos h0]
    refine ⟨_, ?_, ?_, Or.inl rfl⟩
    · refine hat.ofFrame (ScanFrame.ofUnPin _ _ _) ?_ ?_
      · rw [unPinPage_scanExecuting]; exact hex
      · rw [unPinPage_current]; exact hcur
    · rw [unPinPage_nextEntry]; exact hcp
  · obtain ⟨hsib, k0, r0, hk0, hlt, hr0, hr0u⟩ := hself
    have hpc : pc ≠ 0 := by have := (pageOf_some_le hX).1; omega
    rw [if_neg (by rw [hsib]; exact hpc), hsib]
    have hfu : ScanFrame t (unPinPage t t.currentPageNum false) := ScanFrame.ofUnPin _ _ _
    have hfc : ScanFrame (unPinPage t t.currentPageNum false)
        { unPinPage t t.currentPageNum false with nextEntry := 0, currentPageNum := pc } :=
      ⟨fun _ => rfl, rfl⟩
    have hXc : pageOf { unPinPage t t.currentPageNum false with
        nextEntry := 0, currentPageNum := pc } pc = some (Page.leaf X) := by
      rw [(hfu.comp hfc).1]; exact hX
    obtain ⟨u, hu⟩ := readPage_of_pageOf hXc
    rw [hu]
    simp only
    have hfr : ScanFrame t u := (hfu.comp hfc).comp (ScanFrame.ofRead hu)
    have hucur : u.currentPageNum = pc := readPage_current hu
    have hunext : u.nextEntry = 0 := readPage_nextEntry hu
    have huex : u.scanExecuting = true := by
      rw [readPage_scanExecuting hu]
      show (unPinPage t t.currentPageNum false).scanExecuting = true
      rw [unPinPage_scanExecuting]; exact hex
    have hatu := hat.ofFrame hfr huex hucur
    rw [hucur, getLeaf_of_pageOf hatu.1]
    simp only
    have hns : checkSatisfy u.lowValInt u.lowOp u.highValInt u.highOp k0 = false := by
      rw [hatu.2.2.1]; exact checkSatisfy_below _ _ _ _ _ hlt
    refine ⟨u, hatu, ?_, Or.inr ⟨X, u, rfl, ?_⟩⟩
    · rw [hunext]
      exact Or.inr ⟨rfl, hsib, k0, r0, hk0, hlt, hr0, hr0u⟩
    · unfold scanNextCheck
      rw [hunext, show ((0 : Nat) : Int) = ((0 : Nat) : Int) from rfl, (rd_nat _ 0 _).2 hk0]
      simp only [liftE]
      rw [hns]
      simp

/-- Once the scan has delivered slot `j` and no key after it is in the range,
`scanNext` raises `IndexScanCompletedException` and leaves the scan in a state
of the same kind. -/
theorem scanNext_later {lo hi : Int} {lop hop : Operator} {L : Nat} {X : LeafNodeInt}
    {pc j : Nat} {t : BTreeIndex}
    (hat : ScanAt lo lop hi hop L X pc t) (hsz : LeafSized L X) (hend : LeafEnd X pc lo)
    (hjL : j < L)
    (hnext : ∀ k r, X.keyArray[j + 1]? = some k → X.ridArray[j + 1]? = some r →
      r.page_number ≠ 0 → checkSatisfy lo lop hi hop k = false)
    (hcp : CursorPast X pc j lo t.nextEntry) :
    ∃ u, scanNext t = Except.error (Err.IndexScanCompletedException, u)
      ∧ ScanAt lo lop hi hop L X pc u ∧ CursorPast X pc j lo u.nextEntry := by
  have hX := hat.1
  have hL := hat.2.1
  have hex := hat.2.2.2.2.2.2.1
  have hcur := hat.2.2.2.2.2.2.2
  -- the branch to the right sibling
  have sib : ∀ outRid : RecordId, ∃ u,
      (match scanNextToSibling X t with
        | Except.error e => Except.error e
        | Except.ok (node, s) => scanNextCheck node outRid s)
          = Except.error (Err.IndexScanCompletedException, u)
        ∧ ScanAt lo lop hi hop L X pc u ∧ CursorPast X pc j lo u.nextEntry := by
    intro outRid
    obtain ⟨u, h1, h2, h3⟩ := scanNext_sibling outRid hat hend hcp
    refine ⟨u, ?_, h1, h2⟩
    rcases h3 with h3 | ⟨node, s, h3, h4⟩
    · rw [h3]
    · rw [h3]; exact h4
  -- a slot whose key is not in the range
  have chk : ∀ (i : Nat) (k : Int) (outRid : RecordId), t.nextEntry = i →
      X.keyArray[i]? = some k → checkSatisfy lo lop hi hop k = false →
      scanNextCheck X outRid t = Except.error (Err.IndexScanCompletedException, t) := by
    intro i k outRid hi hk hns
    unfold scanNextCheck
    rw [hi, (rd_nat _ _ _).2 hk]
    simp only [liftE]
    rw [hat.2.2.1, hat.2.2.2.1, hat.2.2.2.2.1, hat.2.2.2.2.2.1, hns]
    simp
  unfold scanNext
  rw [if_neg (by rw [hex]; decide), hcur, getLeaf_of_pageOf hX]
  simp only
  unfold scanNextOutRid
  rcases hcp with hn | ⟨hn, hself⟩
  · by_cases hfull : j + 1 = L
    · rw [if_pos (by rw [hn, hL]; exact hfull)]
      simp only
      rw [if_pos (Or.inr (by rw [hn, hL]; exact hfull))]
      exact sib _
    · have hlt : j + 1 < L := by omega
      rw [if_neg (by rw [hn, hL]; exact hfull), hn]
      have hb : j + 1 < X.ridArray.length := hsz.ridLt hlt
      have hbk : j + 1 < X.keyArray.length := hsz.keyLt hlt
      have hr : X.ridArray[j + 1]? = some X.ridArray[j + 1] := List.getElem?_eq_getElem hb
      have hk : X.keyArray[j + 1]? = some X.keyArray[j + 1] := List.getElem?_eq_getElem hbk
      rw [(rd_nat _ _ _).2 hr]
      simp only [liftE]
      by_cases hz : X.ridArray[j + 1].page_number = 0
      · rw [if_pos (Or.inl hz)]
        exact sib _
      · rw [if_neg (by rw [hL]; intro hc; rcases hc with hc | hc; exact hz hc; exact hfull hc)]
        exact ⟨t, chk (j + 1) _ _ hn hk (hnext _ _ hk hr hz), hat, Or.inl hn⟩
  · obtain ⟨hsib, k0, r0, hk0, hlt0, hr0, hr0u⟩ := hself
    have hne : ¬ (t.nextEntry = t.leafOccupancy) := by rw [hn, hL]; omega
    rw [if_neg hne, hn, show ((0 : Nat) : Int) = ((0 : Nat) : Int) from rfl,
      (rd_nat _ 0 _).2 hr0]
    simp only [liftE]
    rw [if_neg (by rw [hL]; intro hc; rcases hc with hc | hc; exact hr0u hc; omega)]
    exact ⟨t, chk 0 k0 _ hn hk0 (checkSatisfy_below _ _ _ _ _ hlt0), hat,
      Or.inr ⟨hn, hsib, k0, r0, hk0, hlt0, hr0, hr0u⟩⟩

/-- Every later call of `scanNext` raises `IndexScanCompletedException`. -/
theorem nthScanNext_later {lo hi : Int} {lop hop : Operator} {L : Nat} {X : LeafNodeInt}
    {pc j : Nat} (hsz : LeafSized L X) (hend : LeafEnd X pc lo) (hjL : j < L)
    (hnext : ∀ k r, X.keyArray[j + 1]? = some k → X.ridArray[j + 1]? = some r →
      r.page_number ≠ 0 → checkSatisfy lo lop hi hop k = false) :
    ∀ n t, ScanAt lo lop hi hop L X pc t → CursorPast X pc j lo t.nextEntry →
      ∃ u, nthScanNext n t = Except.error (Err.IndexScanCompletedException, u) := by
  intro n
  induction n with
  | zero =>
    intro t hat hcp
    obtain ⟨u, hu, _, _⟩ := scanNext_later hat hsz hend hjL hnext hcp
    exact ⟨u, hu⟩
  | succ n ih =>
    intro t hat hcp
    obtain ⟨u, hu, h1, h2⟩ := scanNext_later hat hsz hend hjL hnext hcp
    unfold nthScanNext
    rw [hu]
    exact ih u h1 h2

/-- On an object with the invariant `TreeInv` (an index of height at most two
as the insertions build it, scanned or not) in which exactly one used leaf
slot, slot `j` of page `p` with key `k` and record id `r`, holds a key in the
scan range, after a successful `startScan` the first `scanNext` returns `r`,
and every later `scanNext` raises `IndexScanCompletedException` and returns no
record id. -/
theorem single_match_then_completed (L N : Nat)
    (s t : BTreeIndex) (fuel : Nat)
    (lo : Int) (lop : Operator) (hi : Int) (hop : Operator)
    (hinv : TreeInv L N s)
    (hs : startScan fuel s lo lop hi hop = Except.ok t)
    (p j : Nat) (k : Int) (r : RecordId)
    (hst : StoredAt s p j k r) (hsat : checkSatisfy lo lop hi hop k = true)
    (huniq : ∀ p2 j2 k2 r2, StoredAt s p2 j2 k2 r2 →
      checkSatisfy lo lop hi hop k2 = true → p2 = p ∧ j2 = j) :
    ∃ t1, scanNext t = Except.ok (r, t1)
      ∧ ∀ n, ∃ u, nthScanNext n t1 = Except.error (Err.IndexScanCompletedException, u) := by
  obtain ⟨pc, X, j1, kj, rj, hX, hend, hj1, hkj, hrj, hr0, hsatj, hat, hnx⟩ :=
    startScan_positioned hinv hs
  obtain ⟨hp, hjj⟩ := huniq pc j1 kj rj ⟨X, hX, hkj, hrj, hr0⟩ hsatj
  subst hp
  subst hjj
  obtain ⟨n, hn, _, hnr, _⟩ := hst
  rw [hX] at hn
  injection hn with hn
  injection hn with hn
  subst hn
  rw [hrj] at hnr
  injection hnr with hnr
  subst hnr
  obtain ⟨h1, hat1⟩ := scanNext_first hat hnx hj1 hkj hrj hr0 hsatj
  refine ⟨_, h1, ?_⟩
  intro n
  have hsz : LeafSized L X := (hinv.leaves _ _ hX).1
  refine nthScanNext_later hsz hend hj1 ?_ n _ hat1 (Or.inl rfl)
  intro k2 r2 hk2 hr2 hu2
  cases hc : checkSatisfy lo lop hi hop k2 with
  | false => rfl
  | true =>
    have := (huniq pc (j1 + 1) k2 r2 ⟨X, hX, hk2, hr2, hu2⟩ hc).2
    omega

/-- The index built from the keys 5,3,8,1,9 with leaf capacity 4, scanned for
the range (>= 9, <= 9). -/
theorem single_match_then_completed_sample :
    buildIndex 4 4 (entriesOf [5, 3, 8, 1, 9]) = Except.ok sampleSplit
      ∧ startScan 5 sampleSplit 9 Operator.GTE 9 Operator.LTE = Except.ok sampleSplitPositioned
      ∧ StoredAt sampleSplit 3 2 9 (ridOf 9)
      ∧ ∃ t1, scanNext sampleSplitPositioned = Except.ok (ridOf 9, t1)
          ∧ ∀ n, ∃ u, nthScanNext n t1 = Except.error (Err.IndexScanCompletedException, u) := by
  have hst : StoredAt sampleSplit 3 2 9 (ridOf 9) := ⟨_, rfl, rfl, rfl, by decide⟩
  refine ⟨rfl, rfl, hst, ?_⟩
  refine single_match_then_completed 4 4 sampleSplit sampleSplitPositioned 5 9 Operator.GTE 9
    Operator.LTE (buildIndex_inv (by decide) (by decide) (entriesOf [5, 3, 8, 1, 9]) rfl)
    rfl 3 2 9 (ridOf 9) hst rfl ?_
  intro p2 j2 k2 r2 h2 hsat2
  obtain ⟨n, hn, hk, hr, hu⟩ := h2
  have hle := pageOf_some_le hn
  have hlen : sampleSplit.bufPool.length = 4 := rfl
  rw [hlen] at hle
  obtain ⟨hle1, hle2⟩ := hle
  have h9 : k2 = 9 := by
    simp only [checkSatisfy] at hsat2
    simp at hsat2
    omega
  subst h9
  have hp1 : ∃ m, pageOf sampleSplit 1 = some (Page.meta m) := ⟨_, rfl⟩
  have hp2 : pageOf sampleSplit 2 = some (Page.leaf
      ⟨[5, 3, 0, 0], [⟨6, 0⟩, ⟨4, 0⟩, ⟨0, 0⟩, ⟨0, 0⟩], 0⟩) := rfl
  have hp3 : pageOf sampleSplit 3 = some (Page.leaf
      ⟨[8, 1, 9, 0], [⟨9, 0⟩, ⟨2, 0⟩, ⟨10, 0⟩, ⟨0, 0⟩], 3⟩) := rfl
  have hp4 : ∃ m, pageOf sampleSplit 4 = some (Page.nonLeaf m) := ⟨_, rfl⟩
  interval_cases p2
  · obtain ⟨m, hm⟩ := hp1
    rw [hm] at hn
    cases hn
  · rw [hp2] at hn
    injection hn with hn
    injection hn with hn
    subst hn
    have hj : j2 < 4 := by
      by_contra hc
      rw [List.getElem?_eq_none (by simp; omega)] at hk
      cases hk
    interval_cases j2 <;> simp at hk
  · rw [hp3] at hn
    injection hn with hn
    injection hn with hn
    subst hn
    have hj : j2 < 4 := by
      by_contra hc
      rw [List.getElem?_eq_none (by simp; omega)] at hk
      cases hk
    interval_cases j2 <;> simp at hk
    exact ⟨rfl, rfl⟩
  · obtain ⟨m, hm⟩ := hp4
    rw [hm] at hn
    cases hn

/-- C10 (the code departs from the claim).  With leaf capacity 2 and node
capacity 3 the index for the keys 1..6 needs the split of the full root, and
`insertEntry` of key 6 leaves the key array in `splitNonLeaf`.  The leaves of
`sampleNodeSplitFile` (pages 2, 3, 5, 6, 7) are those the call has written when
it reaches `splitNonLeaf`, and its root of page 9 is the node that
`updateRoot` writes for the old root 4 and the token (page 8, key 3).  On
these pages the stored keys are 1..6 and
key 4 is the only one in the range (>= 4, <= 4).  `startScan` for this range
succeeds: the descent goes from the root of page 9 to the node of page 8 and to
its child 0, the leaf of page 6, and stops on slot 0.  The first `scanNext`
returns the record id of key 4.  The second `scanNext` reads the unused slot 1,
moves to the right sibling, which is page 6 itself, finds key 4 of slot 0 in
the range and returns the record id with page number 0 that it read from
slot 1; it raises no exception. -/
theorem C10_second_scanNext_returns_after_node_split :
    errOf (insertEntry (objectOf (buildIndex 2 3 (entriesOf [1, 2, 3, 4, 5]))) 6 (ridOf 6))
        = some Err.outOfBounds
      ∧ [2, 3, 5, 6, 7].map (pageOf sampleNodeSplit)
        = [2, 3, 5, 6, 7].map (pageOf (objectOf
            (insertEntry (objectOf (buildIndex 2 3 (entriesOf [1, 2, 3, 4, 5]))) 6 (ridOf 6))))
      ∧ updateRootNode (zeroNonLeaf 3) 0 4 { pageNo := 8, key := 3 }
        = Except.ok { level := 0, keyArray := [3, 0, 0], pageNoArray := [4, 8, 0, 0] }
      ∧ storedKeys sampleNodeSplit = [1, 2, 3, 4, 5, 6]
      ∧ (storedKeys sampleNodeSplit).filter (checkSatisfy 4 Operator.GTE 4 Operator.LTE) = [4]
      ∧ errOf (startScan 9 sampleNodeSplit 4 Operator.GTE 4 Operator.LTE) = none
      ∧ (sampleNodeSplitPositioned.scanExecuting, sampleNodeSplitPositioned.currentPageNum,
          sampleNodeSplitPositioned.nextEntry) = (true, 6, 0)
      ∧ (nthScanNext 0 sampleNodeSplitPositioned).toOption.map Prod.fst = some (ridOf 4)
      ∧ (nthScanNext 1 sampleNodeSplitPositioned).toOption.map Prod.fst = some ⟨0, 0⟩ := by
  refine ⟨rfl, rfl, rfl, rfl, rfl, rfl, rfl, rfl, rfl⟩

/-! ### Pin counts under `insertEntry` -/

theorem PinDelta.andThen {d1 d2 : Nat → Int} {s t u : BTreeIndex}
    (h1 : PinDelta d1 s t) (h2 : PinDelta d2 t u) :
    PinDelta (fun q => d1 q + d2 q) s u := by
  refine ⟨h2.1.trans h1.1, fun q hq => h2.2.1 q (h1.2.1 q hq), ?_⟩
  intro q
  rw [h2.2.2 q, h1.2.2 q]
  ring

theorem PinDelta.cast {d d' : Nat → Int} {s t : BTreeIndex}
    (h : PinDelta d s t) (hd : ∀ q, d q = d' q) : PinDelta d' s t :=
  ⟨h.1, h.2.1, fun q => by rw [h.2.2 q, hd q]⟩

theorem pinDelta_readPage {s t : BTreeIndex} {p : Nat} (h : readPage s p = Except.ok t) :
    PinDelta (fun q => if q = p then 1 else 0) s t :=
  ⟨confOf_readPage h, fun q hq => by rw [getFrame_isSome_readPage h]; exact hq,
    pinCntOf_readPage h⟩

theorem pinDelta_unPinPage (s : BTreeIndex) (p : Nat) (d : Bool)
    (hp : (getFrame s p).isSome = true) :
    PinDelta (fun q => if q = p then -1 else 0) s (unPinPage s p d) := by
  refine ⟨confOf_unPinPage s p d, fun q hq => by rw [getFrame_isSome_unPinPage]; exact hq, ?_⟩
  intro q
  rw [pinCntOf_unPinPage]
  beta_reduce
  by_cases hq : q = p
  · rw [if_pos ⟨hq, hp⟩, if_pos hq]; ring
  · rw [if_neg (fun h => hq h.1), if_neg hq]; ring

theorem getFrame_putPage (s : BTreeIndex) (p : Nat) (pg : Page) (q : Nat) :
    getFrame (putPage s p pg) q
      = if q = p then (getFrame s p).map (fun f => { f with page := pg }) else getFrame s q := by
  unfold putPage
  cases hf : getFrame s p with
  | none =>
    by_cases hq : q = p
    · subst hq; simp [hf]
    · simp [hq]
  | some f =>
    simp only
    rw [getFrame_setFrame]
    by_cases hq : q = p
    · subst hq; simp [hf]
    · simp [hq]

theorem pinDelta_putPage (s : BTreeIndex) (p : Nat) (pg : Page) :
    PinDelta (fun _ => 0) s (putPage s p pg) := by
  refine ⟨confOf_putPage s p pg, ?_, ?_⟩
  · intro q hq
    rw [getFrame_putPage]
    by_cases hqp : q = p
    · subst hqp; rw [if_pos rfl]
      cases hf : getFrame s q with
      | none => rw [hf] at hq; cases hq
      | some f => rfl
    · rw [if_neg hqp]; exact hq
  · intro q
    unfold pinCntOf
    rw [getFrame_putPage]
    by_cases hqp : q = p
    · subst hqp; rw [if_pos rfl]
      cases hf : getFrame s q with
      | none => simp
      | some f => simp
    · rw [if_neg hqp]; simp

theorem getFrame_allocPage (s : BTreeIndex) (q : Nat) :
    getFrame (allocPage s).2 q
      = if q = s.bufPool.length + 1 then some { page := Page.blank, pinCnt := 1, dirty := false }
        else getFrame s q := by
  unfold allocPage getFrame
  by_cases hq : q = 0
  · subst hq; simp
  · simp only [hq, if_false]
    by_cases hql : q = s.bufPool.length + 1
    · subst hql; simp
    · rw [if_neg hql]
      by_cases hlt : q - 1 < s.bufPool.length
      · rw [List.getElem?_append_left hlt]
      · have h1 : s.bufPool[q - 1]? = none := List.getElem?_eq_none (by omega)
        have h2 : (s.bufPool ++ [({ page := Page.blank, pinCnt := 1, dirty := false } : Frame)])[q - 1]?
            = none := List.getElem?_eq_none (by simp; omega)
        rw [h1, h2]

theorem getFrame_new_none (s : BTreeIndex) : getFrame s (s.bufPool.length + 1) = none := by
  unfold getFrame
  rw [if_neg (by omega)]
  exact List.getElem?_eq_none (by simp)

theorem pinDelta_allocPage (s : BTreeIndex) :
    PinDelta (fun q => if q = s.bufPool.length + 1 then 1 else 0) s (allocPage s).2 := by
  refine ⟨rfl, ?_, ?_⟩
  · intro q hq
    rw [getFrame_allocPage]
    by_cases hql : q = s.bufPool.length + 1
    · rw [if_pos hql]; rfl
    · rw [if_neg hql]; exact hq
  · intro q
    unfold pinCntOf
    rw [getFrame_allocPage]
    beta_reduce
    by_cases hql : q = s.bufPool.length + 1
    · subst hql
      rw [if_pos rfl, if_pos rfl, getFrame_new_none]
      rfl
    · rw [if_neg hql, if_neg hql]; simp

theorem pinDelta_setRoot (s : BTreeIndex) (r : Nat) :
    PinDelta (fun _ => 0) s { s with rootPageNum := r } :=
  ⟨rfl, fun _ hq => hq, fun q => by simp [pinCntOf, getFrame]⟩

theorem getLeaf_isSome {s : BTreeIndex} {p : Nat} {n : LeafNodeInt}
    (h : getLeaf s p = Except.ok n) : (getFrame s p).isSome = true := by
  unfold getLeaf at h
  cases hf : getFrame s p with
  | none => rw [hf] at h; cases h
  | some f => rfl

theorem getNonLeaf_isSome {s : BTreeIndex} {p : Nat} {n : NonLeafNodeInt}
    (h : getNonLeaf s p = Except.ok n) : (getFrame s p).isSome = true := by
  unfold getNonLeaf at h
  cases hf : getFrame s p with
  | none => rw [hf] at h; cases h
  | some f => rfl

theorem readPage_isSome {s t : BTreeIndex} {p : Nat}
    (h : readPage s p = Except.ok t) : (getFrame s p).isSome = true := by
  obtain ⟨f, hf, _⟩ := readPage_ok h
  rw [hf]; rfl

theorem getFrame_allocPage_new (s : BTreeIndex) :
    (getFrame (allocPage s).2 (allocPage s).1).isSome = true := by
  rw [getFrame_allocPage, allocPage_fst, if_pos rfl]; rfl

/-- The function `updateRoot` leaves every pin count as it was: the new root
and the header are pinned once and unpinned once. -/
theorem updateRoot_pins {s t : BTreeIndex} {firstPid : Nat} {tok : PageKeyPair}
    (h : updateRoot s firstPid tok = Except.ok t) : PinDelta (fun _ => 0) s t := by
  unfold updateRoot at h
  simp only at h
  cases h1 : getNonLeaf (allocPage s).2 (allocPage s).1 with
  | error er => rw [h1] at h; cases h
  | ok newRoot =>
    rw [h1] at h
    simp only at h
    cases h2 : liftE (allocPage s).2 (updateRootNode newRoot
        (if (allocPage s).2.initialRootPageNum = (allocPage s).2.rootPageNum then 1 else 0)
        firstPid tok) with
    | error er => rw [h2] at h; cases h
    | ok R =>
      rw [h2] at h
      simp only at h
      cases h3 : readPage (putPage (allocPage s).2 (allocPage s).1 (Page.nonLeaf R))
          (allocPage s).2.headerPageNum with
      | error er => rw [h3] at h; cases h
      | ok s3 =>
        rw [h3] at h
        simp only at h
        cases h4 : getMeta s3 (allocPage s).2.headerPageNum with
        | error er => rw [h4] at h; cases h
        | ok metaPage =>
          rw [h4] at h
          simp only at h
          injection h with h
          subst h
          have a1 := pinDelta_allocPage s
          have a2 := pinDelta_putPage (allocPage s).2 (allocPage s).1 (Page.nonLeaf R)
          have a3 := pinDelta_readPage h3
          have a4 := pinDelta_putPage s3 (allocPage s).2.headerPageNum
            (Page.meta { metaPage with rootPageNo := (allocPage s).1 })
          have a5 := pinDelta_setRoot (putPage s3 (allocPage s).2.headerPageNum
            (Page.meta { metaPage with rootPageNo := (allocPage s).1 })) (allocPage s).1
          have e6 := a5.2.1 _ (a4.2.1 _ (a3.2.1 _ (readPage_isSome h3)))
          have a6 := pinDelta_unPinPage _ (allocPage s).2.headerPageNum true e6
          have e7 := a6.2.1 _ (a5.2.1 _ (a4.2.1 _ (a3.2.1 _ (a2.2.1 _
            (getFrame_allocPage_new s)))))
          have a7 := pinDelta_unPinPage _ (allocPage s).1 true e7
          refine ((((((a1.andThen a2).andThen a3).andThen a4).andThen a5).andThen a6).andThen
            a7).cast ?_
          intro q
          simp only [allocPage_fst]
          split_ifs <;> omega

/-- The end of a split unpins the split page and the new page once each. -/
theorem splitFinish_pins {s t : BTreeIndex} {p np : Nat} {tok tok1 : PageKeyPair}
    (hp : (getFrame s p).isSome = true) (hnp : (getFrame s np).isSome = true)
    (h : splitFinish s p np tok = Except.ok (tok1, t)) :
    PinDelta (fun q => (if q = p then -1 else 0) + (if q = np then -1 else 0)) s t := by
  unfold splitFinish at h
  simp only at h
  have a1 := pinDelta_unPinPage s p true hp
  have a2 := pinDelta_unPinPage (unPinPage s p true) np true (a1.2.1 _ hnp)
  split at h
  · cases h3 : updateRoot (unPinPage (unPinPage s p true) np true) p tok with
    | error er => rw [h3] at h; cases h
    | ok s2 =>
      rw [h3] at h
      simp only at h
      injection h with h
      injection h with _ h
      subst h
      refine ((a1.andThen a2).andThen (updateRoot_pins h3)).cast ?_
      intro q
      split_ifs <;> omega
  · injection h with h
    injection h with _ h
    subst h
    exact a1.andThen a2

/-- The function `splitLeaf` unpins the split leaf once; the new leaf and, when
the root was split, the new root and the header end as they started. -/
theorem splitLeaf_pins {s t : BTreeIndex} {p : Nat} {e : RIDKeyPair} {tok : PageKeyPair}
    (h : splitLeaf s p e = Except.ok (tok, t)) :
    PinDelta (fun q => if q = p then -1 else 0) s t := by
  unfold splitLeaf at h
  simp only at h
  cases h1 : getLeaf (allocPage s).2 p with
  | error er => rw [h1] at h; cases h
  | ok node =>
    rw [h1] at h
    simp only at h
    cases h2 : getLeaf (allocPage s).2 (allocPage s).1 with
    | error er => rw [h2] at h; cases h
    | ok newLeafNode =>
      rw [h2] at h
      simp only at h
      cases h3 : liftE (allocPage s).2 (splitLeafNodes (allocPage s).2.leafOccupancy node
          newLeafNode (allocPage s).1 e) with
      | error er => rw [h3] at h; cases h
      | ok r =>
        obtain ⟨n1, n2, k0⟩ := r
        rw [h3] at h
        simp only at h
        have a1 := pinDelta_allocPage s
        have a2 := pinDelta_putPage (allocPage s).2 p (Page.leaf n1)
        have a3 := pinDelta_putPage (putPage (allocPage s).2 p (Page.leaf n1)) (allocPage s).1
          (Page.leaf n2)
        have ep := a3.2.1 _ (a2.2.1 _ (getLeaf_isSome h1))
        have en := a3.2.1 _ (a2.2.1 _ (getFrame_allocPage_new s))
        have a4 := splitFinish_pins ep en h
        refine (((a1.andThen a2).andThen a3).andThen a4).cast ?_
        intro q
        simp only [allocPage_fst]
        split_ifs <;> omega

/-- The function `splitNonLeaf` unpins the split node once. -/
theorem splitNonLeaf_pins {s t : BTreeIndex} {p : Nat} {tok0 tok : PageKeyPair}
    (h : splitNonLeaf s p tok0 = Except.ok (tok, t)) :
    PinDelta (fun q => if q = p then -1 else 0) s t := by
  unfold splitNonLeaf at h
  simp only at h
  cases h1 : getNonLeaf (allocPage s).2 p with
  | error er => rw [h1] at h; cases h
  | ok node =>
    rw [h1] at h
    simp only at h
    cases h2 : getNonLeaf (allocPage s).2 (allocPage s).1 with
    | error er => rw [h2] at h; cases h
    | ok newNode =>
      rw [h2] at h
      simp only at h
      cases h3 : liftE (allocPage s).2 (splitNonLeafNodes (allocPage s).2.nodeOccupancy node
          newNode tok0) with
      | error er => rw [h3] at h; cases h
      | ok r =>
        obtain ⟨n1, n2, k0⟩ := r
        rw [h3] at h
        simp only at h
        have a1 := pinDelta_allocPage s
        have a2 := pinDelta_putPage (allocPage s).2 p (Page.nonLeaf n1)
        have a3 := pinDelta_putPage (putPage (allocPage s).2 p (Page.nonLeaf n1))
          (allocPage s).1 (Page.nonLeaf n2)
        have ep := a3.2.1 _ (a2.2.1 _ (getNonLeaf_isSome h1))
        have en := a3.2.1 _ (a2.2.1 _ (getFrame_allocPage_new s))
        have a4 := splitFinish_pins ep en h
        refine (((a1.andThen a2).andThen a3).andThen a4).cast ?_
        intro q
        simp only [allocPage_fst]
        split_ifs <;> omega

/-- The leaf case of `insertion` unpins the leaf once. -/
theorem insertionLeaf_pins {s t : BTreeIndex} {p : Nat} {e : RIDKeyPair}
    {tok : Option PageKeyPair} (h : insertionLeaf s p e = Except.ok (tok, t)) :
    PinDelta (fun q => if q = p then -1 else 0) s t := by
  unfold insertionLeaf at h
  cases h1 : getLeaf s p with
  | error er => rw [h1] at h; cases h
  | ok node =>
    rw [h1] at h
    simp only at h
    cases h2 : liftE s (rd node.ridArray ((s.leafOccupancy : Int) - 1)) with
    | error er => rw [h2] at h; cases h
    | ok last =>
      rw [h2] at h
      simp only at h
      split at h
      · cases h3 : liftE s (leafInsertion s.leafOccupancy node e) with
        | error er => rw [h3] at h; cases h
        | ok n1 =>
          rw [h3] at h
          simp only at h
          injection h with h
          injection h with _ h
          subst h
          have a1 := pinDelta_putPage s p (Page.leaf n1)
          have a2 := pinDelta_unPinPage _ p true (a1.2.1 _ (getLeaf_isSome h1))
          refine (a1.andThen a2).cast ?_
          intro q
          split_ifs <;> omega
      · cases h3 : splitLeaf s p e with
        | error er => rw [h3] at h; cases h
        | ok r =>
          obtain ⟨tok1, s1⟩ := r
          rw [h3] at h
          simp only at h
          injection h with h
          injection h with _ h
          subst h
          exact splitLeaf_pins h3

/-- The reaction of `insertion` to the result of the recursive call unpins the
node once. -/
theorem insertionAbsorb_pins {s t : BTreeIndex} {p : Nat} {newEntry tok : Option PageKeyPair}
    (hp : (getFrame s p).isSome = true)
    (h : insertionAbsorb s p newEntry = Except.ok (tok, t)) :
    PinDelta (fun q => if q = p then -1 else 0) s t := by
  unfold insertionAbsorb at h
  cases newEntry with
  | none =>
    simp only at h
    injection h with h
    injection h with _ h
    subst h
    exact pinDelta_unPinPage s p false hp
  | some tok0 =>
    simp only at h
    cases h1 : getNonLeaf s p with
    | error er => rw [h1] at h; cases h
    | ok node =>
      rw [h1] at h
      simp only at h
      cases h2 : liftE s (rd node.pageNoArray (s.nodeOccupancy : Int)) with
      | error er => rw [h2] at h; cases h
      | ok last =>
        rw [h2] at h
        simp only at h
        split at h
        · cases h3 : liftE s (nonLeafInsertion s.nodeOccupancy node tok0) with
          | error er => rw [h3] at h; cases h
          | ok n1 =>
            rw [h3] at h
            simp only at h
            injection h with h
            injection h with _ h
            subst h
            have a1 := pinDelta_putPage s p (Page.nonLeaf n1)
            have a2 := pinDelta_unPinPage _ p true (a1.2.1 _ hp)
            refine (a1.andThen a2).cast ?_
            intro q
            split_ifs <;> omega
        · cases h3 : splitNonLeaf s p tok0 with
          | error er => rw [h3] at h; cases h
          | ok r =>
            obtain ⟨tok1, s1⟩ := r
            rw [h3] at h
            simp only at h
            injection h with h
            injection h with _ h
            subst h
            exact splitNonLeaf_pins h3

/-- The function `insertion` unpins the page it was called on once and leaves
every other pin count as it was, at every depth of the recursion. -/
theorem insertion_pins :
    ∀ (fuel : Nat) (s t : BTreeIndex) (p : Nat) (e : RIDKeyPair) (isLeaf : Bool)
      (tok : Option PageKeyPair),
      insertion fuel s p e isLeaf = Except.ok (tok, t) →
      PinDelta (fun q => if q = p then -1 else 0) s t := by
  intro fuel
  induction fuel with
  | zero => intro s t p e isLeaf tok h; simp [insertion] at h
  | succ fuel ih =>
    intro s t p e isLeaf tok h
    unfold insertion at h
    split at h
    · cases h1 : getNonLeaf s p with
      | error er => rw [h1] at h; cases h
      | ok node =>
        rw [h1] at h
        simp only at h
        cases h2 : liftE s (findNext s.nodeOccupancy node e.key) with
        | error er => rw [h2] at h; cases h
        | ok nextNode =>
          rw [h2] at h
          simp only at h
          cases h3 : readPage s nextNode with
          | error er => rw [h3] at h; cases h
          | ok s1 =>
            rw [h3] at h
            simp only at h
            cases h4 : insertion fuel s1 nextNode e (decide (node.level = 1)) with
            | error er => rw [h4] at h; cases h
            | ok r =>
              obtain ⟨newEntry, s2⟩ := r
              rw [h4] at h
              simp only at h
              have a1 := pinDelta_readPage h3
              have a2 := ih s1 s2 nextNode e _ newEntry h4
              have ep := a2.2.1 _ (a1.2.1 _ (getNonLeaf_isSome h1))
              have a3 := insertionAbsorb_pins ep h
              refine ((a1.andThen a2).andThen a3).cast ?_
              intro q
              split_ifs <;> omega
    · exact insertionLeaf_pins h

/-- The function `insertEntry` is pin-balanced, and it leaves the members of
the object other than `rootPageNum` and the pages as they were. -/
theorem insertEntry_pins {s t : BTreeIndex} {key : Int} {rid : RecordId}
    (h : insertEntry s key rid = Except.ok t) : PinDelta (fun _ => 0) s t := by
  unfold insertEntry at h
  cases h1 : readPage s s.rootPageNum with
  | error er => rw [h1] at h; cases h
  | ok s1 =>
    rw [h1] at h
    simp only at h
    cases h2 : insertion (s1.bufPool.length + 2) s1 s1.rootPageNum { rid := rid, key := key }
        (decide (s1.initialRootPageNum = s1.rootPageNum)) with
    | error er => rw [h2] at h; cases h
    | ok r =>
      obtain ⟨tok, s2⟩ := r
      rw [h2] at h
      simp only at h
      injection h with h
      subst h
      have a1 := pinDelta_readPage h1
      have a2 := insertion_pins _ _ _ _ _ _ _ h2
      rw [root_readPage h1] at a2
      refine (a1.andThen a2).cast ?_
      intro q
      split_ifs <;> omega

theorem insertAll_pins :
    ∀ (entries : List (Int × RecordId)) (s t : BTreeIndex),
      insertAll s entries = Except.ok t → PinDelta (fun _ => 0) s t := by
  intro entries
  induction entries with
  | nil =>
    intro s t h
    simp only [insertAll] at h
    injection h with h
    subst h
    exact ⟨rfl, fun _ hq => hq, fun q => by simp⟩
  | cons kr rest ih =>
    intro s t h
    obtain ⟨k, r⟩ := kr
    simp only [insertAll] at h
    cases h1 : insertEntry s k r with
    | error er => rw [h1] at h; cases h
    | ok s1 =>
      rw [h1] at h
      simp only at h
      refine ((insertEntry_pins h1).andThen (ih s1 t h)).cast ?_
      intro q
      simp

/-! ### States with no active scan, and `endScan` (C11, C12, C14) -/

theorem createStart_idle {name : List Char} {off : Int} {ty : Datatype} {L N : Nat}
    {s : BTreeIndex} (h : createStart name off ty L N = Except.ok s) :
    s.scanExecuting = false := by
  simp [createStart, allocPage, getMeta, getLeaf, getFrame, putPage, setFrame, liftE, asMeta,
    asLeaf, zeroMeta, zeroLeaf, bind, Except.bind, pure, Except.pure] at h
  rw [← h]

theorem confOf_scanExecuting {s t : BTreeIndex} (h : confOf t = confOf s) :
    t.scanExecuting = s.scanExecuting := congrArg (fun c => c.2.2.2.2.2.1) h

theorem createIndex_idle {name : List Char} {off : Int} {ty : Datatype} {L N : Nat}
    {rel : List (Int × RecordId)} {s : BTreeIndex}
    (h : createIndex name off ty L N rel = Except.ok s) : s.scanExecuting = false := by
  unfold createIndex at h
  simp only [bind, Except.bind, pure, Except.pure] at h
  cases h1 : createStart name off ty L N with
  | error er => rw [h1] at h; cases h
  | ok s1 =>
    rw [h1] at h
    simp only at h
    cases h2 : insertAll s1 rel with
    | error er => rw [h2] at h; cases h
    | ok s2 =>
      rw [h2] at h
      simp only at h
      injection h with h
      subst h
      rw [confOf_scanExecuting (confOf_unPinPage _ _ _),
        confOf_scanExecuting (confOf_unPinPage _ _ _),
        confOf_scanExecuting (insertAll_pins rel s1 s2 h2).1]
      exact createStart_idle h1

theorem startScan_error_idle {fuel : Nat} {s0 s : BTreeIndex} {lo hi : Int} {lop hop : Operator}
    {e : Err} (h : startScan fuel s0 lo lop hi hop = Except.error (e, s))
    (he : e = Err.NoSuchKeyFoundException
      ∨ ((e = Err.BadOpcodesException ∨ e = Err.BadScanrangeException)
          ∧ s0.scanExecuting = false)) :
    s.scanExecuting = false := by
  unfold startScan at h
  split at h
  · injection h with h; injection h with h1 h2
    subst h1; subst h2
    rcases he with he | ⟨_, he⟩
    · cases he
    · exact he
  · split at h
    · injection h with h; injection h with h1 h2
      subst h1; subst h2
      rcases he with he | ⟨_, he⟩
      · cases he
      · exact he
    · simp only at h
      split at h
      · injection h with h; injection h with h1 h2
        subst h1; subst h2
        rcases he with he | ⟨_, he⟩
        · cases he
        · exact he
      · obtain ⟨hse, hidle⟩ := startScanSearch_error fuel _ _ _ h
        rcases he with he | ⟨he, _⟩
        · exact (hidle he).1
        · exfalso
          rcases hse with h1 | h1 | h1 | h1 | h1 <;> rcases he with he | he <;>
            (rw [h1] at he; cases he)

/-- C11: `scanNext` and `endScan` called with no active scan raise
ScanNotInitializedException and leave the object, with its cursor, bounds, pin
counts and pages, exactly as it was.  No scan is active in a freshly
constructed index, after a successful `endScan`, and after a `startScan` that
raised NoSuchKeyFoundException or that was called with no active scan and
failed its validation. -/
theorem C11_idle_scanNotInitialized (s : BTreeIndex)
    (h : s.scanExecuting = false
      ∨ (∃ name off ty L N rel, createIndex name off ty L N rel = Except.ok s)
      ∨ (∃ s0, endScan s0 = Except.ok s)
      ∨ (∃ fuel s0 lo lop hi hop e, startScan fuel s0 lo lop hi hop = Except.error (e, s)
          ∧ (e = Err.NoSuchKeyFoundException
            ∨ ((e = Err.BadOpcodesException ∨ e = Err.BadScanrangeException)
                ∧ s0.scanExecuting = false)))) :
    s.scanExecuting = false
      ∧ scanNext s = Except.error (Err.ScanNotInitializedException, s)
      ∧ endScan s = Except.error (Err.ScanNotInitializedException, s) := by
  have hidle : s.scanExecuting = false := by
    rcases h with h | ⟨name, off, ty, L, N, rel, h⟩ | ⟨s0, h⟩ | ⟨fuel, s0, lo, lop, hi, hop, e, h, he⟩
    · exact h
    · exact createIndex_idle h
    · unfold endScan at h
      split at h
      · cases h
      · injection h with h
        subst h
        rw [confOf_scanExecuting (confOf_unPinPage _ _ _)]
    · exact startScan_error_idle h he
  refine ⟨hidle, ?_, ?_⟩
  · unfold scanNext
    rw [if_pos hidle]
  · unfold endScan
    rw [if_pos hidle]

/-- Witness for C11: the sample object after a `startScan` that raised
NoSuchKeyFoundException while a scan was Positioned. -/
theorem C11_idle_scanNotInitialized_witness :
    startScan 5 samplePositioned 7 Operator.GTE 9 Operator.LTE
        = Except.error (Err.NoSuchKeyFoundException, sampleAfterNoKey)
      ∧ sampleAfterNoKey.scanExecuting = false
      ∧ scanNext sampleAfterNoKey
          = Except.error (Err.ScanNotInitializedException, sampleAfterNoKey)
      ∧ endScan sampleAfterNoKey
          = Except.error (Err.ScanNotInitializedException, sampleAfterNoKey) :=
  ⟨rfl, C11_idle_scanNotInitialized sampleAfterNoKey
    (Or.inr (Or.inr (Or.inr ⟨5, samplePositioned, 7, Operator.GTE, 9, Operator.LTE,
      Err.NoSuchKeyFoundException, rfl, Or.inl rfl⟩)))⟩

/-- C12: in a Positioned state (a scan is executing and its current page is a
page of the file) `endScan` succeeds, takes one pin from the current page and
none from any other, changes no page contents and clears `scanExecuting`; a
second `endScan` right after it raises ScanNotInitializedException. -/
theorem C12_endScan_then_notInitialized (s : BTreeIndex) (hex : s.scanExecuting = true)
    (hp : (getFrame s s.currentPageNum).isSome = true) :
    ∃ t, endScan s = Except.ok t
      ∧ t.scanExecuting = false
      ∧ (∀ p, pinCntOf t p = pinCntOf s p - (if p = s.currentPageNum then 1 else 0))
      ∧ (∀ p, pageOf t p = pageOf s p)
      ∧ endScan t = Except.error (Err.ScanNotInitializedException, t) := by
  have hidle : (unPinPage { s with scanExecuting := false } s.currentPageNum false).scanExecuting
      = false := by
    rw [confOf_scanExecuting (confOf_unPinPage _ _ _)]
  refine ⟨unPinPage { s with scanExecuting := false } s.currentPageNum false, ?_, hidle, ?_, ?_, ?_⟩
  · unfold endScan
    rw [if_neg (by rw [hex]; decide)]
  · intro p
    rw [pinCntOf_unPinPage]
    have hp2 : (getFrame { s with scanExecuting := false } s.currentPageNum).isSome = true := hp
    by_cases hpc : p = s.currentPageNum
    · rw [if_pos ⟨hpc, hp2⟩, if_pos hpc]; rfl
    · rw [if_neg (fun h => hpc h.1), if_neg hpc]; rfl
  · intro p
    rw [pageOf_unPinPage]; rfl
  · unfold endScan
    rw [if_pos hidle]

/-- Witness for C12: the sample scan Positioned on key 5, whose current page
is page 2 with one pin. -/
theorem C12_endScan_then_notInitialized_witness :
    samplePositioned.currentPageNum = 2 ∧ pinCntOf samplePositioned 2 = 1
      ∧ ∃ t, endScan samplePositioned = Except.ok t
        ∧ t.scanExecuting = false
        ∧ (∀ p, pinCntOf t p
            = pinCntOf samplePositioned p - (if p = samplePositioned.currentPageNum then 1 else 0))
        ∧ (∀ p, pageOf t p = pageOf samplePositioned p)
        ∧ endScan t = Except.error (Err.ScanNotInitializedException, t) :=
  ⟨rfl, rfl, C12_endScan_then_notInitialized samplePositioned rfl rfl⟩

/-- C14 (the code departs from the claim).  On the sample index with the single
key 5 the scan 5..5 holds one pin on page 2.  After the record id has been
delivered the next `scanNext` finds slot 1 unused, unpins page 2 and raises
IndexScanCompletedException with `scanExecuting` still true: the scan is
executing and holds no pinned page.  The `endScan` that ends the scan unpins
page 2 once more, one unpin more than the scan made pins. -/
theorem C14_completed_scan_unpinned_twice :
    pinCntOf sampleIndex 2 = 0
      ∧ pinCntOf samplePositioned 2 = 1
      ∧ (scanAll 5 samplePositioned).1 = [ridOf 5]
      ∧ (scanAll 5 samplePositioned).2.1 = Err.IndexScanCompletedException
      ∧ sampleCompleted.scanExecuting = true
      ∧ sampleCompleted.currentPageNum = 2
      ∧ pinCntOf sampleCompleted 2 = 0
      ∧ (endScan sampleCompleted).toOption.map (fun t => pinCntOf t 2) = some (-1) := by
  refine ⟨?_, ?_, ?_, ?_, ?_, ?_, ?_, ?_⟩ <;> rfl

/-! ### The open path of the constructor (C15, C16) -/

/-- C15 (the code departs from the claim).  The create path stores the first
19 characters of the relation name; the open path compares the stored name
with the whole requested name.  An index created for a relation whose name has
20 characters is refused with BadIndexInfoException when it is opened again
with the same name, offset and type; with a name of 19 characters it opens. -/
theorem C15_reopen_long_name_refused :
    sampleLongName.length = 20
      ∧ (∃ t, reopenIndex sampleLongName 0 Datatype.INTEGER 4 4 [] sampleLongName 0
            Datatype.INTEGER 0 = Except.error (Err.BadIndexInfoException, t))
      ∧ (∃ t, reopenIndex sampleShortName 0 Datatype.INTEGER 4 4 [] sampleShortName 0
            Datatype.INTEGER 0 = Except.ok t) :=
  ⟨rfl, ⟨_, rfl⟩, ⟨_, rfl⟩⟩

theorem setFrame_same (s : BTreeIndex) (p : Nat) (f : Frame) (h : getFrame s p = some f) :
    setFrame s p f = s := by
  unfold getFrame at h
  unfold setFrame
  split at h
  · cases h
  · rename_i hp
    rw [if_neg hp]
    have : s.bufPool.set (p - 1) f = s.bufPool := by
      apply List.ext_getElem?
      intro i
      rw [List.getElem?_set]
      by_cases hi : p - 1 = i
      · subst hi
        rw [if_pos rfl, h]
        have hlt : p - 1 < s.bufPool.length := by
          by_contra hc
          rw [List.getElem?_eq_none (by omega)] at h
          cases h
        rw [if_pos hlt]
      · rw [if_neg hi]
    rw [this]

theorem unPinPage_setRoot_bufPool (s : BTreeIndex) (r p : Nat) (d : Bool) :
    (unPinPage { s with rootPageNum := r } p d).bufPool = (unPinPage s p d).bufPool := by
  unfold unPinPage getFrame setFrame
  simp only
  split
  · rfl
  · split <;> rfl

/-- Reading a page and unpinning it clean leaves the object as it was. -/
theorem unPinPage_readPage {s t : BTreeIndex} {p : Nat} (h : readPage s p = Except.ok t) :
    unPinPage t p false = s := by
  obtain ⟨f, hf, ht⟩ := readPage_ok h
  subst ht
  have hg : getFrame (setFrame s p { f with pinCnt := f.pinCnt + 1 }) p
      = some { f with pinCnt := f.pinCnt + 1 } := by
    rw [getFrame_setFrame, if_pos rfl, hf]; rfl
  unfold unPinPage
  rw [hg]
  simp only
  have e1 : ({ page := f.page, pinCnt := f.pinCnt + 1 - 1, dirty := f.dirty || false } : Frame)
      = f := by
    cases f
    simp
  rw [e1]
  have e2 : setFrame (setFrame s p { f with pinCnt := f.pinCnt + 1 }) p f = setFrame s p f := by
    unfold setFrame
    split
    · rfl
    · simp
  rw [e2]
  exact setFrame_same s p f hf

/-- C16: when an existing index file is opened and the attribute type, the
attribute byte offset or the relation name stored in its header page `m`
differs from the requested one, the constructor raises BadIndexInfoException;
the header page has been unpinned by then, so the buffer pool is the file as it
was before the call, pin counts included. -/
theorem C16_open_mismatch_badIndexInfo (file : List Frame) (name : List Char) (off : Int)
    (ty : Datatype) (L N init : Nat) (f : Frame) (m : IndexMetaInfo)
    (hf : file[0]? = some f) (hm : asMeta f.page = Except.ok m)
    (hne : m.attrType ≠ ty ∨ m.attrByteOffset ≠ off ∨ m.relationName ≠ cString name) :
    ∃ t, openIndex file name off ty L N init = Except.error (Err.BadIndexInfoException, t)
      ∧ t.bufPool = file := by
  unfold openIndex
  simp only
  cases h1 : readPage
      { bufPool := file, headerPageNum := 1, rootPageNum := 0, attributeType := ty,
        attrByteOffset := off, leafOccupancy := L, nodeOccupancy := N, scanExecuting := false,
        nextEntry := 0, currentPageNum := 0, lowValInt := 0, highValInt := 0,
        lowOp := Operator.LT, highOp := Operator.LT, initialRootPageNum := init } 1 with
  | error er =>
    exfalso
    simp [readPage, getFrame, hf] at h1
  | ok s1 =>
    simp only
    have hg : getMeta s1 1 = Except.ok m := by
      obtain ⟨f1, hf1, ht⟩ := readPage_ok h1
      have hff : f1 = f := by
        simp [getFrame, hf] at hf1
        exact hf1.symm
      subst hff
      subst ht
      unfold getMeta
      rw [getFrame_setFrame, if_pos rfl, hf1]
      simp only [Option.isSome_some, if_true]
      rw [hm]; rfl
    have hh : s1.headerPageNum = 1 := confOf_header (confOf_readPage h1)
    rw [show getMeta s1 s1.headerPageNum = Except.ok m from by rw [hh]; exact hg]
    simp only
    have hcond : m.relationName ≠ cString name ∨ m.attrType ≠ ty ∨ m.attrByteOffset ≠ off := by
      rcases hne with h | h | h
      · exact Or.inr (Or.inl h)
      · exact Or.inr (Or.inr h)
      · exact Or.inl h
    rw [if_pos hcond]
    refine ⟨_, rfl, ?_⟩
    show (unPinPage { s1 with rootPageNum := m.rootPageNo } s1.headerPageNum false).bufPool
      = file
    rw [unPinPage_setRoot_bufPool, hh, unPinPage_readPage h1]

/-- Witness for C16 (Scenario B): an index created for relation name `name`,
offset 0 and type INTEGER is opened for the same relation and offset with type
DOUBLE. -/
theorem C16_open_mismatch_badIndexInfo_witness :
    ∃ s, createIndex sampleShortName 0 Datatype.INTEGER 4 4 [] = Except.ok s
      ∧ ∃ t, openIndex s.bufPool sampleShortName 0 Datatype.DOUBLE 4 4 0
            = Except.error (Err.BadIndexInfoException, t)
          ∧ t.bufPool = s.bufPool :=
  ⟨_, rfl, C16_open_mismatch_badIndexInfo _ sampleShortName 0 Datatype.DOUBLE 4 4 0 _
    { relationName := sampleShortName, attrByteOffset := 0, attrType := Datatype.INTEGER,
      rootPageNo := 2 } rfl rfl (Or.inl (by decide))⟩

/-! ### The node mutators and the routing rule (C18 - C20) -/

/-- C18 (the code departs from the claim).  The loop of `findNext` steps left
while `keyArray[i - 1] >= val`, so a value equal to a separator is routed to
the child on the left of it.  For the node with the separator 8 and the
children 2, 3 the value 8 goes to child 2; with separators 10, 20, 30 the value
20 goes to the child between 10 and 20.  In the index built from the keys
1,2,3,4,5 the root has the separator 3, key 3 is stored in the right leaf
(page 3), and `findNext` sends 3 to the left leaf (page 2). -/
theorem C18_equal_key_routed_left :
    findNext 4 { level := 1, keyArray := [8, 0, 0, 0], pageNoArray := [2, 3, 0, 0, 0] } 8
        = Except.ok 2
      ∧ findNext 4 { level := 1, keyArray := [10, 20, 30, 0], pageNoArray := [2, 3, 5, 6, 0] } 20
        = Except.ok 3
      ∧ (nonLeafOf 4 4 [1, 2, 3, 4, 5] 4).map (fun n => (n.keyArray, n.pageNoArray))
        = some ([3, 0, 0, 0], [2, 3, 0, 0, 0])
      ∧ (leafOf 4 4 [1, 2, 3, 4, 5] 3).map usedKeys = some [3, 4, 5]
      ∧ (nonLeafOf 4 4 [1, 2, 3, 4, 5] 4).map (fun n => findNext 4 n 3)
        = some (Except.ok 2) := by
  refine ⟨?_, ?_, ?_, ?_, ?_⟩ <;> rfl

theorem filter_eq_take {α : Type} (p : α → Bool) :
    ∀ (l : List α) (m : Nat), (∀ j y, l[j]? = some y → (p y = true ↔ j < m)) →
      l.filter p = l.take m := by
  intro l
  induction l with
  | nil => intro m _; simp
  | cons x xs ih =>
    intro m h
    cases m with
    | zero =>
      rw [List.take_zero, List.filter_eq_nil_iff]
      intro a ha
      obtain ⟨j, hj⟩ := List.getElem?_of_mem ha
      intro hp
      have := (h j a hj).1 hp
      omega
    | succ m =>
      have hx : p x = true := (h 0 x (by simp)).2 (by omega)
      rw [List.filter_cons, if_pos hx, List.take_succ_cons]
      congr 1
      apply ih
      intro j y hj
      have := h (j + 1) y (by simpa using hj)
      rw [this]
      omega

/-- The used entries of a leaf whose used slots are the first `m`. -/
theorem usedEntries_eq_take {n : LeafNodeInt} {m : Nat} (hu : UsedPrefix n.ridArray m) :
    usedEntries n = (n.keyArray.zip n.ridArray).take m := by
  unfold usedEntries
  apply filter_eq_take
  intro j y hj
  rw [List.getElem?_zip_eq_some] at hj
  have := hu.2 j y.2 hj.2
  simp only [decide_eq_true_eq]
  exact this

/-- C19: `leafInsertion` on a leaf whose used slots are the first `m < L`, for
an entry whose record id has a non-zero page number, stores the entry in slot
`m`, leaves the slots before `m` as they were and the slots after `m` unused;
afterwards the used slots are the first `m + 1` and the used entries are the
old ones followed by the new one. -/
theorem C19_leafInsertion_appends (L : Nat) (node : LeafNodeInt) (m : Nat) (e : RIDKeyPair)
    (hs : LeafSized L node) (hu : UsedPrefix node.ridArray m) (hm : m < L)
    (he : e.rid.page_number ≠ 0) :
    ∃ n1, leafInsertion L node e = Except.ok n1
      ∧ LeafSized L n1 ∧ n1.rightSibPageNo = node.rightSibPageNo
      ∧ n1.keyArray[m]? = some e.key ∧ n1.ridArray[m]? = some e.rid
      ∧ (∀ j, j < m → n1.keyArray[j]? = node.keyArray[j]? ∧ n1.ridArray[j]? = node.ridArray[j]?)
      ∧ (∀ j r, m < j → n1.ridArray[j]? = some r → r.page_number = 0)
      ∧ UsedPrefix n1.ridArray (m + 1)
      ∧ usedEntries n1 = usedEntries node ++ [(e.key, e.rid)] := by
  obtain ⟨n1, h1, h2, h3, h4, h5, h6, h7⟩ := leafInsertion_spec e hs hu hm
  have hu1 : UsedPrefix n1.ridArray (m + 1) := by
    refine ⟨by rw [h3.2]; omega, ?_⟩
    intro j r hjr
    rcases Nat.lt_trichotomy j m with hj | hj | hj
    · rw [(h6 j hj).2] at hjr
      have := hu.2 j r hjr
      rw [this]; omega
    · subst hj
      rw [h5] at hjr
      injection hjr with hjr
      subst hjr
      constructor
      · intro _; omega
      · intro _; exact he
    · have := h7 j r hj hjr
      constructor
      · intro hc; exact absurd this hc
      · intro hc; omega
  refine ⟨n1, h1, h3, h2, h4, h5, h6, h7, hu1, ?_⟩
  rw [usedEntries_eq_take hu1, usedEntries_eq_take hu, List.take_succ]
  have hz : (n1.keyArray.zip n1.ridArray)[m]? = some (e.key, e.rid) :=
    List.getElem?_zip_eq_some.2 ⟨h4, h5⟩
  rw [hz]
  have hpre : (n1.keyArray.zip n1.ridArray).take m = (node.keyArray.zip node.ridArray).take m := by
    apply List.ext_getElem?
    intro j
    rw [List.getElem?_take, List.getElem?_take]
    by_cases hj : j < m
    · rw [if_pos hj, if_pos hj]
      apply Option.ext
      intro z
      simp only [Option.mem_def]
      rw [List.getElem?_zip_eq_some, List.getElem?_zip_eq_some, (h6 j hj).1, (h6 j hj).2]
    · rw [if_neg hj, if_neg hj]
  rw [hpre]
  rfl

/-- Witness for C19: the leaf with the single key 5 and capacity 4 receives the
entry with key 3. -/
theorem C19_leafInsertion_appends_witness :
    ∃ n1, leafInsertion 4
          { keyArray := [5, 0, 0, 0], ridArray := [ridOf 5, ⟨0, 0⟩, ⟨0, 0⟩, ⟨0, 0⟩],
            rightSibPageNo := 0 } { rid := ridOf 3, key := 3 } = Except.ok n1
      ∧ n1.keyArray[1]? = some 3 ∧ n1.ridArray[1]? = some (ridOf 3)
      ∧ usedEntries n1 = [(5, ridOf 5), (3, ridOf 3)] := by
  obtain ⟨n1, h1, _, _, h4, h5, _, _, _, h9⟩ := C19_leafInsertion_appends 4
    { keyArray := [5, 0, 0, 0], ridArray := [ridOf 5, ⟨0, 0⟩, ⟨0, 0⟩, ⟨0, 0⟩],
      rightSibPageNo := 0 } 1 { rid := ridOf 3, key := 3 } ⟨rfl, rfl⟩
    ⟨by decide, by
      intro j r hjr
      have hj : j < 4 := by
        by_contra hc
        rw [List.getElem?_eq_none (by simp; omega)] at hjr
        cases hjr
      interval_cases j <;> simp at hjr <;> subst hjr <;> simp [ridOf]⟩
    (by decide) (by decide)
  exact ⟨n1, h1, h4, h5, h9⟩

/-- C20 (the code departs from the claim).  `nonLeafInsertion` writes the token
behind the last used key and child whatever its key: the node with the key 8
and the children 2, 3 receives the token (5, page 4) as second key, so the used
keys are 8, 5.  The index built from the keys 10,20,30,40,50,1,2,3 with leaf
capacity 4 has the root keys 30, 1. -/
theorem C20_nonLeafInsertion_not_sorted :
    nonLeafInsertion 4 { level := 1, keyArray := [8, 0, 0, 0], pageNoArray := [2, 3, 0, 0, 0] }
        { pageNo := 4, key := 5 }
      = Except.ok { level := 1, keyArray := [8, 5, 0, 0], pageNoArray := [2, 3, 4, 0, 0] }
      ∧ (nonLeafOf 4 4 [10, 20, 30, 40, 50, 1, 2, 3] 4).map (fun n => (n.keyArray, n.pageNoArray))
        = some ([30, 1, 0, 0], [2, 3, 5, 0, 0]) := by
  constructor <;> rfl

/-! ### Pins and dirty flags of `insertEntry` (C13) -/

/-! ### Dirty flags under `insertEntry` -/

theorem updateRoot_page {s t : BTreeIndex} {firstPid : Nat} {tok : PageKeyPair}
    (h : updateRoot s firstPid tok = Except.ok t) (q : Nat)
    (hq1 : q ≠ s.headerPageNum) (hq2 : q ≠ s.bufPool.length + 1) :
    pageOf t q = pageOf s q := by
  unfold updateRoot at h
  simp only at h
  cases h1 : getNonLeaf (allocPage s).2 (allocPage s).1 with
  | error er => rw [h1] at h; cases h
  | ok newRoot =>
    rw [h1] at h
    simp only at h
    cases h2 : liftE (allocPage s).2 (updateRootNode newRoot
        (if (allocPage s).2.initialRootPageNum = (allocPage s).2.rootPageNum then 1 else 0)
        firstPid tok) with
    | error er => rw [h2] at h; cases h
    | ok R =>
      rw [h2] at h
      simp only at h
      cases h3 : readPage (putPage (allocPage s).2 (allocPage s).1 (Page.nonLeaf R))
          (allocPage s).2.headerPageNum with
      | error er => rw [h3] at h; cases h
      | ok s3 =>
        rw [h3] at h
        simp only at h
        cases h4 : getMeta s3 (allocPage s).2.headerPageNum with
        | error er => rw [h4] at h; cases h
        | ok metaPage =>
          rw [h4] at h
          simp only at h
          injection h with h
          subst h
          have hq1a : q ≠ (allocPage s).2.headerPageNum := hq1
          have hq2a : q ≠ (allocPage s).1 := by rw [allocPage_fst]; exact hq2
          rw [pageOf_unPinPage, pageOf_unPinPage]
          show pageOf (putPage s3 (allocPage s).2.headerPageNum _) q = _
          rw [pageOf_putPage_ne _ _ hq1a, pageOf_readPage h3, pageOf_putPage_ne _ _ hq2a,
            pageOf_allocPage_old _ hq2]

theorem splitFinish_page {s t : BTreeIndex} {p np : Nat} {tok tok1 : PageKeyPair}
    (h : splitFinish s p np tok = Except.ok (tok1, t)) (q : Nat)
    (hq1 : q ≠ s.headerPageNum) (hq2 : q ≠ s.bufPool.length + 1) :
    pageOf t q = pageOf s q := by
  unfold splitFinish at h
  simp only at h
  split at h
  · cases h3 : updateRoot (unPinPage (unPinPage s p true) np true) p tok with
    | error er => rw [h3] at h; cases h
    | ok s2 =>
      rw [h3] at h
      simp only at h
      injection h with h
      injection h with _ h
      subst h
      have e : (unPinPage (unPinPage s p true) np true).headerPageNum = s.headerPageNum :=
        confOf_header (by rw [confOf_unPinPage, confOf_unPinPage])
      rw [updateRoot_page h3 q (by rw [e]; exact hq1)
        (by rw [length_unPinPage, length_unPinPage]; exact hq2), pageOf_unPinPage,
        pageOf_unPinPage]
  · injection h with h
    injection h with _ h
    subst h
    rw [pageOf_unPinPage, pageOf_unPinPage]

/-- The page of a split leaf holds the leaf that `splitLeafNodes` made of it. -/
theorem splitLeaf_page {s t : BTreeIndex} {p : Nat} {node n1 n2 : LeafNodeInt} {k0 : Int}
    {e : RIDKeyPair} {tok : PageKeyPair} {m : IndexMetaInfo}
    (hp : pageOf s p = some (Page.leaf node))
    (hm : pageOf s s.headerPageNum = some (Page.meta m))
    (hnodes : splitLeafNodes s.leafOccupancy node (zeroLeaf s.leafOccupancy)
      (s.bufPool.length + 1) e = Except.ok (n1, n2, k0))
    (h : splitLeaf s p e = Except.ok (tok, t)) :
    pageOf t p = some (Page.leaf n1) := by
  have hpne : p ≠ s.bufPool.length + 1 := pageOf_some_ne_new hp
  have hph : p ≠ s.headerPageNum := by
    intro hc; rw [hc, hm] at hp; cases hp
  have hp1 : pageOf (allocPage s).2 p = some (Page.leaf node) := by
    rw [pageOf_allocPage_old _ hpne, hp]
  have hq1 : pageOf (allocPage s).2 (s.bufPool.length + 1) = some Page.blank :=
    pageOf_allocPage_new s
  unfold splitLeaf at h
  simp only at h
  have hn : (allocPage s).1 = s.bufPool.length + 1 := rfl
  have hLo : (allocPage s).2.leafOccupancy = s.leafOccupancy := rfl
  rw [hn, getLeaf_of_pageOf hp1] at h
  simp only at h
  rw [getLeaf_of_blank hq1] at h
  simp only at h
  rw [hLo, hnodes] at h
  simp only [liftE] at h
  have e1 : (putPage (putPage (allocPage s).2 p (Page.leaf n1)) (s.bufPool.length + 1)
      (Page.leaf n2)).headerPageNum = s.headerPageNum :=
    confOf_header (by rw [confOf_putPage, confOf_putPage]; rfl)
  have hle := (pageOf_some_le hp).2
  rw [splitFinish_page h p (by rw [e1]; exact hph)
    (by rw [length_putPage, length_putPage, allocPage_length]; omega),
    pageOf_putPage_ne _ _ hpne, pageOf_putPage_self _ _ _ hp1]

/-- C22 (the code departs from the claim).  With leaf capacity 3 the keys 10,
20, 30 fill the root leaf and key 15 splits it.  15 is not greater than the
key 20 at the midpoint, so the midpoint stays 1 and 20, 30 move to the new
leaf; 15 is greater than the last retained key 10, so it is stored in the new
leaf as well.  The original leaf keeps one entry and the new leaf holds
three. -/
theorem C22_odd_split_one_and_three :
    splitLeafMidPt 3
        { keyArray := [10, 20, 30], ridArray := [ridOf 10, ridOf 20, ridOf 30],
          rightSibPageNo := 0 } { rid := ridOf 15, key := 15 } = Except.ok 1
      ∧ (leafOf 3 3 [10, 20, 30] 2).map usedKeys = some [10, 20, 30]
      ∧ (leafOf 3 3 [10, 20, 30, 15] 2).map usedKeys = some [10]
      ∧ (leafOf 3 3 [10, 20, 30, 15] 3).map usedKeys = some [20, 30, 15] := by
  refine ⟨?_, ?_, ?_, ?_⟩ <;> rfl

/-- C23 (the code departs from the claim).  With leaf capacity 4 the keys 10,
20, 30, 40 fill the root leaf and key 25 splits it: 30 and 40 move to the new
leaf, 25 is appended behind them, and the token carries the key 30 of slot 0.
The new leaf stores 25, a key below the token key. -/
theorem C23_token_key_above_stored_key :
    (splitLeafNodes 4
        { keyArray := [10, 20, 30, 40],
          ridArray := [ridOf 10, ridOf 20, ridOf 30, ridOf 40], rightSibPageNo := 0 }
        (zeroLeaf 4) 3 { rid := ridOf 25, key := 25 }).toOption.map
          (fun r => (usedKeys r.1, usedKeys r.2.1, r.2.2))
        = some ([10, 20], [30, 40, 25], 30)
      ∧ (leafOf 4 4 [10, 20, 30, 40, 25] 2).map usedKeys = some [10, 20]
      ∧ (leafOf 4 4 [10, 20, 30, 40, 25] 3).map usedKeys = some [30, 40, 25]
      ∧ (nonLeafOf 4 4 [10, 20, 30, 40, 25] 4).map (fun n => (n.keyArray, n.pageNoArray))
        = some ([30, 0, 0, 0], [2, 3, 0, 0, 0]) := by
  refine ⟨?_, ?_, ?_, ?_⟩ <;> rfl

/-- C24 (the code departs from the claim).  `splitLeaf` leaves the right
sibling of the original leaf as it was and makes the new leaf its own right
sibling: for a full leaf with right sibling 7 and the new page 9 the two
links are 7 and 9, and after the first split of a built index (original leaf
in page 2 with no sibling, new leaf in page 3) they are 0 and 3. -/
theorem C24_split_keeps_old_link :
    (splitLeafNodes 4
        { keyArray := [10, 20, 30, 40],
          ridArray := [ridOf 10, ridOf 20, ridOf 30, ridOf 40], rightSibPageNo := 7 }
        (zeroLeaf 4) 9 { rid := ridOf 50, key := 50 }).toOption.map
          (fun r => (r.1.rightSibPageNo, r.2.1.rightSibPageNo))
        = some (7, 9)
      ∧ (leafOf 4 4 [10, 20, 30, 40] 2).map (fun n => n.rightSibPageNo) = some 0
      ∧ (leafOf 4 4 [10, 20, 30, 40, 50] 2).map (fun n => n.rightSibPageNo) = some 0
      ∧ (leafOf 4 4 [10, 20, 30, 40, 50] 3).map (fun n => n.rightSibPageNo) = some 3 := by
  refine ⟨?_, ?_, ?_, ?_⟩ <;> rfl

/-- C25 (the code departs from the claim).  With leaf capacity 2 and node
capacity 3 the keys 1..5 fill the root (keys 2,3,4, children 2,3,5,6); key 6
splits leaf 6 and hands the token (7, 5) to the full root, and `splitNonLeaf`
stops in its copy loop at the write to `keyArray[3]`, one slot past the array.
With node capacity 4 the first turn of the loop (push index 1) stays inside
the arrays: it copies the child of slot 3, not that of slot 2, to the new
node, and zeroes key 40 of slot 3 before the next turn can copy it. -/
theorem C25_splitNonLeaf_leaves_arrays :
    nonLeafOf 2 3 [1, 2, 3, 4, 5] 4
        = some { level := 1, keyArray := [2, 3, 4], pageNoArray := [2, 3, 5, 6] }
      ∧ splitNonLeafNodes 3 { level := 1, keyArray := [2, 3, 4], pageNoArray := [2, 3, 5, 6] }
          (zeroNonLeaf 3) { pageNo := 7, key := 5 } = Except.error Err.outOfBounds
      ∧ errOf (buildIndex 2 3 (entriesOf [1, 2, 3, 4, 5, 6])) = some Err.outOfBounds
      ∧ pushIndexOf 4 { level := 1, keyArray := [10, 20, 30, 40], pageNoArray := [2, 3, 5, 6, 7] }
          { pageNo := 8, key := 5 } = Except.ok 1
      ∧ splitNonLeafStep 2 2
          { level := 1, keyArray := [10, 20, 30, 40], pageNoArray := [2, 3, 5, 6, 7] }
          (zeroNonLeaf 4)
        = Except.ok
            ({ level := 1, keyArray := [10, 20, 30, 0], pageNoArray := [2, 3, 5, 0, 7] },
             { level := 0, keyArray := [30, 0, 0, 0], pageNoArray := [6, 0, 0, 0, 0] }) := by
  refine ⟨?_, ?_, ?_, ?_, ?_⟩ <;> rfl

/-! ### Scans across a sibling link (C29, C30) -/

theorem startScanWhile_sampleLoop (X : LeafNodeInt)
    (hX : X = { keyArray := [1, 2, 0, 0],
                ridArray := [ridOf 1, ridOf 2, ⟨0, 0⟩, ⟨0, 0⟩], rightSibPageNo := 3 }) :
    ∀ fuel, startScanWhile X fuel sampleChainedLoop
      = Except.error (Err.outOfFuel, sampleChainedLoop) := by
  subst hX
  intro fuel
  induction fuel with
  | zero => rfl
  | succ n ih =>
    have h1 : startScanFor
        { keyArray := [1, 2, 0, 0],
          ridArray := [ridOf 1, ridOf 2, ⟨0, 0⟩, ⟨0, 0⟩], rightSibPageNo := 3 }
        sampleChainedLoop.leafOccupancy 0 sampleChainedLoop
        = Except.ok (false, sampleChainedLoop) := by rfl
    unfold startScanWhile
    rw [h1]
    exact ih

/-- C29 (the code departs from the claim).  On the index file with the leaves
1,2 (page 2) and 3,4 (page 3) chained, `startScan` for the range (> 2, <= 4)
reaches leaf 2, finds no key in the range, and moves to page 3.  The loop then
examines the entries of leaf 2 again, since `leafNode` still points to it, and
so on: whatever bound is put on its turns, the loop uses all of them and never
is Positioned on page 3. -/
theorem C29_search_never_reads_sibling :
    ∀ fuel, ∃ t, startScan fuel sampleChained 2 Operator.GT 4 Operator.LTE
      = Except.error (Err.outOfFuel, t) := by
  intro fuel
  cases fuel with
  | zero => exact ⟨_, rfl⟩
  | succ n =>
    cases n with
    | zero => exact ⟨_, rfl⟩
    | succ k =>
      refine ⟨sampleChainedLoop, ?_⟩
      have h0 : startScan (k + 2) sampleChained 2 Operator.GT 4 Operator.LTE
          = startScanWhile
              { keyArray := [1, 2, 0, 0],
                ridArray := [ridOf 1, ridOf 2, ⟨0, 0⟩, ⟨0, 0⟩], rightSibPageNo := 3 }
              (k + 1) sampleChainedLoop := by rfl
      rw [h0]
      exact startScanWhile_sampleLoop _ rfl (k + 1)

/-- C30 (the code departs from the claim).  On the index file with the leaves
1,2 (page 2) and 3,4 (page 3) chained, the scan of the range (>= 2, <= 4) is
Positioned on slot 1 of page 2.  The first `scanNext` returns the record id of
key 2.  The second one reads the unused slot 2, moves to page 3, tests key 3 of
its slot 0, advances the cursor to slot 1 and returns the record id read from
the unused slot, with page number 0.  The third one returns the record id of
key 4: that of key 3 is never returned. -/
theorem C30_sibling_first_entry_skipped :
    (objectOf (startScan 6 sampleChained 2 Operator.GTE 4 Operator.LTE)).currentPageNum = 2
      ∧ (objectOf (startScan 6 sampleChained 2 Operator.GTE 4 Operator.LTE)).nextEntry = 1
      ∧ (nthScanNext 1 (objectOf (startScan 6 sampleChained 2 Operator.GTE 4 Operator.LTE))
          ).toOption.map (fun r => (r.1, r.2.currentPageNum, r.2.nextEntry))
        = some ({ page_number := 0, slot_number := 0 }, 3, 1)
      ∧ (scanAll 6 (objectOf (startScan 6 sampleChained 2 Operator.GTE 4 Operator.LTE))).1
        = [ridOf 2, { page_number := 0, slot_number := 0 }, ridOf 4]
      ∧ (scanAll 6 (objectOf (startScan 6 sampleChained 2 Operator.GTE 4 Operator.LTE))).2.1
        = Err.IndexScanCompletedException := by
  refine ⟨?_, ?_, ?_, ?_, ?_⟩ <;> rfl

/-! ### Root promotion (C26) -/

theorem updateRootNode_keys {N : Nat} {level : Int} {firstPid : Nat} {tok : PageKeyPair}
    {R : NonLeafNodeInt}
    (h : updateRootNode (zeroNonLeaf N) level firstPid tok = Except.ok R) :
    ∀ j k, 1 ≤ j → R.keyArray[j]? = some k → k = 0 := by
  unfold updateRootNode at h
  cases h1 : wr (zeroNonLeaf N).pageNoArray 0 firstPid with
  | error er => rw [h1] at h; cases h
  | ok pages =>
    rw [h1] at h
    simp only at h
    cases h2 : wr pages 1 tok.pageNo with
    | error er => rw [h2] at h; cases h
    | ok pages2 =>
      rw [h2] at h
      simp only at h
      cases h3 : wr (zeroNonLeaf N).keyArray 0 tok.key with
      | error er => rw [h3] at h; cases h
      | ok keys =>
        rw [h3] at h
        simp only at h
        injection h with h
        subst h
        intro j k hj hjk
        simp only at hjk
        unfold wr at h3
        rw [if_neg (by decide)] at h3
        split at h3
        · injection h3 with h3
          subst h3
          rw [List.getElem?_set_ne (by simp; omega)] at hjk
          simp only [zeroNonLeaf] at hjk
          rw [List.getElem?_replicate] at hjk
          split at hjk
          · injection hjk with hjk; exact hjk.symm
          · cases hjk
        · cases h3

/-- The page of the new root holds the node that `updateRootNode` makes of a
zeroed page. -/
theorem updateRoot_node {s t : BTreeIndex} {firstPid : Nat} {tok : PageKeyPair}
    (h : updateRoot s firstPid tok = Except.ok t) :
    ∃ R, updateRootNode (zeroNonLeaf s.nodeOccupancy)
        (if s.initialRootPageNum = s.rootPageNum then 1 else 0) firstPid tok = Except.ok R
      ∧ (pageOf s s.headerPageNum ≠ none → pageOf t (s.bufPool.length + 1)
          = some (Page.nonLeaf R)) := by
  have hblank : pageOf (allocPage s).2 (allocPage s).1 = some Page.blank :=
    pageOf_allocPage_new s
  unfold updateRoot at h
  simp only at h
  rw [getNonLeaf_of_blank hblank] at h
  simp only at h
  cases h2 : updateRootNode (zeroNonLeaf (allocPage s).2.nodeOccupancy)
      (if (allocPage s).2.initialRootPageNum = (allocPage s).2.rootPageNum then 1 else 0)
      firstPid tok with
  | error er => rw [h2] at h; simp only [liftE] at h; cases h
  | ok R =>
    rw [h2] at h
    simp only [liftE] at h
    refine ⟨R, h2, ?_⟩
    intro hhead
    have hne : s.headerPageNum ≠ s.bufPool.length + 1 := by
      intro hc
      apply hhead
      rw [hc]
      unfold pageOf
      rw [getFrame_new_none]; rfl
    cases h3 : readPage (putPage (allocPage s).2 (allocPage s).1 (Page.nonLeaf R))
        (allocPage s).2.headerPageNum with
    | error er => rw [h3] at h; cases h
    | ok s3 =>
      rw [h3] at h
      simp only at h
      cases h4 : getMeta s3 (allocPage s).2.headerPageNum with
      | error er => rw [h4] at h; cases h
      | ok metaPage =>
        rw [h4] at h
        simp only at h
        injection h with h
        subst h
        have hn : (allocPage s).1 = s.bufPool.length + 1 := rfl
        have hh : (allocPage s).2.headerPageNum = s.headerPageNum := rfl
        rw [pageOf_unPinPage, pageOf_unPinPage]
        show pageOf (putPage s3 (allocPage s).2.headerPageNum _) _ = _
        rw [hh, pageOf_putPage_ne _ _ (Ne.symm hne), pageOf_readPage h3, hn,
          pageOf_putPage_self _ _ _ (by rw [← hn]; exact hblank)]

/-- C26: `updateRoot` after a split of the root (token `tok`, header a meta
page, page ids non-zero) returns; the new root is stored in a page the file
did not have before, has the size of a node, exactly the two used children
old root and `tok.pageNo`, the key `tok.key` in slot 0 and zero in every other
key slot, and level 1 if `rootPageNum` was still `initialRootPageNum` and 0
otherwise; `rootPageNo` of the meta page and `rootPageNum` are the new page id,
the other members of the object and every other page are as before. -/
theorem C26_updateRoot_new_root (s : BTreeIndex) (tok : PageKeyPair) (m : IndexMetaInfo)
    (hN : 1 ≤ s.nodeOccupancy)
    (hm : pageOf s s.headerPageNum = some (Page.meta m))
    (hroot : s.rootPageNum ≠ 0) (htok : tok.pageNo ≠ 0) :
    ∃ t R, updateRoot s s.rootPageNum tok = Except.ok t
      ∧ pageOf s (s.bufPool.length + 1) = none
      ∧ t.bufPool.length = s.bufPool.length + 1
      ∧ pageOf t (s.bufPool.length + 1) = some (Page.nonLeaf R)
      ∧ NonLeafSized s.nodeOccupancy R
      ∧ UsedChildren R.pageNoArray 2
      ∧ R.pageNoArray[0]? = some s.rootPageNum ∧ R.pageNoArray[1]? = some tok.pageNo
      ∧ R.keyArray[0]? = some tok.key
      ∧ (∀ j k, 1 ≤ j → R.keyArray[j]? = some k → k = 0)
      ∧ R.level = (if s.initialRootPageNum = s.rootPageNum then 1 else 0)
      ∧ pageOf t s.headerPageNum
          = some (Page.meta { m with rootPageNo := s.bufPool.length + 1 })
      ∧ t.rootPageNum = s.bufPool.length + 1
      ∧ confOf t = confOf s
      ∧ (∀ q, q ≠ s.bufPool.length + 1 → q ≠ s.headerPageNum → pageOf t q = pageOf s q) := by
  obtain ⟨t, R, ht, c1, c2, c3, c4, c5, c6, c7, c8, c9, c10, c11, c12⟩ :=
    updateRoot_spec s.rootPageNum tok hN hm
  obtain ⟨R2, hR2, hpage⟩ := updateRoot_node ht
  have hRR : R2 = R := by
    have := hpage (by rw [hm]; simp)
    rw [c4] at this
    injection this with this
    injection this with this
    exact this.symm
  subst hRR
  have hnone : pageOf s (s.bufPool.length + 1) = none := by
    unfold pageOf; rw [getFrame_new_none]; rfl
  refine ⟨t, R2, ht, hnone, c3, c4, c6, ?_, c7, c8, c9, updateRootNode_keys hR2, c5, c11, c2,
    c1, c12⟩
  refine ⟨by rw [c6.2]; omega, ?_⟩
  intro j p hjp
  constructor
  · intro hp0
    by_contra hj
    exact hp0 (c10 j p (by omega) hjp)
  · intro hj
    have : j = 0 ∨ j = 1 := by omega
    rcases this with rfl | rfl
    · rw [c7] at hjp; injection hjp with hjp; rw [← hjp]; exact hroot
    · rw [c8] at hjp; injection hjp with hjp; rw [← hjp]; exact htok

theorem C26_updateRoot_new_root_witness :
    ∃ t R, updateRoot (objectOf (buildIndex 4 4 (entriesOf [10, 20, 30, 40])))
        (objectOf (buildIndex 4 4 (entriesOf [10, 20, 30, 40]))).rootPageNum
        { pageNo := 3, key := 30 } = Except.ok t
      ∧ pageOf t 3 = some (Page.nonLeaf R)
      ∧ UsedChildren R.pageNoArray 2
      ∧ R.pageNoArray[0]? = some 2 ∧ R.pageNoArray[1]? = some 3
      ∧ R.keyArray[0]? = some 30 ∧ R.level = 1 ∧ t.rootPageNum = 3 := by
  obtain ⟨t, R, h1, _, _, h4, _, h6, h7, h8, h9, _, h11, _, h13, _, _⟩ :=
    C26_updateRoot_new_root (objectOf (buildIndex 4 4 (entriesOf [10, 20, 30, 40])))
      { pageNo := 3, key := 30 }
      { relationName := [], attrByteOffset := 0, attrType := Datatype.INTEGER, rootPageNo := 2 }
      (by decide) rfl (by decide) (by decide)
  exact ⟨t, R, h1, h4, h6, h7, h8, h9, h11, h13⟩

/-! ### The entries of a split leaf (C21) -/

/-- The used slots and the used entries of a leaf after `leafInsertion`. -/
theorem leafInsertion_entries {L : Nat} {node n1 : LeafNodeInt} {m : Nat} {e : RIDKeyPair}
    (hs : LeafSized L node) (hu : UsedPrefix node.ridArray m) (hm : m < L)
    (he : e.rid.page_number ≠ 0) (h : leafInsertion L node e = Except.ok n1) :
    UsedPrefix n1.ridArray (m + 1)
      ∧ usedEntries n1 = usedEntries node ++ [(e.key, e.rid)]
      ∧ n1.ridArray[m]? = some e.rid ∧ n1.keyArray[m]? = some e.key := by
  obtain ⟨n', h1, _, h3, h4, h5, h6, h7⟩ := leafInsertion_spec e hs hu hm
  rw [h1] at h
  injection h with h
  subst h
  have hu1 : UsedPrefix n'.ridArray (m + 1) := by
    refine ⟨by rw [h3.2]; omega, ?_⟩
    intro j r hjr
    rcases Nat.lt_trichotomy j m with hj | hj | hj
    · rw [(h6 j hj).2] at hjr
      rw [hu.2 j r hjr]; omega
    · subst hj
      rw [h5] at hjr
      injection hjr with hjr
      subst hjr
      exact ⟨fun _ => by omega, fun _ => he⟩
    · have := h7 j r hj hjr
      exact ⟨fun hc => absurd this hc, fun hc => by omega⟩
  refine ⟨hu1, ?_, h5, h4⟩
  have hz : (n'.keyArray.zip n'.ridArray)[m]? = some (e.key, e.rid) :=
    List.getElem?_zip_eq_some.2 ⟨h4, h5⟩
  rw [usedEntries_eq_take hu1, usedEntries_eq_take hu, List.take_succ, hz]
  show _ ++ [(e.key, e.rid)] = _ ++ [(e.key, e.rid)]
  congr 1
  apply List.ext_getElem?
  intro j
  rw [List.getElem?_take, List.getElem?_take]
  by_cases hj : j < m
  · rw [if_pos hj, if_pos hj]
    apply Option.ext
    intro z
    simp only [Option.mem_def]
    rw [List.getElem?_zip_eq_some, List.getElem?_zip_eq_some, (h6 j hj).1, (h6 j hj).2]
  · rw [if_neg hj, if_neg hj]

/-- The key slots behind the stored entry are zero after `leafInsertion` if
the key slots behind the used ones were zero before. -/
theorem leafInsertion_tail {L : Nat} {node n1 : LeafNodeInt} {m : Nat} {e : RIDKeyPair}
    (hs : LeafSized L node) (hu : UsedPrefix node.ridArray m) (h0 : 0 < m) (hm : m < L)
    (hz : ∀ j k, m ≤ j → node.keyArray[j]? = some k → k = 0)
    (h : leafInsertion L node e = Except.ok n1) :
    ∀ j k, m < j → n1.keyArray[j]? = some k → k = 0 := by
  obtain ⟨hk, hr⟩ := hs
  unfold leafInsertion at h
  rw [show (0 : Int) = ((0 : Nat) : Int) from rfl, rd_nat_of_lt node.ridArray 0 (by omega)] at h
  simp only [bind, Except.bind, pure, Except.pure] at h
  have hne : ¬ node.ridArray[0].page_number = 0 :=
    (hu.2 0 _ (List.getElem?_eq_getElem (by omega))).2 h0
  rw [if_neg hne, leafSkipEmpty_usedPrefix hu L (by omega) (by omega)] at h
  simp only at h
  obtain ⟨m', rfl⟩ : ∃ m', m = m' + 1 := ⟨m - 1, by omega⟩
  have e1 : ((m' + 1 : Nat) : Int) - 1 = (m' : Int) := by push_cast; ring
  have e2 : ((m' + 1 : Nat) : Int) - 1 + 1 = ((m' + 1 : Nat) : Int) := by ring
  rw [e2, e1] at h
  obtain ⟨ks, hmk⟩ : ∃ ks, memmove node.keyArray ((m' + 1 : Nat) : Int) (m' : Int)
      (L - (m' + 1)) = Except.ok ks :=
    ⟨_, memmove_nat node.keyArray (m' + 1) m' (L - (m' + 1)) (by omega) (by omega)⟩
  obtain ⟨rs, hmr⟩ : ∃ rs, memmove node.ridArray ((m' + 1 : Nat) : Int) (m' : Int)
      (L - (m' + 1)) = Except.ok rs :=
    ⟨_, memmove_nat node.ridArray (m' + 1) m' (L - (m' + 1)) (by omega) (by omega)⟩
  rw [hmk, hmr] at h
  simp only at h
  have hlk := memmove_length hmk
  have hlr := memmove_length hmr
  rw [wr_nat_of_lt _ (m' + 1) _ (by omega), wr_nat_of_lt _ (m' + 1) _ (by omega)] at h
  simp only at h
  injection h with h
  subst h
  intro j k hj hjk
  simp only [List.getElem?_set] at hjk
  rw [if_neg (by omega), memmove_getElem? hmk j] at hjk
  by_cases hjL : j < L
  · rw [if_pos ⟨by omega, by omega⟩] at hjk
    exact hz _ k (by omega) hjk
  · rw [if_neg (by omega), List.getElem?_eq_none (by omega)] at hjk
    cases hjk

/-- What `splitLeafNodes` does with the entries of a full leaf: the first
`midPt` stay, the others move to the front of the new leaf, and the incoming
entry is stored behind those of one of the two leaves; the slots of the
original leaf from `midPt` on are zeroed, except the one that receives the
incoming entry. -/
theorem splitLeafNodes_entries {L : Nat} {node newLeaf : LeafNodeInt} (e : RIDKeyPair) (q : Nat)
    (hL : 2 ≤ L)
    (hs : LeafSized L node)
    (hfull : UsedPrefix node.ridArray L)
    (hns : LeafSized L newLeaf)
    (hempty : UsedPrefix newLeaf.ridArray 0)
    (he : e.rid.page_number ≠ 0) :
    ∃ midPt n1 n2 k0, splitLeafMidPt L node e = Except.ok midPt ∧ 1 ≤ midPt ∧ midPt < L
      ∧ splitLeafNodes L node newLeaf q e = Except.ok (n1, n2, k0)
      ∧ (usedEntries node).length = L
      ∧ ((usedEntries n1 = (usedEntries node).take midPt
            ∧ usedEntries n2 = (usedEntries node).drop midPt ++ [(e.key, e.rid)])
          ∨ (usedEntries n1 = (usedEntries node).take midPt ++ [(e.key, e.rid)]
            ∧ usedEntries n2 = (usedEntries node).drop midPt))
      ∧ (∀ j r, midPt ≤ j → n1.ridArray[j]? = some r →
            r.page_number = 0 ∨ (j = midPt ∧ r = e.rid))
      ∧ (∀ j k, midPt ≤ j → n1.keyArray[j]? = some k → k = 0 ∨ (j = midPt ∧ k = e.key)) := by
  obtain ⟨midPt, hmid, hm1, hm2, _⟩ := splitLeafMidPt_spec e hL hs
  obtain ⟨a1, a2, hloop, t1, t2, t3, t5, t7, t8, t9, t10⟩ :=
    splitLeafLoop_full hm1 hm2 hs hfull hns hempty
  obtain ⟨b1, b2, hloop2, _, _, _, _, s7, _, _, _⟩ :=
    splitLeafLoop_spec L midPt (L - midPt) midPt node newLeaf (by omega) (le_refl _) hs hns
  rw [hloop] at hloop2
  injection hloop2 with hloop2
  injection hloop2 with hb1 hb2
  subst hb1; subst hb2
  -- the entries of the full leaf and of the two leaves after the loop
  have hlen : (node.keyArray.zip node.ridArray).length = L := by
    rw [List.length_zip, hs.1, hs.2, Nat.min_self]
  have hE : usedEntries node = node.keyArray.zip node.ridArray := by
    rw [usedEntries_eq_take hfull, List.take_of_length_le (by omega)]
  have hA1 : usedEntries a1 = (usedEntries node).take midPt := by
    rw [usedEntries_eq_take t7, hE]
    apply List.ext_getElem?
    intro j
    rw [List.getElem?_take, List.getElem?_take]
    by_cases hj : j < midPt
    · rw [if_pos hj, if_pos hj]
      apply Option.ext
      intro z
      simp only [Option.mem_def]
      rw [List.getElem?_zip_eq_some, List.getElem?_zip_eq_some, (t9 j hj).1, (t9 j hj).2]
    · rw [if_neg hj, if_neg hj]
  have hA2 : usedEntries a2 = (usedEntries node).drop midPt := by
    rw [usedEntries_eq_take t8, hE]
    apply List.ext_getElem?
    intro j
    rw [List.getElem?_take, List.getElem?_drop]
    by_cases hj : j < L - midPt
    · rw [if_pos hj]
      apply Option.ext
      intro z
      simp only [Option.mem_def]
      rw [List.getElem?_zip_eq_some, List.getElem?_zip_eq_some, (t10 j hj).1, (t10 j hj).2,
        Nat.add_comm j midPt]
    · rw [if_neg hj, List.getElem?_eq_none (by omega)]
  have hzero : ∀ j k, midPt ≤ j → a1.keyArray[j]? = some k → k = 0 := by
    intro j k hj hjk
    rw [s7 j] at hjk
    by_cases hjL : j < L
    · rw [if_pos ⟨hj, hjL⟩] at hjk
      injection hjk with hjk; exact hjk.symm
    · rw [if_neg (by omega), List.getElem?_eq_none (by rw [hs.1]; omega)] at hjk
      cases hjk
  obtain ⟨mp, rfl⟩ : ∃ mp, midPt = mp + 1 := ⟨midPt - 1, by omega⟩
  have e1 : ((mp + 1 : Nat) : Int) - 1 = (mp : Int) := by push_cast; ring
  have hz : 0 < L - (mp + 1) := by omega
  have ha2 := t10 0 hz
  rw [Nat.zero_add] at ha2
  have hbk : mp + 1 < node.keyArray.length := hs.keyLt hm2
  have hmK : node.keyArray[mp + 1]? = some node.keyArray[mp + 1] :=
    List.getElem?_eq_getElem hbk
  unfold splitLeafNodes
  rw [hmid]
  simp only
  rw [hloop]
  simp only
  unfold splitLeafInsert
  have hmp : mp < a1.keyArray.length := t3.keyLt (by omega)
  rw [e1, rd_nat_of_lt a1.keyArray mp hmp]
  simp only
  by_cases hgt : e.key > a1.keyArray[mp]
  · rw [if_pos hgt]
    obtain ⟨n', hn, _, _, u3⟩ := leafInsertion_leafOK e t5 t8 (by omega)
    have u3' := u3 hz
    obtain ⟨_, hent, _, _⟩ := leafInsertion_entries t5 t8 (by omega) he hn
    rw [hn]
    simp only
    have hk0 : n'.keyArray[0]? = some node.keyArray[mp + 1] := by
      rw [u3'.1, ha2.1, hmK]
    rw [show (0 : Int) = ((0 : Nat) : Int) from rfl, (rd_nat _ _ _).2 hk0]
    refine ⟨mp + 1, _, _, _, rfl, hm1, hm2, rfl, by rw [hE, hlen], Or.inl ⟨hA1, ?_⟩, ?_, ?_⟩
    · show usedEntries n' = _
      rw [hent, hA2]
    · intro j r hj hjr
      left
      by_contra hc
      have := (t7.2 j r hjr).1 hc
      omega
    · intro j k hj hjk
      exact Or.inl (hzero j k hj hjk)
  · rw [if_neg hgt]
    obtain ⟨n', hn, _, _, _⟩ := leafInsertion_leafOK e t3 t7 hm2
    obtain ⟨hu1, hent, hr1, hk1⟩ := leafInsertion_entries t3 t7 hm2 he hn
    have htail := leafInsertion_tail t3 t7 (by omega) hm2 hzero hn
    rw [hn]
    simp only
    have hk0 : a2.keyArray[0]? = some node.keyArray[mp + 1] := by
      rw [ha2.1, hmK]
    rw [show (0 : Int) = ((0 : Nat) : Int) from rfl, (rd_nat _ _ _).2 hk0]
    refine ⟨mp + 1, _, _, _, rfl, hm1, hm2, rfl, by rw [hE, hlen], Or.inr ⟨?_, hA2⟩, ?_, ?_⟩
    · rw [hent, hA1]
    · intro j r hj hjr
      rcases Nat.eq_or_lt_of_le hj with hj1 | hj1
      · subst hj1
        rw [hr1] at hjr
        injection hjr with hjr
        exact Or.inr ⟨rfl, hjr.symm⟩
      · left
        by_contra hc
        have := (hu1.2 j r hjr).1 hc
        omega
    · intro j k hj hjk
      rcases Nat.eq_or_lt_of_le hj with hj1 | hj1
      · subst hj1
        rw [hk1] at hjk
        injection hjk with hjk
        exact Or.inr ⟨rfl, hjk.symm⟩
      · exact Or.inl (htail j k hj1 hjk)

theorem splitFinish_tok {s t : BTreeIndex} {p np : Nat} {tok tok1 : PageKeyPair}
    (h : splitFinish s p np tok = Except.ok (tok1, t)) : tok1 = tok := by
  unfold splitFinish at h
  simp only at h
  split at h
  · cases h3 : updateRoot (unPinPage (unPinPage s p true) np true) p tok with
    | error er => rw [h3] at h; cases h
    | ok s2 =>
      rw [h3] at h
      simp only at h
      injection h with h
      injection h with h _
      exact h.symm
  · injection h with h
    injection h with h _
    exact h.symm

/-- The new page of a split leaf holds the new leaf that `splitLeafNodes` made,
and the token names that page and carries the key that `splitLeafNodes`
returned. -/
theorem splitLeaf_newPage {s t : BTreeIndex} {p : Nat} {node n1 n2 : LeafNodeInt} {k0 : Int}
    {e : RIDKeyPair} {tok : PageKeyPair} {m : IndexMetaInfo}
    (hp : pageOf s p = some (Page.leaf node))
    (hm : pageOf s s.headerPageNum = some (Page.meta m))
    (hnodes : splitLeafNodes s.leafOccupancy node (zeroLeaf s.leafOccupancy)
      (s.bufPool.length + 1) e = Except.ok (n1, n2, k0))
    (h : splitLeaf s p e = Except.ok (tok, t)) :
    pageOf t (s.bufPool.length + 1) = some (Page.leaf n2)
      ∧ tok = { pageNo := s.bufPool.length + 1, key := k0 } := by
  have hpne : p ≠ s.bufPool.length + 1 := pageOf_some_ne_new hp
  have hhne : s.headerPageNum ≠ s.bufPool.length + 1 := pageOf_some_ne_new hm
  have hp1 : pageOf (allocPage s).2 p = some (Page.leaf node) := by
    rw [pageOf_allocPage_old _ hpne, hp]
  have hq1 : pageOf (allocPage s).2 (s.bufPool.length + 1) = some Page.blank :=
    pageOf_allocPage_new s
  unfold splitLeaf at h
  simp only at h
  have hn : (allocPage s).1 = s.bufPool.length + 1 := rfl
  have hLo : (allocPage s).2.leafOccupancy = s.leafOccupancy := rfl
  rw [hn, getLeaf_of_pageOf hp1] at h
  simp only at h
  rw [getLeaf_of_blank hq1] at h
  simp only at h
  rw [hLo, hnodes] at h
  simp only [liftE] at h
  have e1 : (putPage (putPage (allocPage s).2 p (Page.leaf n1)) (s.bufPool.length + 1)
      (Page.leaf n2)).headerPageNum = s.headerPageNum :=
    confOf_header (by rw [confOf_putPage, confOf_putPage]; rfl)
  have hq2 : pageOf (putPage (allocPage s).2 p (Page.leaf n1)) (s.bufPool.length + 1)
      = some Page.blank := by
    rw [pageOf_putPage_ne _ _ (Ne.symm hpne), hq1]
  refine ⟨?_, splitFinish_tok h⟩
  rw [splitFinish_page h (s.bufPool.length + 1) (by rw [e1]; exact Ne.symm hhne)
    (by rw [length_putPage, length_putPage, allocPage_length]; omega),
    pageOf_putPage_self _ _ _ hq2]

/-- C21: `splitLeaf` on a full leaf of capacity at least 2, for an entry whose
record id has a non-zero page number, returns; with `midPt` the midpoint it
computes, the used entries of the two leaves together are those of the full
leaf plus the incoming one, each once; the entries from `midPt` on are the
first entries of the new leaf, in their order, and those before `midPt` the
first entries of the original leaf; the incoming entry is the last entry of
one of the two; and every slot of the original leaf from `midPt` on has page
number 0 and key 0, except slot `midPt` when it holds the incoming entry. -/
theorem C21_splitLeaf_conserves_entries (s : BTreeIndex) (p : Nat) (node : LeafNodeInt)
    (e : RIDKeyPair) (m : IndexMetaInfo)
    (hL : 2 ≤ s.leafOccupancy) (hN : 1 ≤ s.nodeOccupancy)
    (hp : pageOf s p = some (Page.leaf node))
    (hs : LeafSized s.leafOccupancy node) (hfull : UsedPrefix node.ridArray s.leafOccupancy)
    (hm : pageOf s s.headerPageNum = some (Page.meta m))
    (he : e.rid.page_number ≠ 0) :
    ∃ tok t n1 n2 midPt, splitLeaf s p e = Except.ok (tok, t)
      ∧ pageOf t p = some (Page.leaf n1)
      ∧ pageOf t (s.bufPool.length + 1) = some (Page.leaf n2)
      ∧ splitLeafMidPt s.leafOccupancy node e = Except.ok midPt
      ∧ 1 ≤ midPt ∧ midPt < s.leafOccupancy
      ∧ (usedEntries node).length = s.leafOccupancy
      ∧ List.Perm (usedEntries n1 ++ usedEntries n2) (usedEntries node ++ [(e.key, e.rid)])
      ∧ ((usedEntries n1 = (usedEntries node).take midPt
            ∧ usedEntries n2 = (usedEntries node).drop midPt ++ [(e.key, e.rid)])
          ∨ (usedEntries n1 = (usedEntries node).take midPt ++ [(e.key, e.rid)]
            ∧ usedEntries n2 = (usedEntries node).drop midPt))
      ∧ (∀ j r, midPt ≤ j → n1.ridArray[j]? = some r →
            r.page_number = 0 ∨ (j = midPt ∧ r = e.rid))
      ∧ (∀ j k, midPt ≤ j → n1.keyArray[j]? = some k → k = 0 ∨ (j = midPt ∧ k = e.key)) := by
  obtain ⟨tok, t, _, _, hsplit, _⟩ := splitLeaf_spec e hL hN hp hs hfull hm
  obtain ⟨midPt, n1, n2, k0, hmid, hm1, hm2, hnodes, hlen, hcase, hr, hk⟩ :=
    splitLeafNodes_entries e (s.bufPool.length + 1) hL hs hfull (zeroLeaf_sized _)
      (zeroLeaf_empty _) he
  refine ⟨tok, t, n1, n2, midPt, hsplit, splitLeaf_page hp hm hnodes hsplit,
    (splitLeaf_newPage hp hm hnodes hsplit).1, hmid, hm1, hm2, hlen, ?_, hcase, hr, hk⟩
  rcases hcase with ⟨c1, c2⟩ | ⟨c1, c2⟩
  · rw [c1, c2, ← List.append_assoc, List.take_append_drop]
  · rw [c1, c2, List.append_assoc]
    have h1 : List.Perm ([(e.key, e.rid)] ++ List.drop midPt (usedEntries node))
        (List.drop midPt (usedEntries node) ++ [(e.key, e.rid)]) := List.perm_append_comm
    have h2 := List.Perm.append_left (List.take midPt (usedEntries node)) h1
    have h3 : List.take midPt (usedEntries node)
        ++ (List.drop midPt (usedEntries node) ++ [(e.key, e.rid)])
        = usedEntries node ++ [(e.key, e.rid)] := by
      rw [← List.append_assoc, List.take_append_drop]
    rw [h3] at h2
    exact h2

theorem C21_splitLeaf_conserves_entries_witness :
    ∃ tok t n1 n2, splitLeaf (objectOf (buildIndex 4 4 (entriesOf [10, 20, 30, 40]))) 2
          { rid := ridOf 25, key := 25 } = Except.ok (tok, t)
      ∧ pageOf t 2 = some (Page.leaf n1) ∧ pageOf t 3 = some (Page.leaf n2)
      ∧ List.Perm (usedEntries n1 ++ usedEntries n2)
          [(10, ridOf 10), (20, ridOf 20), (30, ridOf 30), (40, ridOf 40), (25, ridOf 25)] := by
  obtain ⟨tok, t, n1, n2, _, h1, h2, h3, _, _, _, _, h8, _⟩ :=
    C21_splitLeaf_conserves_entries (objectOf (buildIndex 4 4 (entriesOf [10, 20, 30, 40]))) 2
      { keyArray := [10, 20, 30, 40], ridArray := [ridOf 10, ridOf 20, ridOf 30, ridOf 40],
        rightSibPageNo := 0 }
      { rid := ridOf 25, key := 25 }
      { relationName := [], attrByteOffset := 0, attrType := Datatype.INTEGER, rootPageNo := 2 }
      (by decide) (by decide) rfl ⟨rfl, rfl⟩
      (show UsedPrefix [ridOf 10, ridOf 20, ridOf 30, ridOf 40] 4 from
        ⟨by decide, by
          intro j r hjr
          have hj : j < 4 := by
            by_contra hc
            rw [List.getElem?_eq_none (by simp; omega)] at hjr
            cases hjr
          interval_cases j <;> simp at hjr <;> subst hjr <;> simp [ridOf]⟩)
      rfl (by decide)
  exact ⟨tok, t, n1, n2, h1, h2, h3, h8⟩

/-! ### `startScan` on a single leaf (C28) -/

/-- C31: for a low operator GT or GTE and a high operator LT or LTE,
`checkSatisfy` returns true exactly if the value is above the low bound and
below the high bound, each bound strict or not as its operator says. -/
theorem C31_checkSatisfy_iff (lowVal highVal val : Int) (lowOp highOp : Operator)
    (hl : lowOp = Operator.GT ∨ lowOp = Operator.GTE)
    (hh : highOp = Operator.LT ∨ highOp = Operator.LTE) :
    checkSatisfy lowVal lowOp highVal highOp val = true
      ↔ withinBounds lowVal lowOp highVal highOp val := by
  rcases hl with hl | hl <;> rcases hh with hh | hh <;> subst hl <;> subst hh <;>
    simp [checkSatisfy, withinBounds]

theorem C31_checkSatisfy_iff_witness :
    (checkSatisfy 2 Operator.GTE 7 Operator.LT 2 = true
        ↔ withinBounds 2 Operator.GTE 7 Operator.LT 2)
      ∧ checkSatisfy 2 Operator.GTE 7 Operator.LT 2 = true
      ∧ checkSatisfy 2 Operator.GT 7 Operator.LT 2 = false
      ∧ checkSatisfy 2 Operator.GTE 7 Operator.LT 7 = false
      ∧ checkSatisfy 2 Operator.GTE 7 Operator.LTE 7 = true :=
  ⟨C31_checkSatisfy_iff 2 7 2 Operator.GTE Operator.LT (Or.inr rfl) (Or.inl rfl),
    by decide, by decide, by decide, by decide⟩

/-! ### Index safety of the non-leaf split (C33) -/

/-- C33 (the code departs from the claim).  On the full root with the keys
2,3,4 and the children 2,3,5,6 (node capacity 3) the push index is 1 and the
copy loop of `splitNonLeaf` has the single turn `i = 2`: the reads of
`pageNoArray[3]` and `keyArray[2]` and the write of `pageNoArray[3]` are
inside the arrays, the write `keyArray[i + 1] = 0` addresses slot 3 of the
three key slots.  Whatever the pending token, the split stops there.  With
node capacity 2 the split of the node with keys 10, 20 leaves the arrays as
well, in the loop for a token key below 20 and in `nonLeafInsertion` on the
empty new node otherwise. -/
theorem C33_split_addresses_slot_past_keyArray :
    pushIndexOf 3 { level := 1, keyArray := [2, 3, 4], pageNoArray := [2, 3, 5, 6] }
        { pageNo := 7, key := 5 } = Except.ok 1
      ∧ rd [2, 3, 5, 6] ((2 : Int) + 1) = Except.ok 6
      ∧ rd [2, 3, 4] (2 : Int) = Except.ok 4
      ∧ (wr [2, 3, 5, 6] ((2 : Int) + 1) 0).toOption = some [2, 3, 5, 0]
      ∧ wr [2, 3, 4] ((2 : Int) + 1) 0 = Except.error Err.outOfBounds
      ∧ splitNonLeafStep 2 2 { level := 1, keyArray := [2, 3, 4], pageNoArray := [2, 3, 5, 6] }
          (zeroNonLeaf 3) = Except.error Err.outOfBounds
      ∧ (∀ tok, splitNonLeafNodes 3
            { level := 1, keyArray := [2, 3, 4], pageNoArray := [2, 3, 5, 6] }
            (zeroNonLeaf 3) tok = Except.error Err.outOfBounds)
      ∧ splitNonLeafNodes 2 { level := 1, keyArray := [10, 20], pageNoArray := [2, 3, 5] }
          (zeroNonLeaf 2) { pageNo := 6, key := 5 } = Except.error Err.outOfBounds
      ∧ splitNonLeafNodes 2 { level := 1, keyArray := [10, 20], pageNoArray := [2, 3, 5] }
          (zeroNonLeaf 2) { pageNo := 6, key := 25 } = Except.error Err.outOfBounds
      ∧ nonLeafInsertion 2 (zeroNonLeaf 2) { pageNo := 6, key := 25 }
          = Except.error Err.outOfBounds := by
  refine ⟨rfl, rfl, rfl, rfl, rfl, rfl, fun _ => rfl, rfl, rfl, rfl⟩

/-! ### A `startScan` that fails its validation (C34) -/

/-- C34 (the code departs from the claim).  On the index with the keys 5, 6, 7
a scan is Positioned for the range (>= 5, <= 7); it would deliver the three
record ids.  `startScan(10, GT, 5, LT)` raises BadScanrangeException after it
has stored its arguments: the scan is still executing on slot 0 of page 2,
with the bounds and operators of the failed call, and the next `scanNext`
raises IndexScanCompletedException without a record id.  A call with a bad
operator leaves the object as it was. -/
theorem C34_badScanrange_overwrites_bounds :
    errOf (startScan 5 sampleThreePositioned 10 Operator.GT 5 Operator.LT)
        = some Err.BadScanrangeException
      ∧ (sampleThreePositioned.lowValInt, sampleThreePositioned.lowOp,
          sampleThreePositioned.highValInt, sampleThreePositioned.highOp)
        = (5, Operator.GTE, 7, Operator.LTE)
      ∧ (sampleAfterBadRange.lowValInt, sampleAfterBadRange.lowOp,
          sampleAfterBadRange.highValInt, sampleAfterBadRange.highOp)
        = (10, Operator.GT, 5, Operator.LT)
      ∧ (sampleAfterBadRange.scanExecuting, sampleAfterBadRange.currentPageNum,
          sampleAfterBadRange.nextEntry) = (true, 2, 0)
      ∧ (scanAll 5 sampleThreePositioned).1 = [ridOf 5, ridOf 6, ridOf 7]
      ∧ (scanAll 5 sampleAfterBadRange).1 = []
      ∧ (scanAll 5 sampleAfterBadRange).2.1 = Err.IndexScanCompletedException
      ∧ startScan 5 sampleThreePositioned 10 Operator.LT 5 Operator.LT
        = Except.error (Err.BadOpcodesException, sampleThreePositioned) := by
  refine ⟨?_, ?_, ?_, ?_, ?_, ?_, ?_, ?_⟩ <;> rfl

/-! ### Trees of any height under `insertEntry` -/

/-- A scan leaves a well-formed tree well formed: it writes neither a page nor
`rootPageNum`, the capacities, `headerPageNum` or `initialRootPageNum`. -/
theorem ScanFrame.keepsShape {L N : Nat} {s t : BTreeIndex} (h : ScanFrame s t)
    (hs : Shape L N s) : Shape L N t := by
  obtain ⟨hp, ha⟩ := h
  have e1 : t.headerPageNum = s.headerPageNum := congrArg (fun c => c.1) ha
  have e2 : t.rootPageNum = s.rootPageNum := congrArg (fun c => c.2.1) ha
  have e3 : t.leafOccupancy = s.leafOccupancy := congrArg (fun c => c.2.2.2.2.1) ha
  have e4 : t.nodeOccupancy = s.nodeOccupancy := congrArg (fun c => c.2.2.2.2.2.1) ha
  have e5 : t.initialRootPageNum = s.initialRootPageNum :=
    congrArg (fun c => c.2.2.2.2.2.2.2.2.2.2) ha
  refine ⟨by rw [e3]; exact hs.leafCap, by rw [e4]; exact hs.nodeCap, ?_, ?_, ?_, ?_, ?_⟩
  · obtain ⟨m, hm, hmr⟩ := hs.header
    exact ⟨m, by rw [e1, hp, hm], by rw [e2]; exact hmr⟩
  · intro p n hn; rw [hp] at hn; exact hs.leaves p n hn
  · intro p R hR
    rw [hp] at hR
    obtain ⟨a, b, c⟩ := hs.nodes p R hR
    refine ⟨a, b, ?_⟩
    intro j q hj hq
    obtain ⟨c1, c2⟩ := c j q hj hq
    exact ⟨fun hl => by rw [hp]; exact c1 hl, fun hl => by rw [hp]; exact c2 hl⟩
  · rw [e5, hp]; exact hs.initial
  · rw [e5, e2, hp]; exact hs.root

end badgerdb

namespace wl

/-! ### The word locator (C17) -/

theorem strLt_irrefl : ∀ a : List Char, strLt a a = false := by
  intro a
  induction a with
  | nil => rfl
  | cons c cs ih =>
    unfold strLt
    rw [if_neg (lt_irrefl _), if_neg (lt_irrefl _)]
    exact ih

theorem strLt_total : ∀ a b : List Char, a ≠ b → strLt a b = false → strLt b a = true := by
  intro a
  induction a with
  | nil =>
    intro b hne h
    cases b with
    | nil => exact absurd rfl hne
    | cons d ds => simp [strLt] at h
  | cons c cs ih =>
    intro b hne h
    cases b with
    | nil => rfl
    | cons d ds =>
      unfold strLt at h ⊢
      by_cases h1 : c.toNat < d.toNat
      · rw [if_pos h1] at h; cases h
      · rw [if_neg h1] at h
        by_cases h2 : d.toNat < c.toNat
        · rw [if_pos h2]
        · rw [if_neg h2] at h
          rw [if_neg h2, if_neg h1]
          have hcd : c = d := by
            have e : c.toNat = d.toNat := by omega
            rw [← Char.ofNat_toNat c, ← Char.ofNat_toNat d, e]
          subst hcd
          exact ih ds (fun hc => hne (by rw [hc])) h

theorem Insert_node (name : List Char) (wc : Int) (l r : Tree) (x : List Char) (c : Int) :
    Insert (Tree.node name wc l r) x c
      = if strLt x name = true then Tree.node name wc (attach l x c) r
        else Tree.node name wc l (attach r x c) := by
  unfold Insert
  split
  · cases l <;> rfl
  · cases r <;> rfl

theorem attach_node (name : List Char) (wc : Int) (l r : Tree) (x : List Char) (c : Int) :
    attach (Tree.node name wc l r) x c = Insert (Tree.node name wc l r) x c := rfl

/-- Attaching a node named `x` adds its count behind the counts on the search
path of `x` and changes the search path of no other word. -/
theorem pathCounts_attach (x : List Char) (c : Int) (w : List Char) :
    ∀ t : Tree, pathCounts (attach t x c) w
      = pathCounts t w ++ (if x = w then [c] else []) := by
  intro t
  induction t with
  | null =>
    show pathCounts (Tree.node x c Tree.null Tree.null) w = _
    by_cases hw : w = x
    · subst hw; simp [pathCounts]
    · have hxw : ¬ x = w := fun h => hw h.symm
      simp [pathCounts, hw, hxw]
  | node name wc l r ihl ihr =>
    rw [attach_node, Insert_node]
    by_cases hx : strLt x name = true
    · rw [if_pos hx]
      unfold pathCounts
      by_cases hw : w = name
      · rw [if_pos hw, if_pos hw]
        have hxw : x ≠ w := by
          intro hc
          rw [hc, hw, strLt_irrefl] at hx
          cases hx
        rw [if_neg hxw]; simp
      · rw [if_neg hw, if_neg hw]
        by_cases hl : strLt w name = true
        · rw [if_pos hl, if_pos hl]; exact ihl
        · rw [if_neg hl, if_neg hl]
          have hxw : x ≠ w := by
            intro hc
            rw [hc] at hx
            exact hl hx
          rw [if_neg hxw]; simp
    · rw [if_neg hx]
      unfold pathCounts
      by_cases hw : w = name
      · rw [if_pos hw, if_pos hw, ihr]; simp
      · rw [if_neg hw, if_neg hw]
        by_cases hl : strLt w name = true
        · rw [if_pos hl, if_pos hl]
          have hxw : x ≠ w := by
            intro hc
            rw [hc] at hx
            exact hx hl
          rw [if_neg hxw]; simp
        · rw [if_neg hl, if_neg hl]; exact ihr

/-- The function `locate` walks over the counts on the search path. -/
theorem locate_eq_pickCount (w : List Char) (m : Int) :
    ∀ (t : Tree) (pt : Int), locate t w m pt = pickCount (pathCounts t w) m pt := by
  intro t
  induction t with
  | null => intro pt; rfl
  | node name wc l r ihl ihr =>
    intro pt
    unfold locate pathCounts
    by_cases hw : w = name
    · rw [if_pos hw, if_pos hw]
      unfold pickCount
      by_cases hp : pt = m
      · rw [if_pos hp, if_pos hp]
      · rw [if_neg hp, if_neg hp]; exact ihr _
    · rw [if_neg hw, if_neg hw]
      by_cases hl : strLt w name = true
      · rw [if_pos hl, if_pos hl]; exact ihl _
      · rw [if_neg hl, if_neg hl]
        have hr : strLt name w = true :=
          strLt_total w name hw (by cases h : strLt w name <;> simp_all)
        rw [if_pos hr]; exact ihr _

theorem pathCounts_loadLoop (w : List Char) :
    ∀ (ws : List (List Char)) (t : Tree) (count : Int),
      pathCounts (loadLoop t count ws).1 w = pathCounts t w ++ countsFrom count ws w := by
  intro ws
  induction ws with
  | nil => intro t count; simp [loadLoop, countsFrom]
  | cons x xs ih =>
    intro t count
    have key : pathCounts (loadLoop (attach t x count) (wrap32 (count + 1)) xs).1 w
        = pathCounts t w ++ countsFrom count (x :: xs) w := by
      have ec : countsFrom count (x :: xs) w
          = if x = w then count :: countsFrom (wrap32 (count + 1)) xs w
            else countsFrom (wrap32 (count + 1)) xs w := rfl
      rw [ih, pathCounts_attach, ec]
      by_cases hx : x = w
      · rw [if_pos hx, if_pos hx]; simp
      · rw [if_neg hx, if_neg hx]; simp
    cases t with
    | null => exact key
    | node name wc l r => exact key

theorem wrap32_id (x : Int) (h1 : -(2 ^ 31) ≤ x) (h2 : x < 2 ^ 31) : wrap32 x = x := by
  unfold wrap32
  have h3 : (x + 2 ^ 31) % 2 ^ 32 = x + 2 ^ 31 := by
    apply Int.emod_eq_of_lt <;> omega
  rw [h3]; ring

/-- The counts given by the loop of `load`, started with the count `k + 1`, are
the positions of the occurrences of `w`, counted from `k + 1`. -/
theorem countsFrom_eq (w : List Char) :
    ∀ (ws : List (List Char)) (k : Nat), k + ws.length + 1 < 2 ^ 31 →
      countsFrom ((k : Int) + 1) ws w
        = ((ws.enumFrom k).filter (fun p => decide (p.2 = w))).map (fun p => (p.1 : Int) + 1) := by
  intro ws
  induction ws with
  | nil => intro k _; rfl
  | cons x xs ih =>
    intro k hk
    have hlen : (x :: xs).length = xs.length + 1 := rfl
    rw [hlen] at hk
    have hw : wrap32 ((k : Int) + 1 + 1) = ((k + 1 : Nat) : Int) + 1 := by
      rw [wrap32_id] <;> push_cast <;> omega
    have ec : countsFrom ((k : Int) + 1) (x :: xs) w
        = if x = w then ((k : Int) + 1) :: countsFrom (wrap32 ((k : Int) + 1 + 1)) xs w
          else countsFrom (wrap32 ((k : Int) + 1 + 1)) xs w := rfl
    rw [ec, hw, ih (k + 1) (by omega), List.enumFrom_cons, List.filter_cons]
    by_cases hx : x = w
    · rw [if_pos hx, if_pos (by simpa using hx), List.map_cons]
    · rw [if_neg hx, if_neg (by simpa using hx)]

/-- The walk of `locate` started with `*pt = j + 1` returns the count at index
`occurence - (j + 1)` if there is one, and 0 otherwise; `*pt` is 1 again. -/
theorem pickCount_eq (m : Int) :
    ∀ (cs : List Int) (j : Nat), j + cs.length + 1 < 2 ^ 31 →
      pickCount cs m ((j : Int) + 1)
        = (if (j : Int) + 1 ≤ m then
            (match cs[(m - ((j : Int) + 1)).toNat]? with
              | some c => c
              | none => 0)
           else 0, 1) := by
  intro cs
  induction cs with
  | nil =>
    intro j _
    unfold pickCount
    split <;> simp
  | cons c cs ih =>
    intro j hj
    have hlen : (c :: cs).length = cs.length + 1 := rfl
    rw [hlen] at hj
    unfold pickCount
    by_cases hp : (j : Int) + 1 = m
    · rw [if_pos hp, if_pos (by omega)]
      have : (m - ((j : Int) + 1)).toNat = 0 := by omega
      rw [this]
      simp
    · rw [if_neg hp]
      have hw : wrap32 ((j : Int) + 1 + 1) = ((j + 1 : Nat) : Int) + 1 := by
        rw [wrap32_id] <;> push_cast <;> omega
      rw [hw, ih (j + 1) (by omega)]
      by_cases hle : (j : Int) + 1 ≤ m
      · have h2 : ((j + 1 : Nat) : Int) + 1 ≤ m := by push_cast; omega
        rw [if_pos hle, if_pos h2]
        have e : (m - ((j : Int) + 1)).toNat = (m - (((j + 1 : Nat) : Int) + 1)).toNat + 1 := by
          push_cast; omega
        rw [e, List.getElem?_cons_succ]
      · have h2 : ¬ (((j + 1 : Nat) : Int) + 1 ≤ m) := by push_cast; omega
        rw [if_neg hle, if_neg h2]

theorem countsFrom_one (ws : List (List Char)) (w : List Char) (h : ws.length + 1 < 2 ^ 31) :
    countsFrom 1 ws w = (occurrencePositions ws w).map Int.ofNat := by
  have := countsFrom_eq w ws 0 (by omega)
  rw [show ((0 : Nat) : Int) + 1 = 1 from rfl] at this
  rw [this]
  unfold occurrencePositions List.enum
  rw [List.map_map]
  apply List.map_congr_left
  intro p _
  simp [Int.ofNat_eq_coe]

theorem occurrencePositions_length (ws : List (List Char)) (w : List Char) :
    (occurrencePositions ws w).length ≤ ws.length := by
  unfold occurrencePositions
  rw [List.length_map]
  refine le_trans (List.length_filter_le _ _) ?_
  simp [List.enum]

/-- C17: for a list `ws` of fewer than 2^31 - 1 words loaded into the empty
tree, every word `w` and every integer `m`, `locate` called with `*pt = 1`
returns the position of the `m`-th occurrence of `w` in `ws` if `m >= 1` and
`w` occurs at least `m` times, and 0 otherwise; on return `*pt` is 1. -/
theorem C17_locate_mth_occurrence (ws : List (List Char)) (hlen : ws.length + 1 < 2 ^ 31)
    (w : List Char) (m : Int) :
    locate (load Tree.null ws) w m 1 = (mthOccurrence ws w m, 1) := by
  unfold load
  rw [locate_eq_pickCount, pathCounts_loadLoop, countsFrom_one ws w hlen]
  have hl := occurrencePositions_length ws w
  have hp := pickCount_eq m ((occurrencePositions ws w).map Int.ofNat) 0
    (by rw [List.length_map]; omega)
  rw [show ((0 : Nat) : Int) + 1 = 1 from rfl] at hp
  show pickCount ([] ++ _) m 1 = _
  rw [List.nil_append, hp]
  unfold mthOccurrence
  by_cases h1 : 1 ≤ m
  · rw [if_pos h1, if_pos h1, List.getElem?_map]
    cases (occurrencePositions ws w)[(m - 1).toNat]? <;> simp [Int.ofNat_eq_coe]
  · rw [if_neg h1, if_neg h1]

/-- Witness for C17: in "the cat saw the dog the" the second occurrence of
"the" is word 4, and there is no fourth occurrence. -/
theorem C17_locate_mth_occurrence_witness :
    locate (load Tree.null sampleWords) "the".toList 2 1 = (4, 1)
      ∧ locate (load Tree.null sampleWords) "the".toList 4 1 = (0, 1)
      ∧ locate (load Tree.null sampleWords) "the".toList 2 1
          = (mthOccurrence sampleWords "the".toList 2, 1) :=
  ⟨by decide, by decide, C17_locate_mth_occurrence sampleWords (by decide) "the".toList 2⟩

/-- C32 (the code departs from the claim).  For the file "Foo-bar baz" the
loop reads the tokens "Foo-bar" and "baz"; the clean-up drops the hyphen and
gives the single word "foobar", so the tree holds "foobar" at position 1 and
"baz" at position 2, and "foo" and "bar" are not found.  By the claim the words
are "foo", "bar", "baz" at the positions 1, 2, 3.  A token without a letter,
digit or apostrophe, as "--" in "a -- b", is stored as the empty word and
takes a position: "b" is found at position 3. -/
theorem C32_punctuation_joins_words :
    tokensFrom "Foo-bar baz".toList [] = ["Foo-bar".toList, "baz".toList]
      ∧ cleanWord "Foo-bar".toList = "foobar".toList
      ∧ (tokensFrom "Foo-bar baz".toList []).map cleanWord = ["foobar".toList, "baz".toList]
      ∧ claimedWordsFrom "Foo-bar baz".toList [] = ["foo".toList, "bar".toList, "baz".toList]
      ∧ loadFile Tree.null "Foo-bar baz".toList
          = Tree.node "foobar".toList 1 (Tree.node "baz".toList 2 Tree.null Tree.null) Tree.null
      ∧ (locate (loadFile Tree.null "Foo-bar baz".toList) "foo".toList 1 1).1 = 0
      ∧ (locate (loadFile Tree.null "Foo-bar baz".toList) "bar".toList 1 1).1 = 0
      ∧ (locate (loadFile Tree.null "Foo-bar baz".toList) "foobar".toList 1 1).1 = 1
      ∧ (locate (loadFile Tree.null "Foo-bar baz".toList) "baz".toList 1 1).1 = 2
      ∧ mthOccurrence (claimedWordsFrom "Foo-bar baz".toList []) "baz".toList 1 = 3
      ∧ (tokensFrom "a -- b".toList []).map cleanWord = ["a".toList, [], "b".toList]
      ∧ claimedWordsFrom "a -- b".toList [] = ["a".toList, "b".toList]
      ∧ (locate (loadFile Tree.null "a -- b".toList) "b".toList 1 1).1 = 3 := by
  refine ⟨?_, ?_, ?_, ?_, ?_, ?_, ?_, ?_, ?_, ?_, ?_, ?_, ?_⟩ <;> decide

end wl
